import Mathlib

/-!
# PlugData: dialogs, settings panels, object menu and GUI objects

A shallow embedding of `Source/Dialogs.cpp` (blocking overlay, save, array and settings
dialogs, search-path panel, object menu) and of the parts of `Source/GUIObjects.h` that
carry logic (`GraphicalArray::clip`, the value synchronisation of `GUIComponent`).

The dialogs live in a toolkit component tree and finish through closures that the
button handlers post to the message queue (`MessageManager::callAsync`).  The embedding
keeps that structure:

* a *world* holds the parent component, the dialog object, the pending `callAsync`
  closures (oldest first), and a log of the calls the closures of `Dialogs.cpp` make;
* every closure of the source is a function from worlds to worlds;
* an *event* is what the toolkit delivers: a button click, a pointer press on the
  overlay, text typed into an editor, the message loop running the next pending
  closure, or the parent changing size.

After `delete this` the world keeps the last contents of the dialog object and marks it
`deleted`; a closure that still runs on it is recorded in `useAfterDelete`.
-/

namespace PlugData

/-! ## Toolkit values -/

/-- Value of a `juce::Rectangle<int>`: position and size. -/
structure Rectangle where
  x : Int
  y : Int
  w : Nat
  h : Nat
deriving DecidableEq, Repr

/-- Reading of a 32-bit pattern as a signed `int` (two's complement). -/
def toInt32 (v : Nat) : Int :=
  if v % 2 ^ 32 < 2 ^ 31 then ((v % 2 ^ 32 : Nat) : Int) else ((v % 2 ^ 32 : Nat) : Int) - 2 ^ 32

/-- Digit loop of the toolkit's `CharacterFunctions::getIntValue<int>`:
`v = v * 10 + (c - 48)` in an unsigned 32-bit accumulator, for as long as the next
character is a decimal digit. -/
def accumulateDigits : List Char → Nat → Nat
  | [], v => v
  | c :: cs, v =>
    if '0' ≤ c ∧ c ≤ '9' then accumulateDigits cs ((v * 10 + (c.toNat - 48)) % 2 ^ 32) else v

/-- Toolkit function `String::getIntValue()`: skips leading white space, reads an optional
minus sign and then decimal digits; the result is an `int`, so the value is taken
modulo `2 ^ 32`. -/
def getIntValue (s : String) : Int :=
  match s.toList.dropWhile Char.isWhitespace with
  | '-' :: rest => toInt32 (2 ^ 32 - accumulateDigits rest 0)
  | cs => toInt32 (accumulateDigits cs 0)

/-- The number a list of decimal digits denotes after the digits already read as `v`,
with no bound on the value. -/
def decimalDigits : List Char → Nat → Nat
  | [], v => v
  | c :: cs, v => decimalDigits cs (v * 10 + (c.toNat - 48))

/-- The spec's reading of a size text: the non-negative integer a string of decimal
digits denotes, with no bound on the value.  It is compared with `getIntValue`, which is
what the code reads. -/
def decimalValue (s : String) : Nat := decimalDigits s.toList 0

/-- Toolkit function `String::isNotEmpty()`. -/
def isNotEmpty (s : String) : Bool := decide (s ≠ "")

/-- The two text editors of the array dialog. -/
inductive Editor where
  | name
  | size
deriving DecidableEq, Repr

/-- State of a `juce::TextEditor` as far as `Dialogs.cpp` uses it. -/
structure TextEditor where
  /-- Current content. -/
  text : String
  /-- Whether the colour set for `TextEditor::outlineColourId` is `Colours::red`. -/
  outlineRed : Bool
  /-- Length limit set by `setInputRestrictions`, 0 for none. -/
  maxTextLength : Nat
  /-- Allowed characters set by `setInputRestrictions`, empty for all. -/
  allowedCharacters : List Char
deriving DecidableEq, Repr

/-- A default-constructed editor: empty, default colours, no restriction. -/
def TextEditor.default : TextEditor :=
  { text := "", outlineRed := false, maxTextLength := 0, allowedCharacters := [] }

/-- `TextEditor::isEmpty()`: the total number of characters is zero. -/
def TextEditor.isEmpty (e : TextEditor) : Bool := e.text.length == 0

/-- `TextEditor::getText()`. -/
def TextEditor.getText (e : TextEditor) : String := e.text

/-- `TextEditor::setText(newText)`. -/
def TextEditor.setText (e : TextEditor) (newText : String) : TextEditor :=
  { e with text := newText }

/-- `TextEditor::setInputRestrictions(maxTextLength, allowedCharacters)`. -/
def TextEditor.setInputRestrictions (e : TextEditor) (maxLen : Nat) (chars : String) :
    TextEditor :=
  { e with maxTextLength := maxLen, allowedCharacters := chars.toList }

/-- `TextEditor::setColour(TextEditor::outlineColourId, Colours::red)`. -/
def TextEditor.setOutlineRed (e : TextEditor) : TextEditor :=
  { e with outlineRed := true }

/-- The input filter installed by `setInputRestrictions`, applied to text that replaces
the whole content: characters outside the allowed set are dropped, then the text is cut
to the length limit. -/
def TextEditor.filterNewText (e : TextEditor) (t : String) : String :=
  let kept : List Char :=
    if e.allowedCharacters.isEmpty then t.toList
    else t.toList.filter (fun c => decide (c ∈ e.allowedCharacters))
  if 0 < e.maxTextLength then String.mk (kept.take e.maxTextLength) else String.mk kept

/-- The user selects the whole content of the editor and types or pastes `t`. -/
def TextEditor.typeOver (e : TextEditor) (t : String) : TextEditor :=
  { e with text := e.filterNewText t }

/-! ## The parent component -/

/-- The children of the parent component: the two components `Dialogs.cpp` attaches,
and whatever else the parent holds. -/
inductive Child where
  | background
  | dialog
  | other (n : Nat)
deriving DecidableEq, Repr

/-- The component a dialog is shown on (`editor` / `centre`). -/
structure Parent where
  width : Nat
  height : Nat
  children : List Child
deriving DecidableEq, Repr

/-- `Component::getLocalBounds()`. -/
def Parent.getLocalBounds (p : Parent) : Rectangle := ⟨0, 0, p.width, p.height⟩

/-- `Component::addChildComponent(c)` / `addAndMakeVisible(c)`: `c` is a child
afterwards.  The order of the children (the z-order) is not used. -/
def Parent.addChildComponent (p : Parent) (c : Child) : Parent :=
  { p with children := p.children.filter (fun x => decide (x ≠ c)) ++ [c] }

/-- `Component::removeChildComponent(c)`, which the destructor of `c` calls. -/
def Parent.removeChildComponent (p : Parent) (c : Child) : Parent :=
  { p with children := p.children.filter (fun x => decide (x ≠ c)) }

/-- `Component::setSize(w, h)` on the parent.  The children are told through
`parentSizeChanged()`, which `BlackoutComponent` does not override. -/
def Parent.setSize (p : Parent) (w h : Nat) : Parent :=
  { p with width := w, height := h }

/-! ## The call log -/

/-- The calls made by the closures of `Dialogs.cpp`, as they are logged. -/
inductive Call where
  /-- The call `background->setVisible(v)`. -/
  | backgroundSetVisible (shouldBeVisible : Bool)
  /-- The call `cb(result)` of the save dialog. -/
  | cbSave (result : Int)
  /-- The call `cb(result, name, size)` of the array dialog. -/
  | cbArray (result : Int) (name : String) (size : String)
  /-- The two calls `nameEditor.getText()` and `sizeEditor.getText()` that evaluate the
  arguments of `cb` in a deferred closure; the language leaves their order open. -/
  | getTexts
  /-- The call `setColour(TextEditor::outlineColourId, Colours::red)` on an editor. -/
  | setColourRed (e : Editor)
  /-- The statement `delete this`. -/
  | deleteThis
deriving DecidableEq, Repr

/-- Whether a logged call is an invocation of the completion callback. -/
def Call.isCb : Call → Bool
  | .cbSave _ => true
  | .cbArray _ _ _ => true
  | _ => false

/-- The completion-callback invocations of a log, in order. -/
def callbacks (log : List Call) : List Call := log.filter Call.isCb

/-! ## BlackoutComponent -/

/-- The struct `BlackoutComponent`; `C` is the type of the closures it can hold in
`onClose`. -/
structure BlackoutComponent (C : Type) where
  /-- The member `std::function<void()> onClose`; `none` is an empty function. -/
  onClose : Option C
  bounds : Rectangle
  visible : Bool
  alwaysOnTop : Bool
deriving DecidableEq, Repr

/-- `BlackoutComponent::resized()`: `setBounds(parent->getLocalBounds())`. -/
def BlackoutComponent.resized {C : Type} (b : BlackoutComponent C) (parent : Parent) :
    BlackoutComponent C :=
  { b with bounds := parent.getLocalBounds }

/-- The constructor `BlackoutComponent(p, d, closeCallback)`:
`parent->addAndMakeVisible(this); setAlwaysOnTop(true); dialog->setAlwaysOnTop(true);
resized();`.  Returns the parent with the new child and the new component; the caller
sets the always-on-top flag of the dialog. -/
def BlackoutComponent.create {C : Type} (p : Parent) (closeCallback : Option C) :
    Parent × BlackoutComponent C :=
  let p1 := p.addChildComponent Child.background
  let b : BlackoutComponent C :=
    { onClose := closeCallback, bounds := ⟨0, 0, 0, 0⟩, visible := true, alwaysOnTop := true }
  (p1, b.resized p1)

/-! ## SaveDialog -/

/-- The three buttons of the save dialog. -/
inductive SaveButton where
  | cancel
  | dontsave
  | save
deriving DecidableEq, Repr

/-- The closures without arguments that the save dialog stores: the three `onClick`
handlers, and the default `closeCallback` of its overlay. -/
inductive SaveClosure where
  /-- The default `closeCallback` of the `BlackoutComponent` constructor, a lambda with
  an empty body. -/
  | closeDefault
  /-- The handler assigned to `cancel.onClick`. -/
  | cancelOnClick
  /-- The handler assigned to `save.onClick`. -/
  | saveOnClick
  /-- The handler assigned to `dontsave.onClick`. -/
  | dontsaveOnClick
deriving DecidableEq, Repr

/-- The closures the save dialog passes to `MessageManager::callAsync`. -/
inductive SaveAsync where
  | cancel
  | save
  | dontsave
deriving DecidableEq, Repr

/-- The struct `SaveDialog`: the handlers of its buttons and the owned overlay
(`std::unique_ptr<BlackoutComponent> background`). -/
structure SaveDialog where
  cancelOnClick : Option SaveClosure
  saveOnClick : Option SaveClosure
  dontsaveOnClick : Option SaveClosure
  background : Option (BlackoutComponent SaveClosure)
  alwaysOnTop : Bool
deriving DecidableEq, Repr

/-- The world of one save dialog. -/
structure SaveWorld where
  parent : Parent
  /-- The dialog object (its last contents once deleted). -/
  dialog : SaveDialog
  /-- Whether `delete this` has run. -/
  deleted : Bool
  /-- Closures posted with `callAsync` and not yet run, oldest first. -/
  queue : List SaveAsync
  log : List Call
  /-- Whether a closure has run on the dialog after its deletion. -/
  useAfterDelete : Bool
deriving DecidableEq, Repr

/-- The constructor `SaveDialog(editor)`: the three handlers are assigned, then the
overlay is created without a close callback. -/
def SaveDialog.create (editor : Parent) : Parent × SaveDialog :=
  let d0 : SaveDialog :=
    { cancelOnClick := none, saveOnClick := none, dontsaveOnClick := none,
      background := none, alwaysOnTop := false }
  let d1 := { d0 with cancelOnClick := some SaveClosure.cancelOnClick }
  let d2 := { d1 with saveOnClick := some SaveClosure.saveOnClick }
  let d3 := { d2 with dontsaveOnClick := some SaveClosure.dontsaveOnClick }
  let pb := BlackoutComponent.create editor (some SaveClosure.closeDefault)
  (pb.1, { d3 with background := some pb.2, alwaysOnTop := true })

/-- `Dialogs::showSaveDialog(centre, callback)`: the dialog is constructed and added
to `centre`. -/
def showSaveDialog (centre : Parent) : SaveWorld :=
  let pd := SaveDialog.create centre
  { parent := pd.1.addChildComponent Child.dialog, dialog := pd.2, deleted := false,
    queue := [], log := [], useAfterDelete := false }

/-- `MessageManager::callAsync(a)`. -/
def SaveWorld.callAsync (w : SaveWorld) (a : SaveAsync) : SaveWorld :=
  { w with queue := w.queue ++ [a] }

/-- Any access through `this`: it is a use after deletion once the dialog is deleted. -/
def SaveWorld.touch (w : SaveWorld) : SaveWorld :=
  { w with useAfterDelete := w.useAfterDelete || w.deleted }

/-- The statement `background->setVisible(v)`. -/
def SaveWorld.backgroundSetVisible (w : SaveWorld) (v : Bool) : SaveWorld :=
  let w1 := w.touch
  { w1 with
    dialog := { w1.dialog with
      background := w1.dialog.background.map (fun b => { b with visible := v }) },
    log := w1.log ++ [Call.backgroundSetVisible v] }

/-- The statement `cb(result)`. -/
def SaveWorld.cb (w : SaveWorld) (result : Int) : SaveWorld :=
  let w1 := w.touch
  { w1 with log := w1.log ++ [Call.cbSave result] }

/-- The statement `delete this`: the destructor destroys the owned overlay, whose
destructor takes it off the parent, and then takes the dialog off the parent. -/
def SaveWorld.deleteThis (w : SaveWorld) : SaveWorld :=
  let w1 := w.touch
  { w1 with
    deleted := true,
    dialog := { w1.dialog with background := none },
    parent := (w1.parent.removeChildComponent Child.background).removeChildComponent
      Child.dialog,
    log := w1.log ++ [Call.deleteThis] }

/-- The bodies of the closures passed to `callAsync`. -/
def SaveAsync.run : SaveAsync → SaveWorld → SaveWorld
  | .cancel, w => ((w.backgroundSetVisible false).cb 0).deleteThis
  | .save, w => (w.cb 2).deleteThis
  | .dontsave, w => (w.cb 1).deleteThis

/-- The bodies of the stored closures. -/
def SaveClosure.run : SaveClosure → SaveWorld → SaveWorld
  | .closeDefault, w => w
  | .cancelOnClick, w => w.callAsync SaveAsync.cancel
  | .saveOnClick, w => w.callAsync SaveAsync.save
  | .dontsaveOnClick, w => w.callAsync SaveAsync.dontsave

/-- The `onClick` member of a button. -/
def SaveDialog.onClick (d : SaveDialog) : SaveButton → Option SaveClosure
  | .cancel => d.cancelOnClick
  | .dontsave => d.dontsaveOnClick
  | .save => d.saveOnClick

/-- What the toolkit delivers to a save dialog. -/
inductive SaveEvent where
  /-- A click on one of the buttons. -/
  | click (b : SaveButton)
  /-- A pointer press on the overlay: `BlackoutComponent::mouseDown`. -/
  | backgroundMouseDown
  /-- The message loop runs the oldest pending `callAsync` closure. -/
  | dispatch
  /-- The parent component changes size. -/
  | parentSetSize (w h : Nat)
deriving DecidableEq, Repr

/-- `Button::onClick` of button `b` is called, if it holds a closure. -/
def SaveWorld.clickHandler (w : SaveWorld) (b : SaveButton) : SaveWorld :=
  match w.dialog.onClick b with
  | some c => c.run w
  | none => w

/-- `BlackoutComponent::mouseDown`: `onClose()`.  Only a visible overlay receives the
pointer. -/
def SaveWorld.mouseDown (w : SaveWorld) : SaveWorld :=
  match w.dialog.background with
  | some b =>
    if b.visible then
      match b.onClose with
      | some c => c.run w
      | none => w
    else w
  | none => w

/-- One event.  A deleted dialog is off the component tree and receives no clicks. -/
def SaveWorld.step (w : SaveWorld) : SaveEvent → SaveWorld
  | .click b => if w.deleted then w else w.clickHandler b
  | .backgroundMouseDown => if w.deleted then w else w.mouseDown
  | .dispatch =>
    match w.queue with
    | [] => w
    | a :: rest => a.run { w with queue := rest }
  | .parentSetSize nw nh => { w with parent := w.parent.setSize nw nh }

/-- A sequence of events, in the order of delivery. -/
def SaveWorld.run (w : SaveWorld) (es : List SaveEvent) : SaveWorld :=
  es.foldl SaveWorld.step w

/-- The message loop runs pending closures `n` times. -/
def SaveWorld.drain : Nat → SaveWorld → SaveWorld
  | 0, w => w
  | n + 1, w => SaveWorld.drain n (w.step SaveEvent.dispatch)

/-- The message loop runs until every closure now pending has run. -/
def SaveWorld.dispatchAll (w : SaveWorld) : SaveWorld :=
  SaveWorld.drain w.queue.length w

/-- A sequence of events in which the message loop runs all pending closures after each
event, before the next one is delivered. -/
def SaveWorld.runEager (w : SaveWorld) (es : List SaveEvent) : SaveWorld :=
  es.foldl (fun v e => (v.step e).dispatchAll) w

/-- A save dialog that is open as `showSaveDialog` left it: not deleted, the three
handlers in place, the overlay present, visible and without a close action, and the
overlay a child of the parent. -/
def SaveWorld.Open (w : SaveWorld) : Prop :=
  w.deleted = false ∧
  w.dialog.cancelOnClick = some SaveClosure.cancelOnClick ∧
  w.dialog.saveOnClick = some SaveClosure.saveOnClick ∧
  w.dialog.dontsaveOnClick = some SaveClosure.dontsaveOnClick ∧
  w.dialog.background.map (fun b => (b.onClose, b.visible)) =
    some (some SaveClosure.closeDefault, true) ∧
  Child.background ∈ w.parent.children

/-- No closure is pending and no closure has run on a deleted dialog. -/
def SaveWorld.Quiet (w : SaveWorld) : Prop :=
  w.queue = [] ∧ w.useAfterDelete = false

/-- Whether the overlay is on screen: it exists, is a child of the parent and is
visible. -/
def SaveWorld.backgroundShown (w : SaveWorld) : Bool :=
  match w.dialog.background with
  | some b => b.visible && decide (Child.background ∈ w.parent.children)
  | none => false

/-- The value the source passes to `cb` for each button. -/
def SaveButton.value : SaveButton → Int
  | .cancel => 0
  | .dontsave => 1
  | .save => 2

/-- The closure the handler of each button posts. -/
def SaveButton.async : SaveButton → SaveAsync
  | .cancel => SaveAsync.cancel
  | .dontsave => SaveAsync.dontsave
  | .save => SaveAsync.save

/-- The first button click of an event sequence. -/
def SaveEvent.firstClick : List SaveEvent → Option SaveButton
  | [] => none
  | .click b :: _ => some b
  | _ :: es => SaveEvent.firstClick es

/-! ## ArrayDialog -/

/-- The closures without arguments that the array dialog stores. -/
inductive ArrayClosure where
  /-- The handler assigned to `cancel.onClick`. -/
  | cancelOnClick
  /-- The handler assigned to `ok.onClick`. -/
  | okOnClick
deriving DecidableEq, Repr

/-- The closures the array dialog passes to `MessageManager::callAsync`. -/
inductive ArrayAsync where
  | cancel
  | ok
deriving DecidableEq, Repr

/-- The struct `ArrayDialog`: the two editors, the handlers of the two buttons and the
owned overlay. -/
structure ArrayDialog where
  nameEditor : TextEditor
  sizeEditor : TextEditor
  cancelOnClick : Option ArrayClosure
  okOnClick : Option ArrayClosure
  background : Option (BlackoutComponent ArrayClosure)
  alwaysOnTop : Bool
deriving DecidableEq, Repr

/-- The world of one array dialog. -/
structure ArrayWorld where
  parent : Parent
  /-- The dialog object (its last contents once deleted). -/
  dialog : ArrayDialog
  /-- Whether `delete this` has run. -/
  deleted : Bool
  /-- Closures posted with `callAsync` and not yet run, oldest first. -/
  queue : List ArrayAsync
  log : List Call
  /-- Whether a closure has run on the dialog after its deletion. -/
  useAfterDelete : Bool
deriving DecidableEq, Repr

/-- The constructor `ArrayDialog(editor)`: the two handlers are assigned, the size
editor is restricted to ten decimal digits, the overlay is created with a copy of
`cancel.onClick` as close callback, and the editors get their initial texts. -/
def ArrayDialog.create (editor : Parent) : Parent × ArrayDialog :=
  let d0 : ArrayDialog :=
    { nameEditor := TextEditor.default, sizeEditor := TextEditor.default,
      cancelOnClick := none, okOnClick := none, background := none, alwaysOnTop := false }
  let d1 := { d0 with cancelOnClick := some ArrayClosure.cancelOnClick }
  let d2 := { d1 with okOnClick := some ArrayClosure.okOnClick }
  let d3 := { d2 with sizeEditor := d2.sizeEditor.setInputRestrictions 10 "0123456789" }
  let pb := BlackoutComponent.create editor d3.cancelOnClick
  let d4 := { d3 with background := some pb.2, alwaysOnTop := true }
  let d5 := { d4 with nameEditor := d4.nameEditor.setText "array1" }
  (pb.1, { d5 with sizeEditor := d5.sizeEditor.setText "100" })

/-- `Dialogs::showArrayDialog(centre, callback)`: the dialog is constructed and added
to `centre`. -/
def showArrayDialog (centre : Parent) : ArrayWorld :=
  let pd := ArrayDialog.create centre
  { parent := pd.1.addChildComponent Child.dialog, dialog := pd.2, deleted := false,
    queue := [], log := [], useAfterDelete := false }

/-- `MessageManager::callAsync(a)`. -/
def ArrayWorld.callAsync (w : ArrayWorld) (a : ArrayAsync) : ArrayWorld :=
  { w with queue := w.queue ++ [a] }

/-- Any access through `this`: it is a use after deletion once the dialog is deleted. -/
def ArrayWorld.touch (w : ArrayWorld) : ArrayWorld :=
  { w with useAfterDelete := w.useAfterDelete || w.deleted }

/-- The statement `background->setVisible(v)`. -/
def ArrayWorld.backgroundSetVisible (w : ArrayWorld) (v : Bool) : ArrayWorld :=
  let w1 := w.touch
  { w1 with
    dialog := { w1.dialog with
      background := w1.dialog.background.map (fun b => { b with visible := v }) },
    log := w1.log ++ [Call.backgroundSetVisible v] }

/-- The statement `cb(result, name, size)` with given argument values. -/
def ArrayWorld.cb (w : ArrayWorld) (result : Int) (name size : String) : ArrayWorld :=
  let w1 := w.touch
  { w1 with log := w1.log ++ [Call.cbArray result name size] }

/-- The statement `cb(1, nameEditor.getText(), sizeEditor.getText())`: the two editors
are read when the statement runs, in an order the language leaves open; reading does
not change them. -/
def ArrayWorld.cbWithTexts (w : ArrayWorld) : ArrayWorld :=
  let w1 := w.touch
  let w2 := { w1 with log := w1.log ++ [Call.getTexts] }
  w2.cb 1 w2.dialog.nameEditor.getText w2.dialog.sizeEditor.getText

/-- The statement `delete this`: the destructor destroys the owned overlay, whose
destructor takes it off the parent, and then takes the dialog off the parent. -/
def ArrayWorld.deleteThis (w : ArrayWorld) : ArrayWorld :=
  let w1 := w.touch
  { w1 with
    deleted := true,
    dialog := { w1.dialog with background := none },
    parent := (w1.parent.removeChildComponent Child.background).removeChildComponent
      Child.dialog,
    log := w1.log ++ [Call.deleteThis] }

/-- The bodies of the closures passed to `callAsync`. -/
def ArrayAsync.run : ArrayAsync → ArrayWorld → ArrayWorld
  | .cancel, w => ((w.backgroundSetVisible false).cb 0 "" "").deleteThis
  | .ok, w => ((w.backgroundSetVisible false).cbWithTexts).deleteThis

/-- The statements `e.setColour(TextEditor::outlineColourId, Colours::red);
e.giveAwayKeyboardFocus(); e.repaint();` on one of the editors.  Keyboard focus and
repainting are not part of the world. -/
def ArrayWorld.flag (w : ArrayWorld) : Editor → ArrayWorld
  | .name =>
    { w with
      dialog := { w.dialog with nameEditor := w.dialog.nameEditor.setOutlineRed },
      log := w.log ++ [Call.setColourRed Editor.name] }
  | .size =>
    { w with
      dialog := { w.dialog with sizeEditor := w.dialog.sizeEditor.setOutlineRed },
      log := w.log ++ [Call.setColourRed Editor.size] }

/-- The body of the handler assigned to `ok.onClick`: three `if` statements in a row. -/
def ArrayWorld.okOnClick (w : ArrayWorld) : ArrayWorld :=
  let w1 := if w.dialog.nameEditor.isEmpty then w.flag Editor.name else w
  let w2 := if getIntValue w1.dialog.sizeEditor.getText < 0 then w1.flag Editor.size else w1
  if isNotEmpty w2.dialog.nameEditor.getText ∧ getIntValue w2.dialog.sizeEditor.getText ≥ 0
  then w2.callAsync ArrayAsync.ok
  else w2

/-- The bodies of the stored closures. -/
def ArrayClosure.run : ArrayClosure → ArrayWorld → ArrayWorld
  | .cancelOnClick, w => w.callAsync ArrayAsync.cancel
  | .okOnClick, w => w.okOnClick

/-- The two buttons of the array dialog. -/
inductive ArrayButton where
  | cancel
  | ok
deriving DecidableEq, Repr

/-- The `onClick` member of a button. -/
def ArrayDialog.onClick (d : ArrayDialog) : ArrayButton → Option ArrayClosure
  | .cancel => d.cancelOnClick
  | .ok => d.okOnClick

/-- What the toolkit delivers to an array dialog. -/
inductive ArrayEvent where
  /-- A click on one of the buttons. -/
  | click (b : ArrayButton)
  /-- A pointer press on the overlay: `BlackoutComponent::mouseDown`. -/
  | backgroundMouseDown
  /-- The user replaces the content of an editor by typing or pasting `t`. -/
  | typeText (e : Editor) (t : String)
  /-- The message loop runs the oldest pending `callAsync` closure. -/
  | dispatch
  /-- The parent component changes size. -/
  | parentSetSize (w h : Nat)
deriving DecidableEq, Repr

/-- `Button::onClick` of button `b` is called, if it holds a closure. -/
def ArrayWorld.clickHandler (w : ArrayWorld) (b : ArrayButton) : ArrayWorld :=
  match w.dialog.onClick b with
  | some c => c.run w
  | none => w

/-- `BlackoutComponent::mouseDown`: `onClose()`.  Only a visible overlay receives the
pointer. -/
def ArrayWorld.mouseDown (w : ArrayWorld) : ArrayWorld :=
  match w.dialog.background with
  | some b =>
    if b.visible then
      match b.onClose with
      | some c => c.run w
      | none => w
    else w
  | none => w

/-- Text typed into one of the editors. -/
def ArrayWorld.typeText (w : ArrayWorld) : Editor → String → ArrayWorld
  | .name, t => { w with dialog := { w.dialog with nameEditor := w.dialog.nameEditor.typeOver t } }
  | .size, t => { w with dialog := { w.dialog with sizeEditor := w.dialog.sizeEditor.typeOver t } }

/-- One event.  A deleted dialog is off the component tree and receives no input. -/
def ArrayWorld.step (w : ArrayWorld) : ArrayEvent → ArrayWorld
  | .click b => if w.deleted then w else w.clickHandler b
  | .backgroundMouseDown => if w.deleted then w else w.mouseDown
  | .typeText e t => if w.deleted then w else w.typeText e t
  | .dispatch =>
    match w.queue with
    | [] => w
    | a :: rest => a.run { w with queue := rest }
  | .parentSetSize nw nh => { w with parent := w.parent.setSize nw nh }

/-- A sequence of events, in the order of delivery. -/
def ArrayWorld.run (w : ArrayWorld) (es : List ArrayEvent) : ArrayWorld :=
  es.foldl ArrayWorld.step w

/-- The message loop runs pending closures `n` times. -/
def ArrayWorld.drain : Nat → ArrayWorld → ArrayWorld
  | 0, w => w
  | n + 1, w => ArrayWorld.drain n (w.step ArrayEvent.dispatch)

/-- The message loop runs until every closure now pending has run. -/
def ArrayWorld.dispatchAll (w : ArrayWorld) : ArrayWorld :=
  ArrayWorld.drain w.queue.length w

/-- A sequence of events in which the message loop runs all pending closures after each
event, before the next one is delivered. -/
def ArrayWorld.runEager (w : ArrayWorld) (es : List ArrayEvent) : ArrayWorld :=
  es.foldl (fun v e => (v.step e).dispatchAll) w

/-- An array dialog that is open as `showArrayDialog` left it: not deleted, the two
handlers in place, the overlay present, visible and closing through the cancel
handler, and the overlay a child of the parent. -/
def ArrayWorld.Open (w : ArrayWorld) : Prop :=
  w.deleted = false ∧
  w.dialog.cancelOnClick = some ArrayClosure.cancelOnClick ∧
  w.dialog.okOnClick = some ArrayClosure.okOnClick ∧
  w.dialog.background.map (fun b => (b.onClose, b.visible)) =
    some (some ArrayClosure.cancelOnClick, true) ∧
  Child.background ∈ w.parent.children

/-- No closure is pending and no closure has run on a deleted dialog. -/
def ArrayWorld.Quiet (w : ArrayWorld) : Prop :=
  w.queue = [] ∧ w.useAfterDelete = false

/-- Whether the overlay is on screen: it exists, is a child of the parent and is
visible. -/
def ArrayWorld.backgroundShown (w : ArrayWorld) : Bool :=
  match w.dialog.background with
  | some b => b.visible && decide (Child.background ∈ w.parent.children)
  | none => false

/-- The state of an array dialog between events when the message loop keeps up: nothing
is pending, and either the dialog is open and no confirmation has been logged, or it is
deleted and every logged confirmation carries a non-empty name and a size text of
non-negative value, which are the last contents of the two editors. -/
def ArrayWorld.Settled (w : ArrayWorld) : Prop :=
  w.Quiet ∧
  ((w.Open ∧ ∀ n s, Call.cbArray 1 n s ∉ w.log) ∨
   (w.deleted = true ∧ ∀ n s, Call.cbArray 1 n s ∈ w.log →
      n ≠ "" ∧ 0 ≤ getIntValue s ∧
      n = w.dialog.nameEditor.text ∧ s = w.dialog.sizeEditor.text))

/-- The size editor is as the constructor of the array dialog restricted it, and its
content respects the restriction: at most ten characters, all of them decimal digits. -/
def ArrayWorld.SizeRestricted (w : ArrayWorld) : Prop :=
  w.dialog.sizeEditor.maxTextLength = 10 ∧
  w.dialog.sizeEditor.allowedCharacters = "0123456789".toList ∧
  w.dialog.sizeEditor.text.length ≤ 10 ∧
  ∀ c ∈ w.dialog.sizeEditor.text.toList, '0' ≤ c ∧ c ≤ '9'

/-- The overlay of a save dialog lives exactly as long as the dialog: while the dialog
is not deleted it is open and its overlay has the bounds `r`; once it is deleted the
overlay is destroyed and no longer a child of the parent. -/
def SaveWorld.Consistent (r : Rectangle) (w : SaveWorld) : Prop :=
  (w.deleted = false →
    w.Open ∧ w.dialog.background.map (fun b => b.bounds) = some r) ∧
  (w.deleted = true →
    w.dialog.background = none ∧ Child.background ∉ w.parent.children)

/-- The overlay of an array dialog lives exactly as long as the dialog: while the dialog
is not deleted it is open and its overlay has the bounds `r`; once it is deleted the
overlay is destroyed and no longer a child of the parent. -/
def ArrayWorld.Consistent (r : Rectangle) (w : ArrayWorld) : Prop :=
  (w.deleted = false →
    w.Open ∧ w.dialog.background.map (fun b => b.bounds) = some r) ∧
  (w.deleted = true →
    w.dialog.background = none ∧ Child.background ∉ w.parent.children)

/-- Whether an event is a change of the parent's size. -/
def SaveEvent.isParentSetSize : SaveEvent → Bool
  | .parentSetSize _ _ => true
  | _ => false

/-- Whether an event is a change of the parent's size. -/
def ArrayEvent.isParentSetSize : ArrayEvent → Bool
  | .parentSetSize _ _ => true
  | _ => false

instance (w : SaveWorld) : Decidable w.Open := by
  unfold SaveWorld.Open; infer_instance

instance (w : SaveWorld) : Decidable w.Quiet := by
  unfold SaveWorld.Quiet; infer_instance

instance (w : ArrayWorld) : Decidable w.Open := by
  unfold ArrayWorld.Open; infer_instance

instance (w : ArrayWorld) : Decidable w.Quiet := by
  unfold ArrayWorld.Quiet; infer_instance

/-! ## The object menu -/

/-- The callback built in `Dialogs::showObjectMenu`, as the list of names it passes to
`cb`: `if (choice < 1) return;`, then the `switch` over `choice`, whose `default`
returns, then `cb(boxName)`. -/
def objectMenuCallback (choice : Int) : List String :=
  if choice < 1 then []
  else
    let boxName : Option String :=
      if choice = 5 then some "hsl"
      else if choice = 7 then some "hradio"
      else if choice = 8 then some "vradio"
      else if choice = 10 then some "symbolatom"
      else if choice = 16 then some "listbox"
      else if choice = 11 then some "array"
      else if choice = 12 then some "graph"
      else if choice = 14 then some "cnv"
      else if choice = 15 then some "keyboard"
      else none
    match boxName with
    | some name => [name]
    | none => []

/-- The partial map of the object menu as the specification lists it. -/
def objectMenuMap : List (Int × String) :=
  [(5, "hsl"), (7, "hradio"), (8, "vradio"), (10, "symbolatom"), (11, "array"),
   (12, "graph"), (14, "cnv"), (15, "keyboard"), (16, "listbox")]

/-! ## GraphicalArray::clip -/

/-- `std::min(a, b)`: `(b < a) ? b : a`, for any element type with a comparison
`operator<`. -/
def stdMin {α : Type} [LT α] [DecidableRel (fun a b : α => a < b)] (a b : α) : α :=
  if b < a then b else a

/-- `std::max(a, b)`: `(a < b) ? b : a`, for any element type with a comparison
`operator<`. -/
def stdMax {α : Type} [LT α] [DecidableRel (fun a b : α => a < b)] (a b : α) : α :=
  if a < b then b else a

/-- The template `GraphicalArray::clip(n, lower, upper)`:
`std::max(std::min(n, upper), lower)`, for any element type with a comparison
`operator<`. -/
def clip {α : Type} [LT α] [DecidableRel (fun a b : α => a < b)] (n lower upper : α) : α :=
  stdMax (stdMin n upper) lower

/-- A value of type `float` as far as comparisons go: not-a-number, minus infinity, a
finite number, or plus infinity.  The element type of `vec` and `temp` in
`GraphicalArray` is `float`. -/
inductive FloatValue where
  | nan
  | negInf
  | num (q : Rat)
  | posInf
deriving DecidableEq, Repr

/-- The comparison `a < b` on `float`: false as soon as one side is not-a-number. -/
def FloatValue.lt : FloatValue → FloatValue → Prop
  | .negInf, .num _ => True
  | .negInf, .posInf => True
  | .num x, .num y => x < y
  | .num _, .posInf => True
  | _, _ => False

/-- The comparison `a <= b` on `float`: false as soon as one side is not-a-number. -/
def FloatValue.le : FloatValue → FloatValue → Prop
  | .negInf, .negInf => True
  | .negInf, .num _ => True
  | .negInf, .posInf => True
  | .num x, .num y => x ≤ y
  | .num _, .posInf => True
  | .posInf, .posInf => True
  | _, _ => False

instance : LT FloatValue := ⟨FloatValue.lt⟩
instance : LE FloatValue := ⟨FloatValue.le⟩
instance (a b : FloatValue) : Decidable (a < b) := by
  cases a <;> cases b <;> simp only [LT.lt, FloatValue.lt] <;> infer_instance
instance (a b : FloatValue) : Decidable (a ≤ b) := by
  cases a <;> cases b <;> simp only [LE.le, FloatValue.le] <;> infer_instance

/-- The `float` value of an extended rational number: bottom is minus infinity, top is
plus infinity.  Every `float` value other than not-a-number is of this form. -/
def FloatValue.ofExtended (x : WithBot (WithTop Rat)) : FloatValue :=
  WithBot.recBotCoe FloatValue.negInf
    (fun t => WithTop.recTopCoe FloatValue.posInf (fun q => FloatValue.num q) t) x

/-! ## SettingsComponent -/

/-- The struct `SettingsComponent` as far as panel switching goes: the member
`currentPanel` and, for each component in `panels`, whether it is visible. -/
structure SettingsComponent where
  currentPanel : Int
  panels : List Bool
deriving DecidableEq, Repr

/-- `SettingsComponent::showPanel(idx)`:
`panels[currentPanel]->setVisible(false); panels[idx]->setVisible(true);
currentPanel = idx;`.  Outside the array `panels[i]` is a null pointer and the call has
no defined result. -/
def SettingsComponent.showPanel (c : SettingsComponent) (idx : Int) :
    Option SettingsComponent :=
  if 0 ≤ c.currentPanel ∧ c.currentPanel < c.panels.length ∧
      0 ≤ idx ∧ idx < c.panels.length then
    let hidden := c.panels.set c.currentPanel.toNat false
    let shown := hidden.set idx.toNat true
    some { currentPanel := idx, panels := shown }
  else none

/-- The constructor `SettingsComponent(...)`: three panels are added with
`addChildComponent`, which leaves them invisible, and `currentPanel` is 0; the last
statement, `toolbarButtons[0]->setToggleState(true, sendNotification)`, calls the
`onClick` of the first toolbar button, which is `showPanel(0)`. -/
def SettingsComponent.create : Option SettingsComponent :=
  SettingsComponent.showPanel { currentPanel := 0, panels := [false, false, false] } 0

/-- A sequence of `showPanel` calls. -/
def SettingsComponent.showPanels : List Int → SettingsComponent → Option SettingsComponent
  | [], c => some c
  | i :: rest, c => (c.showPanel i).bind (SettingsComponent.showPanels rest)

/-! ## SearchPathComponent -/

/-- A child of the `ValueTree` the search-path panel works on: its type name and its
"Path" property, if it has one. -/
structure PathChild where
  typeName : String
  path : Option String
deriving DecidableEq, Repr

/-- `child.getProperty("Path")` as `items.add` stores it: a missing property is a void
value, which converts to the empty string. -/
def PathChild.getPathProperty (c : PathChild) : String := c.path.getD ""

/-- The `File` a file chooser returns, as far as the add handler reads it. -/
structure ChosenFile where
  fullPathName : String
  existsOnDisk : Bool
deriving DecidableEq, Repr

/-- The class `SearchPathComponent`: the children of `tree` in order, the list `items`,
and the selected row of `table` (`table.getSelectedRow()`, -1 when no row is
selected). -/
structure SearchPathComponent where
  tree : List PathChild
  items : List String
  selectedRow : Int
deriving DecidableEq, Repr

/-- `table.selectRow(row)` on a table of `rows` rows: a row outside the table clears the
selection. -/
def tableSelectRow (rows : Nat) (row : Int) : Int :=
  if 0 ≤ row ∧ row < rows then row else -1

/-- `SearchPathComponent::loadData()`: `items` is cleared and refilled from the children
of `tree`, the table re-reads the number of rows, and `items.size() - 1` is selected. -/
def SearchPathComponent.loadData (c : SearchPathComponent) : SearchPathComponent :=
  let items := c.tree.map PathChild.getPathProperty
  { c with items := items, selectedRow := tableSelectRow items.length ((items.length : Int) - 1) }

/-- `SearchPathComponent::getNumRows()`: `items.size()`. -/
def SearchPathComponent.getNumRows (c : SearchPathComponent) : Int := c.items.length

/-- The constructor `SearchPathComponent(libraryTree)`: the table starts without a
selection and `loadData()` is called. -/
def SearchPathComponent.create (libraryTree : List PathChild) : SearchPathComponent :=
  SearchPathComponent.loadData { tree := libraryTree, items := [], selectedRow := -1 }

/-- The callback of the file chooser launched by `addButton.onClick`. -/
def SearchPathComponent.add (c : SearchPathComponent) (result : ChosenFile) :
    SearchPathComponent :=
  if !result.existsOnDisk then c
  else
    let child : PathChild := { typeName := "Path", path := some result.fullPathName }
    SearchPathComponent.loadData { c with tree := c.tree ++ [child] }

/-- `tree.removeChild(idx, nullptr)`: an index outside the children removes nothing. -/
def removeChild (children : List PathChild) (idx : Int) : List PathChild :=
  if 0 ≤ idx ∧ idx < children.length then children.eraseIdx idx.toNat else children

/-- The handler `removeButton.onClick`. -/
def SearchPathComponent.remove (c : SearchPathComponent) : SearchPathComponent :=
  let idx := c.selectedRow
  SearchPathComponent.loadData { c with tree := removeChild c.tree idx }

/-- The handler `resetButton.onClick`; `abstractionsDir` is the full path name of the
Abstractions directory in the user's application data. -/
def SearchPathComponent.reset (c : SearchPathComponent) (abstractionsDir : String) :
    SearchPathComponent :=
  let defaultPath : PathChild := { typeName := "Path", path := some abstractionsDir }
  SearchPathComponent.loadData { c with tree := [] ++ [defaultPath] }

/-- What can happen to a search-path panel. -/
inductive SearchPathOp where
  /-- The add button, with the file the chooser returns. -/
  | add (result : ChosenFile)
  /-- The remove button. -/
  | remove
  /-- The reset button. -/
  | reset (abstractionsDir : String)
  /-- The user selects a row of the table. -/
  | select (row : Int)
deriving DecidableEq, Repr

/-- Whether an operation is one of the three buttons. -/
def SearchPathOp.isButton : SearchPathOp → Bool
  | .select _ => false
  | _ => true

/-- One operation. -/
def SearchPathComponent.apply (c : SearchPathComponent) : SearchPathOp → SearchPathComponent
  | .add result => c.add result
  | .remove => c.remove
  | .reset dir => c.reset dir
  | .select row => { c with selectedRow := tableSelectRow c.items.length row }

/-- A sequence of operations. -/
def SearchPathComponent.applyAll (c : SearchPathComponent) (ops : List SearchPathOp) :
    SearchPathComponent :=
  ops.foldl SearchPathComponent.apply c

/-- The displayed list mirrors the tree and the last row is selected. -/
def SearchPathComponent.Synced (c : SearchPathComponent) : Prop :=
  c.items = c.tree.map PathChild.getPathProperty ∧
  c.getNumRows = c.tree.length ∧
  c.selectedRow = (c.items.length : Int) - 1

/-! ## SettingsDialog -/

/-- The closure the settings dialog stores: the handler assigned to
`closeButton->onClick`, of which the overlay gets a copy. -/
inductive SettingsClosure where
  | closeOnClick
deriving DecidableEq, Repr

/-- The struct `SettingsDialog` as far as visibility goes: its own visible flag (false
for a newly constructed component), the handler of the close button and the owned
overlay. -/
structure SettingsDialog where
  visible : Bool
  closeOnClick : Option SettingsClosure
  background : Option (BlackoutComponent SettingsClosure)
  alwaysOnTop : Bool
deriving DecidableEq, Repr

/-- The world of the settings dialog: the active editor it dims, the dialog, and the
number of calls of `saveSettings()`. -/
structure SettingsWorld where
  parent : Parent
  dialog : SettingsDialog
  settingsSaved : Nat
deriving DecidableEq, Repr

/-- `SettingsDialog::visibilityChanged()`: `background->setVisible(isVisible())`. -/
def SettingsWorld.visibilityChanged (w : SettingsWorld) : SettingsWorld :=
  { w with dialog := { w.dialog with
      background := w.dialog.background.map (fun b => { b with visible := w.dialog.visible }) } }

/-- `Component::setVisible(shouldBeVisible)` on the dialog: when the flag differs it is
changed and `visibilityChanged()` is called; otherwise nothing happens. -/
def SettingsWorld.setVisible (w : SettingsWorld) (shouldBeVisible : Bool) : SettingsWorld :=
  if w.dialog.visible = shouldBeVisible then w
  else
    SettingsWorld.visibilityChanged
      { w with dialog := { w.dialog with visible := shouldBeVisible } }

/-- The constructor `SettingsDialog(processor, manager, settingsTree)`, called by
`Dialogs::createSettingsDialog`, on the active editor `editor`: `setVisible(false)`,
the handler of the close button, then the overlay with a copy of that handler. -/
def createSettingsDialog (editor : Parent) : SettingsWorld :=
  let d0 : SettingsDialog :=
    { visible := false, closeOnClick := none, background := none, alwaysOnTop := false }
  let w0 : SettingsWorld := { parent := editor, dialog := d0, settingsSaved := 0 }
  let w1 := w0.setVisible false
  let w2 := { w1 with dialog := { w1.dialog with
    closeOnClick := some SettingsClosure.closeOnClick } }
  let pb := BlackoutComponent.create w2.parent w2.dialog.closeOnClick
  { w2 with parent := pb.1,
            dialog := { w2.dialog with background := some pb.2, alwaysOnTop := true } }

/-- The body of the stored closure: `saveSettings(); setVisible(false);`. -/
def SettingsClosure.run : SettingsClosure → SettingsWorld → SettingsWorld
  | .closeOnClick, w =>
    SettingsWorld.setVisible { w with settingsSaved := w.settingsSaved + 1 } false

/-- What the toolkit and the editor deliver to a settings dialog. -/
inductive SettingsEvent where
  /-- The editor shows or hides the dialog with `setVisible`. -/
  | setVisible (shouldBeVisible : Bool)
  /-- A click on the close button. -/
  | clickClose
  /-- A pointer press on the overlay: `BlackoutComponent::mouseDown`. -/
  | backgroundMouseDown
deriving DecidableEq, Repr

/-- One event.  The close button is a child of the dialog and is clicked only while the
dialog is visible; the overlay receives the pointer only while it is visible. -/
def SettingsWorld.step (w : SettingsWorld) : SettingsEvent → SettingsWorld
  | .setVisible v => w.setVisible v
  | .clickClose =>
    if w.dialog.visible then
      match w.dialog.closeOnClick with
      | some c => c.run w
      | none => w
    else w
  | .backgroundMouseDown =>
    match w.dialog.background with
    | some b =>
      if b.visible then
        match b.onClose with
        | some c => c.run w
        | none => w
      else w
    | none => w

/-- A sequence of events, in the order of delivery. -/
def SettingsWorld.run (w : SettingsWorld) (es : List SettingsEvent) : SettingsWorld :=
  es.foldl SettingsWorld.step w

/-- Whether the overlay of the settings dialog is visible. -/
def SettingsWorld.backgroundVisible (w : SettingsWorld) : Bool :=
  match w.dialog.background with
  | some b => b.visible
  | none => false

/-- The overlay is in place, closes through the close handler, and is visible exactly
when the dialog is. -/
def SettingsWorld.InStep (w : SettingsWorld) : Prop :=
  w.dialog.closeOnClick = some SettingsClosure.closeOnClick ∧
  w.dialog.background.map (fun b => (b.onClose, b.visible)) =
    some (some SettingsClosure.closeOnClick, w.dialog.visible)

/-! ## GUIComponent: value synchronisation -/

/-- Modelled from the spec: the synchronisation state of a `GUIComponent`, whose header
declares the members `value` and `edited` while the bodies of `updateValue`,
`startEdition`, `stopEdition` and the setters are in a source file that is not
available.  `value` is the cached value, `edited` the flag of an edit gesture, and
`lastEngine` the buffer of "the last engine value" that section 4.1 requires.  `V` is
the type of values, which are only stored and compared. -/
structure GuiObject (V : Type) where
  value : V
  edited : Bool
  lastEngine : V
deriving DecidableEq, Repr

/-- Modelled from the spec: `GUIComponent::startEdition`, whose body is missing:
"startEdition called, edited = true". -/
def GuiObject.startEdition {V : Type} (g : GuiObject V) : GuiObject V :=
  { g with edited := true }

/-- Modelled from the spec: `GUIComponent::stopEdition`, whose body is missing:
"stopEdition clears edited", and the buffered last engine value is applied "only after
Editing ends". -/
def GuiObject.stopEdition {V : Type} (g : GuiObject V) : GuiObject V :=
  { g with edited := false, value := g.lastEngine }

/-- Modelled from the spec: `GUIComponent::updateValue`, whose body is missing, for an
engine-driven update that carries the engine value `v`: the value is buffered, and
"while Editing, inbound engine-driven updates must be suppressed or queued"; outside a
gesture the display mirrors the engine. -/
def GuiObject.updateValue {V : Type} (g : GuiObject V) (v : V) : GuiObject V :=
  if g.edited then { g with lastEngine := v }
  else { g with value := v, lastEngine := v }

/-- Modelled from the spec: `GUIComponent::setValueOriginal` / `setValueScaled`, whose
bodies are missing, as far as synchronisation goes: the setter "pushes new value to
engine", so `v` is both the cached value and the last value exchanged with the
engine. -/
def GuiObject.setValue {V : Type} (g : GuiObject V) (v : V) : GuiObject V :=
  { g with value := v, lastEngine := v }

/-- What happens to a `GUIComponent` in the synchronisation protocol. -/
inductive GuiEvent (V : Type) where
  | startEdition
  | stopEdition
  | updateValue (v : V)
  | setValue (v : V)
deriving DecidableEq, Repr

/-- One event. -/
def GuiObject.step {V : Type} (g : GuiObject V) : GuiEvent V → GuiObject V
  | .startEdition => g.startEdition
  | .stopEdition => g.stopEdition
  | .updateValue v => g.updateValue v
  | .setValue v => g.setValue v

/-- A sequence of events. -/
def GuiObject.run {V : Type} (g : GuiObject V) (es : List (GuiEvent V)) : GuiObject V :=
  es.foldl GuiObject.step g

theorem string_length_eq_zero (s : String) : s.length = 0 ↔ s = "" := by
  constructor
  · intro h
    apply String.ext
    cases s with
    | mk d =>
      simp [String.length] at h
      simp [h]
  · rintro rfl; rfl

theorem textEditor_isEmpty_iff (e : TextEditor) : e.isEmpty = true ↔ e.text = "" := by
  simp [TextEditor.isEmpty, string_length_eq_zero]

theorem isNotEmpty_iff (s : String) : isNotEmpty s = true ↔ s ≠ "" := by
  simp [isNotEmpty]

theorem char_toNat_le_of_le_nine (c : Char) (h : c ≤ '9') : c.toNat ≤ 57 := by
  have h1 := Char.le_def.mp h
  rw [UInt32.le_def] at h1
  have h2 := BitVec.le_def.mp h1
  simpa [Char.toNat] using h2

theorem char_toNat_ge_of_zero_le (c : Char) (h : '0' ≤ c) : 48 ≤ c.toNat := by
  have h1 := Char.le_def.mp h
  rw [UInt32.le_def] at h1
  have h2 := BitVec.le_def.mp h1
  simpa [Char.toNat] using h2

/-- Reading `n` further digits into an accumulator below `10 ^ k` stays below
`10 ^ (k + n)`, without wrapping as long as `k + n ≤ 9`. -/
theorem accumulateDigits_lt (cs : List Char) :
    ∀ (k v : Nat), v < 10 ^ k → k + cs.length ≤ 9 →
      accumulateDigits cs v < 10 ^ (k + cs.length) := by
  induction cs with
  | nil => intro k v hv _; simpa [accumulateDigits] using hv
  | cons c cs ih =>
    intro k v hv hk
    simp only [List.length_cons] at hk
    unfold accumulateDigits
    split
    · rename_i hc
      have hd : c.toNat - 48 ≤ 9 := by
        have := char_toNat_le_of_le_nine c hc.2
        omega
      have hlt : v * 10 + (c.toNat - 48) < 10 ^ (k + 1) := by
        rw [pow_succ]; omega
      have hmod : (v * 10 + (c.toNat - 48)) % 2 ^ 32 < 10 ^ (k + 1) :=
        lt_of_le_of_lt (Nat.mod_le _ _) hlt
      have := ih (k + 1) _ hmod (by omega)
      simpa [List.length_cons, Nat.add_assoc, Nat.add_comm 1] using this
    · calc v < 10 ^ k := hv
        _ ≤ 10 ^ (k + (cs.length + 1)) := Nat.pow_le_pow_right (by decide) (by omega)

theorem toInt32_nonneg_of_lt (v : Nat) (h : v < 2 ^ 31) : 0 ≤ toInt32 v := by
  unfold toInt32
  have h1 : v % 2 ^ 32 = v := Nat.mod_eq_of_lt (by omega)
  rw [h1, if_pos h]
  exact Int.ofNat_nonneg v

/-- Every text of at most nine decimal digits has a non-negative `getIntValue`. -/
theorem getIntValue_nonneg_of_digits (s : String) (hlen : s.length ≤ 9)
    (hdig : ∀ c ∈ s.toList, '0' ≤ c ∧ c ≤ '9') : 0 ≤ getIntValue s := by
  have hl : s.toList.length ≤ 9 := hlen
  have hacc : accumulateDigits s.toList 0 < 2 ^ 31 := by
    have h := accumulateDigits_lt s.toList 0 0 (by decide) (by omega)
    have h2 : (10 : Nat) ^ (0 + s.toList.length) ≤ 10 ^ 9 :=
      Nat.pow_le_pow_right (by decide) (by omega)
    have h3 : (10 : Nat) ^ 9 < 2 ^ 31 := by norm_num
    omega
  unfold getIntValue
  cases hs : s.toList with
  | nil => simp [accumulateDigits, toInt32]
  | cons c cs =>
    have hc := hdig c (by rw [hs]; exact List.mem_cons_self _ _)
    have h48 := char_toNat_ge_of_zero_le c hc.1
    have hws : Char.isWhitespace c = false := by
      have hne : ∀ d : Char, d.toNat < 48 → c ≠ d := by
        intro d hd hcd; subst hcd; omega
      simp [Char.isWhitespace, hne ' ' (by decide), hne '\t' (by decide),
        hne '\r' (by decide), hne '\n' (by decide)]
    have hminus : c ≠ '-' := by
      intro hcd; subst hcd; revert h48; decide
    rw [hs] at hacc
    simp only [List.dropWhile, hws]
    split
    · rename_i rest heq
      simp only [List.cons.injEq] at heq
      exact absurd heq.1.symm (fun h => hminus h.symm)
    · exact toInt32_nonneg_of_lt _ hacc

theorem decimalDigits_ge (cs : List Char) : ∀ v : Nat, v ≤ decimalDigits cs v := by
  induction cs with
  | nil => intro v; exact Nat.le_refl v
  | cons c cs ih =>
    intro v
    have h := ih (v * 10 + (c.toNat - 48))
    simp only [decimalDigits]
    omega

/-- On decimal digits whose plain value fits 32 bits the digit loop does not wrap. -/
theorem accumulateDigits_eq_decimalDigits (cs : List Char) :
    ∀ v : Nat, (∀ c ∈ cs, '0' ≤ c ∧ c ≤ '9') → decimalDigits cs v < 2 ^ 32 →
      accumulateDigits cs v = decimalDigits cs v := by
  induction cs with
  | nil => intro v _ _; rfl
  | cons c cs ih =>
    intro v hdig hlt
    have hc := hdig c (List.mem_cons_self _ _)
    simp only [decimalDigits] at hlt
    have hge := decimalDigits_ge cs (v * 10 + (c.toNat - 48))
    have hmod : (v * 10 + (c.toNat - 48)) % 2 ^ 32 = v * 10 + (c.toNat - 48) :=
      Nat.mod_eq_of_lt (lt_of_le_of_lt hge hlt)
    simp only [accumulateDigits, decimalDigits, hc, and_self, if_true, hmod]
    exact ih _ (fun d hd => hdig d (List.mem_cons_of_mem _ hd)) hlt

/-- On a text of decimal digits `getIntValue` is the digit loop read as an `int`. -/
theorem getIntValue_of_digits (s : String) (hdig : ∀ c ∈ s.toList, '0' ≤ c ∧ c ≤ '9') :
    getIntValue s = toInt32 (accumulateDigits s.toList 0) := by
  unfold getIntValue
  cases hs : s.toList with
  | nil => simp [accumulateDigits, toInt32]
  | cons c cs =>
    have hc := hdig c (by rw [hs]; exact List.mem_cons_self _ _)
    have h48 := char_toNat_ge_of_zero_le c hc.1
    have hws : Char.isWhitespace c = false := by
      have hne : ∀ d : Char, d.toNat < 48 → c ≠ d := by
        intro d hd hcd; subst hcd; omega
      simp [Char.isWhitespace, hne ' ' (by decide), hne '\t' (by decide),
        hne '\r' (by decide), hne '\n' (by decide)]
    have hminus : c ≠ '-' := by
      intro hcd; subst hcd; revert h48; decide
    simp only [List.dropWhile, hws]
    split
    · rename_i rest heq
      simp only [List.cons.injEq] at heq
      exact absurd heq.1.symm (fun h => hminus h.symm)
    · rfl

/-- A text of decimal digits that denotes an integer of at most 2147483647 is read by
`getIntValue` as that integer. -/
theorem getIntValue_eq_decimalValue (s : String)
    (hdig : ∀ c ∈ s.toList, '0' ≤ c ∧ c ≤ '9') (hval : decimalValue s ≤ 2147483647) :
    getIntValue s = (decimalValue s : Int) := by
  have hv : decimalDigits s.toList 0 ≤ 2147483647 := hval
  have hlt : decimalDigits s.toList 0 < 2 ^ 32 := by omega
  rw [getIntValue_of_digits s hdig, accumulateDigits_eq_decimalDigits _ 0 hdig hlt]
  unfold toInt32 decimalValue
  have h1 : decimalDigits s.toList 0 % 2 ^ 32 = decimalDigits s.toList 0 :=
    Nat.mod_eq_of_lt hlt
  rw [h1, if_pos (by omega)]

/-! ### The OK handler of the array dialog -/

theorem arrayWorld_okOnClick_valid (w : ArrayWorld) (hname : w.dialog.nameEditor.text ≠ "")
    (hsize : 0 ≤ getIntValue w.dialog.sizeEditor.text) :
    w.okOnClick = w.callAsync ArrayAsync.ok := by
  have h1 : w.dialog.nameEditor.isEmpty = false := by
    cases h : w.dialog.nameEditor.isEmpty
    · rfl
    · exact absurd ((textEditor_isEmpty_iff _).mp h) hname
  have h2 : ¬ getIntValue w.dialog.sizeEditor.text < 0 := not_lt.mpr hsize
  have h3 : isNotEmpty w.dialog.nameEditor.text = true := (isNotEmpty_iff _).mpr hname
  simp [ArrayWorld.okOnClick, TextEditor.getText, h1, h2, h3, hsize]

theorem arrayWorld_okOnClick_handlers (w : ArrayWorld) :
    w.okOnClick.dialog.cancelOnClick = w.dialog.cancelOnClick ∧
    w.okOnClick.dialog.okOnClick = w.dialog.okOnClick := by
  unfold ArrayWorld.okOnClick
  simp only []
  split_ifs <;> simp [ArrayWorld.flag, ArrayWorld.callAsync]

theorem arrayWorld_okOnClick_invalid (w : ArrayWorld)
    (hbad : w.dialog.nameEditor.text = "" ∨ getIntValue w.dialog.sizeEditor.text < 0) :
    w.okOnClick.queue = w.queue ∧ w.okOnClick.deleted = w.deleted ∧
    w.okOnClick.useAfterDelete = w.useAfterDelete ∧ w.okOnClick.parent = w.parent ∧
    w.okOnClick.dialog.background = w.dialog.background ∧
    w.okOnClick.dialog.nameEditor.text = w.dialog.nameEditor.text ∧
    w.okOnClick.dialog.sizeEditor.text = w.dialog.sizeEditor.text ∧
    w.okOnClick.dialog.nameEditor.outlineRed =
      (w.dialog.nameEditor.outlineRed || decide (w.dialog.nameEditor.text = "")) ∧
    w.okOnClick.dialog.sizeEditor.outlineRed =
      (w.dialog.sizeEditor.outlineRed || decide (getIntValue w.dialog.sizeEditor.text < 0)) ∧
    w.okOnClick.log = w.log ++
      ((if w.dialog.nameEditor.text = "" then [Call.setColourRed Editor.name] else []) ++
       (if getIntValue w.dialog.sizeEditor.text < 0 then [Call.setColourRed Editor.size]
        else [])) := by
  by_cases hn : w.dialog.nameEditor.text = "" <;>
    by_cases hs : getIntValue w.dialog.sizeEditor.text < 0
  · have h1 : w.dialog.nameEditor.isEmpty = true := (textEditor_isEmpty_iff _).mpr hn
    simp [ArrayWorld.okOnClick, ArrayWorld.flag, TextEditor.getText, TextEditor.setOutlineRed,
      isNotEmpty, h1, hn, hs]
  · have h1 : w.dialog.nameEditor.isEmpty = true := (textEditor_isEmpty_iff _).mpr hn
    simp [ArrayWorld.okOnClick, ArrayWorld.flag, TextEditor.getText, TextEditor.setOutlineRed,
      isNotEmpty, h1, hn, hs]
  · have h1 : w.dialog.nameEditor.isEmpty = false := by
      cases h : w.dialog.nameEditor.isEmpty
      · rfl
      · exact absurd ((textEditor_isEmpty_iff _).mp h) hn
    simp [ArrayWorld.okOnClick, ArrayWorld.flag, TextEditor.getText, TextEditor.setOutlineRed,
      isNotEmpty, h1, hn, hs, not_le.mpr hs]
  · rcases hbad with h | h
    · exact absurd h hn
    · exact absurd h hs

theorem arrayWorld_okOnClick_open (w : ArrayWorld) (hopen : w.Open) :
    w.okOnClick.Open ∧ w.okOnClick.dialog.background = w.dialog.background ∧
    w.okOnClick.parent = w.parent := by
  by_cases hv : w.dialog.nameEditor.text ≠ "" ∧ 0 ≤ getIntValue w.dialog.sizeEditor.text
  · rw [arrayWorld_okOnClick_valid w hv.1 hv.2]
    exact ⟨hopen, rfl, rfl⟩
  · have hbad : w.dialog.nameEditor.text = "" ∨
        getIntValue w.dialog.sizeEditor.text < 0 := by
      by_cases hn : w.dialog.nameEditor.text = ""
      · exact Or.inl hn
      · exact Or.inr (not_le.mp (fun h => hv ⟨hn, h⟩))
    obtain ⟨_, h2, _, h4, h5, _⟩ := arrayWorld_okOnClick_invalid w hbad
    obtain ⟨k1, k2⟩ := arrayWorld_okOnClick_handlers w
    obtain ⟨o1, o2, o3, o4, o5⟩ := hopen
    exact ⟨⟨by rw [h2, o1], by rw [k1, o2], by rw [k2, o3], by rw [h5, o4],
      by rw [h4]; exact o5⟩, h5, h4⟩

theorem arrayWorld_click_ok_of_open (w : ArrayWorld) (hopen : w.Open) :
    w.step (ArrayEvent.click ArrayButton.ok) = w.okOnClick := by
  obtain ⟨hd, _, hk, _⟩ := hopen
  simp [ArrayWorld.step, ArrayWorld.clickHandler, ArrayDialog.onClick, ArrayClosure.run, hd, hk]

theorem arrayWorld_click_cancel_of_open (w : ArrayWorld) (hopen : w.Open) :
    w.step (ArrayEvent.click ArrayButton.cancel) = w.callAsync ArrayAsync.cancel := by
  obtain ⟨hd, hc, _, _⟩ := hopen
  simp [ArrayWorld.step, ArrayWorld.clickHandler, ArrayDialog.onClick, ArrayClosure.run, hd, hc]

theorem arrayWorld_drain_of_queue_nil (n : Nat) (w : ArrayWorld) (hq : w.queue = []) :
    ArrayWorld.drain n w = w := by
  induction n with
  | zero => rfl
  | succ n ih =>
    have : w.step ArrayEvent.dispatch = w := by simp [ArrayWorld.step, hq]
    simp [ArrayWorld.drain, this, ih]

theorem callbacks_append (l1 l2 : List Call) :
    callbacks (l1 ++ l2) = callbacks l1 ++ callbacks l2 := by
  simp [callbacks]

/-! ### C1 and C2: the OK button of the array dialog -/

/-- An open array dialog with nothing pending whose fields pass the test of the OK
handler: a click on OK posts one closure, and running it next invokes the completion
callback once, with result 1 and the two texts, and deletes the dialog. -/
theorem arrayWorld_ok_confirms_of_valid (w : ArrayWorld) (hopen : w.Open) (hquiet : w.Quiet)
    (hname : w.dialog.nameEditor.text ≠ "")
    (hsize : 0 ≤ getIntValue w.dialog.sizeEditor.text) :
    (w.step (ArrayEvent.click ArrayButton.ok)).queue = [ArrayAsync.ok] ∧
    callbacks ((w.step (ArrayEvent.click ArrayButton.ok)).step ArrayEvent.dispatch).log =
      callbacks w.log ++
        [Call.cbArray 1 w.dialog.nameEditor.text w.dialog.sizeEditor.text] ∧
    ((w.step (ArrayEvent.click ArrayButton.ok)).step ArrayEvent.dispatch).deleted = true ∧
    ((w.step (ArrayEvent.click ArrayButton.ok)).step ArrayEvent.dispatch).useAfterDelete
      = false := by
  obtain ⟨hq, hu⟩ := hquiet
  have hd : w.deleted = false := hopen.1
  rw [arrayWorld_click_ok_of_open w hopen, arrayWorld_okOnClick_valid w hname hsize]
  refine ⟨by simp [ArrayWorld.callAsync, hq], ?_, ?_, ?_⟩
  · simp [ArrayWorld.step, ArrayWorld.callAsync, hq, ArrayAsync.run, ArrayWorld.deleteThis,
      ArrayWorld.cbWithTexts, ArrayWorld.cb, ArrayWorld.backgroundSetVisible,
      ArrayWorld.touch, TextEditor.getText, callbacks, Call.isCb, List.filter_append]
  · simp [ArrayWorld.step, ArrayWorld.callAsync, hq, ArrayAsync.run, ArrayWorld.deleteThis]
  · simp [ArrayWorld.step, ArrayWorld.callAsync, hq, ArrayAsync.run, ArrayWorld.deleteThis,
      ArrayWorld.cbWithTexts, ArrayWorld.cb, ArrayWorld.backgroundSetVisible,
      ArrayWorld.touch, hd, hu]

/-- C1 (as amended): in an open array dialog with no deferred step pending, whenever the
name is not empty and the size text is a string of decimal digits that denotes an
integer from 0 to 2147483647, a click on OK posts one deferred step, and when that step
runs before any further event it invokes the completion callback once, with result 1 and
exactly the name text and the size text of the editors, and deletes the dialog. -/
theorem arrayDialog_ok_confirms (w : ArrayWorld) (hopen : w.Open) (hquiet : w.Quiet)
    (hname : w.dialog.nameEditor.text ≠ "")
    (hdig : ∀ c ∈ w.dialog.sizeEditor.text.toList, '0' ≤ c ∧ c ≤ '9')
    (hval : decimalValue w.dialog.sizeEditor.text ≤ 2147483647) :
    (w.step (ArrayEvent.click ArrayButton.ok)).queue = [ArrayAsync.ok] ∧
    callbacks ((w.step (ArrayEvent.click ArrayButton.ok)).step ArrayEvent.dispatch).log =
      callbacks w.log ++
        [Call.cbArray 1 w.dialog.nameEditor.text w.dialog.sizeEditor.text] ∧
    ((w.step (ArrayEvent.click ArrayButton.ok)).step ArrayEvent.dispatch).deleted = true ∧
    ((w.step (ArrayEvent.click ArrayButton.ok)).step ArrayEvent.dispatch).useAfterDelete
      = false ∧
    callbacks (w.runEager [ArrayEvent.click ArrayButton.ok]).log =
      callbacks w.log ++
        [Call.cbArray 1 w.dialog.nameEditor.text w.dialog.sizeEditor.text] := by
  have hsize : 0 ≤ getIntValue w.dialog.sizeEditor.text := by
    rw [getIntValue_eq_decimalValue _ hdig hval]
    exact Int.ofNat_nonneg _
  obtain ⟨h1, h2, h3, h4⟩ := arrayWorld_ok_confirms_of_valid w hopen hquiet hname hsize
  refine ⟨h1, h2, h3, h4, ?_⟩
  have hrun : w.runEager [ArrayEvent.click ArrayButton.ok] =
      (w.step (ArrayEvent.click ArrayButton.ok)).step ArrayEvent.dispatch := by
    simp [ArrayWorld.runEager, ArrayWorld.dispatchAll, h1, ArrayWorld.drain]
  rw [hrun, h2]

/-- C1, witness: the initial contents "array1" and "100" are confirmed with
`cb(1, "array1", "100")`. -/
theorem arrayDialog_ok_confirms_witness :
    (showArrayDialog ⟨800, 600, []⟩).Open ∧ (showArrayDialog ⟨800, 600, []⟩).Quiet ∧
    decimalValue "100" = 100 ∧
    callbacks (((showArrayDialog ⟨800, 600, []⟩).step
      (ArrayEvent.click ArrayButton.ok)).step ArrayEvent.dispatch).log =
      [Call.cbArray 1 "array1" "100"] :=
  ⟨by decide, by decide, by decide,
    (arrayDialog_ok_confirms (showArrayDialog ⟨800, 600, []⟩) (by decide) (by decide)
      (by decide) (by decide) (by decide)).2.1⟩

/-- C1, counterexample: the posted step reads the editors when it runs, so when the two
fields are edited after the click on OK and before the step runs, the callback gets the
later texts and not the pair the click checked; and a step posted earlier runs first.
The last three parts record the size text "3000000000", ten decimal digits that the
size editor accepts: the OK handler reads it as a negative `int` and posts nothing. -/
theorem arrayDialog_ok_reports_later_edits :
    callbacks ((showArrayDialog ⟨800, 600, []⟩).run
      [ArrayEvent.click ArrayButton.ok]).log = [] ∧
    callbacks ((showArrayDialog ⟨800, 600, []⟩).run
      [ArrayEvent.click ArrayButton.ok, ArrayEvent.typeText Editor.name "other",
       ArrayEvent.typeText Editor.size "7", ArrayEvent.dispatch]).log =
      [Call.cbArray 1 "other" "7"] ∧
    callbacks ((showArrayDialog ⟨800, 600, []⟩).run
      [ArrayEvent.click ArrayButton.cancel, ArrayEvent.click ArrayButton.ok,
       ArrayEvent.dispatch]).log = [Call.cbArray 0 "" ""] ∧
    ((showArrayDialog ⟨800, 600, []⟩).run
      [ArrayEvent.typeText Editor.size "3000000000"]).dialog.sizeEditor.text = "3000000000" ∧
    getIntValue "3000000000" = -1294967296 ∧
    callbacks ((showArrayDialog ⟨800, 600, []⟩).run
      [ArrayEvent.typeText Editor.size "3000000000", ArrayEvent.click ArrayButton.ok,
       ArrayEvent.dispatch]).log = [] := by
  decide

/-- C2: in an open array dialog whose name is empty or whose size text has a negative
`getIntValue`, a click on OK posts no closure and invokes no callback, the dialog is
not deleted, and with nothing else pending no later run of the message loop invokes
the callback. -/
theorem arrayDialog_ok_rejects (w : ArrayWorld) (hopen : w.Open)
    (hbad : w.dialog.nameEditor.text = "" ∨ getIntValue w.dialog.sizeEditor.text < 0) :
    (w.step (ArrayEvent.click ArrayButton.ok)).queue = w.queue ∧
    callbacks (w.step (ArrayEvent.click ArrayButton.ok)).log = callbacks w.log ∧
    (w.step (ArrayEvent.click ArrayButton.ok)).deleted = false ∧
    (w.step (ArrayEvent.click ArrayButton.ok)).useAfterDelete = w.useAfterDelete ∧
    (w.queue = [] → ∀ n : Nat,
      callbacks (ArrayWorld.drain n (w.step (ArrayEvent.click ArrayButton.ok))).log =
        callbacks w.log) := by
  have hd : w.deleted = false := hopen.1
  rw [arrayWorld_click_ok_of_open w hopen]
  obtain ⟨h1, h2, h3, _, _, _, _, _, _, h10⟩ := arrayWorld_okOnClick_invalid w hbad
  have hcb : callbacks w.okOnClick.log = callbacks w.log := by
    rw [h10, callbacks_append]
    by_cases hn : w.dialog.nameEditor.text = "" <;>
      by_cases hs : getIntValue w.dialog.sizeEditor.text < 0 <;>
      simp [hn, hs, callbacks, Call.isCb]
  refine ⟨h1, hcb, by rw [h2, hd], h3, ?_⟩
  intro hq n
  rw [arrayWorld_drain_of_queue_nil n _ (by rw [h1, hq]), hcb]

/-- C2, witness: the open dialog after the name has been cleared. -/
theorem arrayDialog_ok_rejects_witness :
    ((showArrayDialog ⟨800, 600, []⟩).step (ArrayEvent.typeText Editor.name "")).Open ∧
    ((showArrayDialog ⟨800, 600, []⟩).step
      (ArrayEvent.typeText Editor.name "")).dialog.nameEditor.text = "" ∧
    (((showArrayDialog ⟨800, 600, []⟩).step (ArrayEvent.typeText Editor.name "")).step
      (ArrayEvent.click ArrayButton.ok)).queue = [] :=
  ⟨by decide, by decide,
    (arrayDialog_ok_rejects
      ((showArrayDialog ⟨800, 600, []⟩).step (ArrayEvent.typeText Editor.name ""))
      (by decide) (Or.inl (by decide))).1⟩

/-! ### The save dialog: single steps -/

theorem saveWorld_open_background (w : SaveWorld) (hopen : w.Open) :
    ∃ b, w.dialog.background = some b ∧ b.onClose = some SaveClosure.closeDefault ∧
      b.visible = true := by
  obtain ⟨_, _, _, _, hb, _⟩ := hopen
  cases hbg : w.dialog.background with
  | none => simp [hbg] at hb
  | some b =>
    simp only [hbg, Option.map_some', Option.some.injEq, Prod.mk.injEq] at hb
    exact ⟨b, rfl, hb.1, hb.2⟩

theorem saveWorld_click_of_open (w : SaveWorld) (hopen : w.Open) (b : SaveButton) :
    w.step (SaveEvent.click b) = w.callAsync b.async := by
  obtain ⟨hd, hc, hs, hn, _⟩ := hopen
  cases b <;>
    simp [SaveWorld.step, SaveWorld.clickHandler, SaveDialog.onClick, SaveClosure.run,
      SaveButton.async, hd, hc, hs, hn]

theorem saveWorld_mouseDown_of_open (w : SaveWorld) (hopen : w.Open) :
    w.step SaveEvent.backgroundMouseDown = w := by
  obtain ⟨b, hb, hc, hv⟩ := saveWorld_open_background w hopen
  simp [SaveWorld.step, SaveWorld.mouseDown, SaveClosure.run, hopen.1, hb, hc, hv]

theorem saveWorld_drain_of_queue_nil (n : Nat) (w : SaveWorld) (hq : w.queue = []) :
    SaveWorld.drain n w = w := by
  induction n with
  | zero => rfl
  | succ n ih =>
    have : w.step SaveEvent.dispatch = w := by simp [SaveWorld.step, hq]
    simp [SaveWorld.drain, this, ih]

theorem saveWorld_dispatchAll_of_queue_nil (w : SaveWorld) (hq : w.queue = []) :
    w.dispatchAll = w := by
  simp [SaveWorld.dispatchAll, hq, SaveWorld.drain]

/-- The log a save closure writes. -/
theorem saveAsync_run_log (a : SaveAsync) (w : SaveWorld) :
    (a.run w).log = w.log ++
      (match a with
        | .cancel => [Call.backgroundSetVisible false, Call.cbSave 0, Call.deleteThis]
        | .save => [Call.cbSave 2, Call.deleteThis]
        | .dontsave => [Call.cbSave 1, Call.deleteThis]) := by
  cases a <;>
    simp [SaveAsync.run, SaveWorld.deleteThis, SaveWorld.cb, SaveWorld.backgroundSetVisible,
      SaveWorld.touch]

theorem saveAsync_run_state (a : SaveAsync) (w : SaveWorld) :
    (a.run w).deleted = true ∧ (a.run w).queue = w.queue ∧
    (a.run w).dialog.background = none ∧
    (a.run w).useAfterDelete = (w.useAfterDelete || w.deleted) ∧
    (a.run w).parent =
      (w.parent.removeChildComponent Child.background).removeChildComponent Child.dialog ∧
    (a.run w).dialog.cancelOnClick = w.dialog.cancelOnClick ∧
    (a.run w).dialog.saveOnClick = w.dialog.saveOnClick ∧
    (a.run w).dialog.dontsaveOnClick = w.dialog.dontsaveOnClick := by
  cases a <;>
    simp [SaveAsync.run, SaveWorld.deleteThis, SaveWorld.cb, SaveWorld.backgroundSetVisible,
      SaveWorld.touch]

/-- A click on an open, quiet save dialog followed by the message loop. -/
theorem saveWorld_click_dispatch (w : SaveWorld) (hopen : w.Open) (hquiet : w.Quiet)
    (b : SaveButton) :
    (w.step (SaveEvent.click b)).dispatchAll =
      (w.step (SaveEvent.click b)).step SaveEvent.dispatch ∧
    (w.step (SaveEvent.click b)).step SaveEvent.dispatch =
      b.async.run w := by
  obtain ⟨hq, _⟩ := hquiet
  rw [saveWorld_click_of_open w hopen b]
  have hw : ({ w with queue := [] } : SaveWorld) = w := by
    cases w; simp_all
  constructor
  · simp [SaveWorld.dispatchAll, SaveWorld.callAsync, hq, SaveWorld.drain]
  · simp [SaveWorld.step, SaveWorld.callAsync, hq, hw]

theorem callbacks_save_suffix (a : SaveAsync) :
    callbacks (match a with
        | .cancel => [Call.backgroundSetVisible false, Call.cbSave 0, Call.deleteThis]
        | .save => [Call.cbSave 2, Call.deleteThis]
        | .dontsave => [Call.cbSave 1, Call.deleteThis]) =
      [Call.cbSave (match a with | .cancel => 0 | .save => 2 | .dontsave => 1)] := by
  cases a <;> simp [callbacks, Call.isCb]

/-! ### The save dialog: runs in which the message loop keeps up -/

/-- Once the dialog is deleted and nothing is pending, no event changes the log. -/
theorem saveWorld_closed_step (w : SaveWorld) (hd : w.deleted = true) (hq : w.queue = [])
    (e : SaveEvent) :
    (w.step e).deleted = true ∧ (w.step e).queue = [] ∧ (w.step e).log = w.log ∧
    (w.step e).useAfterDelete = w.useAfterDelete ∧ (w.step e).dialog = w.dialog := by
  cases e <;> simp [SaveWorld.step, hd, hq, Parent.setSize]

theorem saveWorld_closed_run (es : List SaveEvent) :
    ∀ w : SaveWorld, w.deleted = true → w.queue = [] →
      (w.run es).deleted = true ∧ (w.run es).queue = [] ∧ (w.run es).log = w.log ∧
      (w.run es).useAfterDelete = w.useAfterDelete ∧ (w.run es).dialog = w.dialog := by
  induction es with
  | nil => intro w hd hq; simp [SaveWorld.run, hd, hq]
  | cons e es ih =>
    intro w hd hq
    obtain ⟨h1, h2, h3, h4, h5⟩ := saveWorld_closed_step w hd hq e
    obtain ⟨k1, k2, k3, k4, k5⟩ := ih (w.step e) h1 h2
    simp only [SaveWorld.run, List.foldl_cons] at *
    exact ⟨k1, k2, by rw [k3, h3], by rw [k4, h4], by rw [k5, h5]⟩

theorem saveWorld_closed_runEager (es : List SaveEvent) :
    ∀ w : SaveWorld, w.deleted = true → w.queue = [] →
      (w.runEager es).log = w.log ∧ (w.runEager es).useAfterDelete = w.useAfterDelete := by
  induction es with
  | nil => intro w _ _; simp [SaveWorld.runEager]
  | cons e es ih =>
    intro w hd hq
    obtain ⟨h1, h2, h3, h4, _⟩ := saveWorld_closed_step w hd hq e
    have hda : (w.step e).dispatchAll = w.step e := saveWorld_dispatchAll_of_queue_nil _ h2
    have := ih (w.step e) h1 h2
    simp only [SaveWorld.runEager, List.foldl_cons, hda] at *
    exact ⟨by rw [this.1, h3], by rw [this.2, h4]⟩

/-- An event other than a click leaves an open, quiet save dialog open and quiet, with
the same log. -/
theorem saveWorld_open_step_other (w : SaveWorld) (hopen : w.Open) (hquiet : w.Quiet)
    (e : SaveEvent) (he : ∀ b, e ≠ SaveEvent.click b) :
    (w.step e).Open ∧ (w.step e).Quiet ∧ (w.step e).log = w.log := by
  cases e with
  | click b => exact absurd rfl (he b)
  | backgroundMouseDown =>
    rw [saveWorld_mouseDown_of_open w hopen]; exact ⟨hopen, hquiet, rfl⟩
  | dispatch =>
    have : w.step SaveEvent.dispatch = w := by simp [SaveWorld.step, hquiet.1]
    rw [this]; exact ⟨hopen, hquiet, rfl⟩
  | parentSetSize nw nh =>
    exact ⟨hopen, hquiet, rfl⟩

theorem saveWorld_runEager_of_open (es : List SaveEvent) :
    ∀ w : SaveWorld, w.Open → w.Quiet →
      (w.runEager es).log = w.log ++
        (match SaveEvent.firstClick es with
          | some b => (b.async.run w).log.drop w.log.length
          | none => []) ∧
      (w.runEager es).useAfterDelete = false := by
  induction es with
  | nil => intro w _ hq; simp [SaveWorld.runEager, SaveEvent.firstClick, hq.2]
  | cons e es ih =>
    intro w hopen hquiet
    by_cases hc : ∃ b, e = SaveEvent.click b
    · obtain ⟨b, rfl⟩ := hc
      obtain ⟨h1, h2⟩ := saveWorld_click_dispatch w hopen hquiet b
      obtain ⟨s1, s2, _, s4, _⟩ := saveAsync_run_state b.async w
      have hcl := saveWorld_closed_runEager es (b.async.run w) s1 (by rw [s2, hquiet.1])
      simp only [SaveWorld.runEager, List.foldl_cons, h1, h2, SaveEvent.firstClick] at *
      refine ⟨?_, ?_⟩
      · rw [hcl.1, saveAsync_run_log]; simp
      · rw [hcl.2, s4, hquiet.2, hopen.1]; rfl
    · have he : ∀ b, e ≠ SaveEvent.click b := fun b hb => hc ⟨b, hb⟩
      obtain ⟨h1, h2, h3⟩ := saveWorld_open_step_other w hopen hquiet e he
      have hda : (w.step e).dispatchAll = w.step e :=
        saveWorld_dispatchAll_of_queue_nil _ h2.1
      have hfc : SaveEvent.firstClick (e :: es) = SaveEvent.firstClick es := by
        cases e with
        | click b => exact absurd rfl (he b)
        | _ => rfl
      have hrun : ∀ a : SaveAsync, (a.run (w.step e)).log.drop (w.step e).log.length =
          (a.run w).log.drop w.log.length := by
        intro a; rw [saveAsync_run_log, saveAsync_run_log]; simp
      have := ih (w.step e) h1 h2
      simp only [SaveWorld.runEager, List.foldl_cons, hda, hfc] at *
      rw [this.1, h3] at *
      refine ⟨?_, this.2⟩
      cases hf : SaveEvent.firstClick es with
      | none => rfl
      | some b => simp only [hrun b.async, h3]

theorem showSaveDialog_open (centre : Parent) :
    (showSaveDialog centre).Open ∧ (showSaveDialog centre).Quiet ∧
    (showSaveDialog centre).log = [] := by
  simp [showSaveDialog, SaveDialog.create, BlackoutComponent.create, BlackoutComponent.resized,
    SaveWorld.Open, SaveWorld.Quiet, Parent.addChildComponent]

/-! ### C3: the values of the save dialog -/

/-- The values of the save dialog: on a save dialog as `showSaveDialog` opens it, a
click on Cancel,
Don't Save or Save posts one closure, and running that closure invokes the completion
callback with 0, 1 or 2 respectively.  In every sequence of events in which the message
loop runs the pending closure before the next event is delivered, the callback is
invoked exactly once in total when the sequence contains a click, with the value of the
first click, and not at all otherwise, and no closure runs on a deleted dialog. -/
theorem saveDialog_callback_values (centre : Parent) :
    (((showSaveDialog centre).step (SaveEvent.click SaveButton.cancel)).queue =
        [SaveAsync.cancel] ∧
      callbacks (((showSaveDialog centre).step (SaveEvent.click SaveButton.cancel)).step
        SaveEvent.dispatch).log = [Call.cbSave 0]) ∧
    (((showSaveDialog centre).step (SaveEvent.click SaveButton.dontsave)).queue =
        [SaveAsync.dontsave] ∧
      callbacks (((showSaveDialog centre).step (SaveEvent.click SaveButton.dontsave)).step
        SaveEvent.dispatch).log = [Call.cbSave 1]) ∧
    (((showSaveDialog centre).step (SaveEvent.click SaveButton.save)).queue =
        [SaveAsync.save] ∧
      callbacks (((showSaveDialog centre).step (SaveEvent.click SaveButton.save)).step
        SaveEvent.dispatch).log = [Call.cbSave 2]) ∧
    (∀ es : List SaveEvent,
      callbacks ((showSaveDialog centre).runEager es).log =
        (match SaveEvent.firstClick es with
          | some SaveButton.cancel => [Call.cbSave 0]
          | some SaveButton.dontsave => [Call.cbSave 1]
          | some SaveButton.save => [Call.cbSave 2]
          | none => []) ∧
      ((showSaveDialog centre).runEager es).useAfterDelete = false) := by
  obtain ⟨hopen, hquiet, hlog⟩ := showSaveDialog_open centre
  have hstep : ∀ b : SaveButton,
      ((showSaveDialog centre).step (SaveEvent.click b)).queue = [b.async] ∧
      callbacks (((showSaveDialog centre).step (SaveEvent.click b)).step
        SaveEvent.dispatch).log = callbacks (b.async.run (showSaveDialog centre)).log := by
    intro b
    refine ⟨?_, by rw [(saveWorld_click_dispatch _ hopen hquiet b).2]⟩
    rw [saveWorld_click_of_open _ hopen b]
    simp [SaveWorld.callAsync, hquiet.1]
  have hcb : ∀ a : SaveAsync, callbacks (a.run (showSaveDialog centre)).log =
      [Call.cbSave (match a with | .cancel => 0 | .save => 2 | .dontsave => 1)] := by
    intro a
    rw [saveAsync_run_log, hlog, List.nil_append, callbacks_save_suffix]
  refine ⟨?_, ?_, ?_, ?_⟩
  · have := hstep SaveButton.cancel
    rw [hcb] at this; exact this
  · have := hstep SaveButton.dontsave
    rw [hcb] at this; exact this
  · have := hstep SaveButton.save
    rw [hcb] at this; exact this
  · intro es
    obtain ⟨h1, h2⟩ := saveWorld_runEager_of_open es _ hopen hquiet
    refine ⟨?_, h2⟩
    rw [h1, hlog]
    cases hf : SaveEvent.firstClick es with
    | none => simp [callbacks]
    | some b =>
      have := hcb b.async
      cases b <;> simpa [SaveButton.async] using this

/-- C3, the code at the failing input: two button clicks on one save dialog that are
both delivered before the message loop runs post two closures.  The first closure
invokes the callback with the value of the first click and deletes the dialog while the
second closure is still pending; the message loop then runs the second closure,
`cb(..); delete this;`, on the deleted dialog.  This holds for every pair of buttons. -/
theorem saveDialog_second_click_runs_on_deleted (b1 b2 : SaveButton) :
    ((showSaveDialog ⟨800, 600, []⟩).run
      [SaveEvent.click b1, SaveEvent.click b2]).queue = [b1.async, b2.async] ∧
    callbacks ((showSaveDialog ⟨800, 600, []⟩).run
      [SaveEvent.click b1, SaveEvent.click b2, SaveEvent.dispatch]).log =
      [Call.cbSave b1.value] ∧
    ((showSaveDialog ⟨800, 600, []⟩).run
      [SaveEvent.click b1, SaveEvent.click b2, SaveEvent.dispatch]).deleted = true ∧
    ((showSaveDialog ⟨800, 600, []⟩).run
      [SaveEvent.click b1, SaveEvent.click b2, SaveEvent.dispatch]).queue = [b2.async] ∧
    ((showSaveDialog ⟨800, 600, []⟩).run
      [SaveEvent.click b1, SaveEvent.click b2, SaveEvent.dispatch]).useAfterDelete
      = false ∧
    ((showSaveDialog ⟨800, 600, []⟩).run
      [SaveEvent.click b1, SaveEvent.click b2, SaveEvent.dispatch,
       SaveEvent.dispatch]).useAfterDelete = true := by
  cases b1 <;> cases b2 <;> decide

/-! ### The array dialog: single steps -/

theorem arrayWorld_open_background (w : ArrayWorld) (hopen : w.Open) :
    ∃ b, w.dialog.background = some b ∧ b.onClose = some ArrayClosure.cancelOnClick ∧
      b.visible = true := by
  obtain ⟨_, _, _, hb, _⟩ := hopen
  cases hbg : w.dialog.background with
  | none => simp [hbg] at hb
  | some b =>
    simp only [hbg, Option.map_some', Option.some.injEq, Prod.mk.injEq] at hb
    exact ⟨b, rfl, hb.1, hb.2⟩

theorem arrayWorld_mouseDown_of_open (w : ArrayWorld) (hopen : w.Open) :
    w.step ArrayEvent.backgroundMouseDown = w.callAsync ArrayAsync.cancel := by
  obtain ⟨b, hb, hc, hv⟩ := arrayWorld_open_background w hopen
  simp [ArrayWorld.step, ArrayWorld.mouseDown, ArrayClosure.run, hopen.1, hb, hc, hv]

theorem arrayWorld_dispatchAll_of_queue_nil (w : ArrayWorld) (hq : w.queue = []) :
    w.dispatchAll = w := by
  simp [ArrayWorld.dispatchAll, hq, ArrayWorld.drain]

/-- The log an array closure writes. -/
theorem arrayAsync_run_log (a : ArrayAsync) (w : ArrayWorld) :
    (a.run w).log = w.log ++
      (match a with
        | .cancel => [Call.backgroundSetVisible false, Call.cbArray 0 "" "", Call.deleteThis]
        | .ok => [Call.backgroundSetVisible false, Call.getTexts,
            Call.cbArray 1 w.dialog.nameEditor.text w.dialog.sizeEditor.text,
            Call.deleteThis]) := by
  cases a <;>
    simp [ArrayAsync.run, ArrayWorld.deleteThis, ArrayWorld.cb, ArrayWorld.cbWithTexts,
      ArrayWorld.backgroundSetVisible, ArrayWorld.touch, TextEditor.getText]

theorem arrayAsync_run_state (a : ArrayAsync) (w : ArrayWorld) :
    (a.run w).deleted = true ∧ (a.run w).queue = w.queue ∧
    (a.run w).dialog.background = none ∧
    (a.run w).useAfterDelete = (w.useAfterDelete || w.deleted) ∧
    (a.run w).parent =
      (w.parent.removeChildComponent Child.background).removeChildComponent Child.dialog ∧
    (a.run w).dialog.nameEditor = w.dialog.nameEditor ∧
    (a.run w).dialog.sizeEditor = w.dialog.sizeEditor ∧
    (a.run w).dialog.cancelOnClick = w.dialog.cancelOnClick ∧
    (a.run w).dialog.okOnClick = w.dialog.okOnClick := by
  cases a <;>
    simp [ArrayAsync.run, ArrayWorld.deleteThis, ArrayWorld.cb, ArrayWorld.cbWithTexts,
      ArrayWorld.backgroundSetVisible, ArrayWorld.touch]

/-- Posting a closure on an empty queue and letting the message loop run. -/
theorem arrayWorld_callAsync_dispatch (w : ArrayWorld) (hq : w.queue = [])
    (a : ArrayAsync) :
    (w.callAsync a).dispatchAll = a.run w ∧
    (w.callAsync a).step ArrayEvent.dispatch = a.run w := by
  have hw : ({ w with queue := [] } : ArrayWorld) = w := by
    cases w; simp_all
  constructor
  · simp [ArrayWorld.dispatchAll, ArrayWorld.callAsync, hq, ArrayWorld.drain,
      ArrayWorld.step, hw]
  · simp [ArrayWorld.step, ArrayWorld.callAsync, hq, hw]

/-- Once the dialog is deleted and nothing is pending, no event changes the log. -/
theorem arrayWorld_closed_step (w : ArrayWorld) (hd : w.deleted = true)
    (hq : w.queue = []) (e : ArrayEvent) :
    (w.step e).deleted = true ∧ (w.step e).queue = [] ∧ (w.step e).log = w.log ∧
    (w.step e).useAfterDelete = w.useAfterDelete ∧ (w.step e).dialog = w.dialog := by
  cases e <;> simp [ArrayWorld.step, hd, hq, Parent.setSize]

theorem arrayWorld_closed_run (es : List ArrayEvent) :
    ∀ w : ArrayWorld, w.deleted = true → w.queue = [] →
      (w.run es).deleted = true ∧ (w.run es).queue = [] ∧ (w.run es).log = w.log ∧
      (w.run es).useAfterDelete = w.useAfterDelete ∧ (w.run es).dialog = w.dialog := by
  induction es with
  | nil => intro w hd hq; simp [ArrayWorld.run, hd, hq]
  | cons e es ih =>
    intro w hd hq
    obtain ⟨h1, h2, h3, h4, h5⟩ := arrayWorld_closed_step w hd hq e
    obtain ⟨k1, k2, k3, k4, k5⟩ := ih (w.step e) h1 h2
    simp only [ArrayWorld.run, List.foldl_cons] at *
    exact ⟨k1, k2, by rw [k3, h3], by rw [k4, h4], by rw [k5, h5]⟩

theorem arrayWorld_typeText_of_open (w : ArrayWorld) (hopen : w.Open) (e : Editor)
    (t : String) :
    (w.step (ArrayEvent.typeText e t)).Open ∧
    (w.step (ArrayEvent.typeText e t)).queue = w.queue ∧
    (w.step (ArrayEvent.typeText e t)).log = w.log ∧
    (w.step (ArrayEvent.typeText e t)).useAfterDelete = w.useAfterDelete ∧
    (w.step (ArrayEvent.typeText e t)).parent = w.parent ∧
    (w.step (ArrayEvent.typeText e t)).dialog.background = w.dialog.background := by
  have hd := hopen.1
  cases e <;> simpa [ArrayWorld.step, ArrayWorld.typeText, hd, ArrayWorld.Open] using hopen

theorem showArrayDialog_open (centre : Parent) :
    (showArrayDialog centre).Open ∧ (showArrayDialog centre).Quiet ∧
    (showArrayDialog centre).log = [] := by
  simp [showArrayDialog, ArrayDialog.create, BlackoutComponent.create,
    BlackoutComponent.resized, ArrayWorld.Open, ArrayWorld.Quiet, Parent.addChildComponent]

/-! ### The array dialog: runs in which the message loop keeps up -/

theorem arrayWorld_settled_of_closing (w : ArrayWorld) (hs : w.Settled) (hopen : w.Open)
    (a : ArrayAsync)
    (hvalid : a = ArrayAsync.ok →
      w.dialog.nameEditor.text ≠ "" ∧ 0 ≤ getIntValue w.dialog.sizeEditor.text) :
    (a.run w).Settled := by
  obtain ⟨hq, hbody⟩ := hs
  have hno : ∀ n s, Call.cbArray 1 n s ∉ w.log := by
    rcases hbody with h | h
    · exact h.2
    · have := hopen.1; rw [h.1] at this; cases this
  obtain ⟨s1, s2, _, s4, _, s6, s7, _, _⟩ := arrayAsync_run_state a w
  refine ⟨⟨by rw [s2, hq.1], by rw [s4, hq.2, hopen.1]; rfl⟩, Or.inr ⟨s1, ?_⟩⟩
  intro n s hmem
  rw [arrayAsync_run_log] at hmem
  rcases List.mem_append.mp hmem with h | h
  · exact absurd h (hno n s)
  · cases a with
    | cancel => simp at h
    | ok =>
      simp at h
      obtain ⟨hn, hsz⟩ := hvalid rfl
      rw [s6, s7, h.1, h.2]
      exact ⟨hn, hsz, rfl, rfl⟩

theorem arrayWorld_settled_step (w : ArrayWorld) (hs : w.Settled) (e : ArrayEvent) :
    ((w.step e).dispatchAll).Settled := by
  have hq := hs.1
  rcases hs.2 with ⟨hopen, hno⟩ | ⟨hd, hall⟩
  · cases e with
    | click b =>
      cases b with
      | cancel =>
        rw [arrayWorld_click_cancel_of_open w hopen,
          (arrayWorld_callAsync_dispatch w hq.1 _).1]
        exact arrayWorld_settled_of_closing w hs hopen _ (by intro h; cases h)
      | ok =>
        rw [arrayWorld_click_ok_of_open w hopen]
        by_cases hv : w.dialog.nameEditor.text ≠ "" ∧ 0 ≤ getIntValue w.dialog.sizeEditor.text
        · rw [arrayWorld_okOnClick_valid w hv.1 hv.2,
            (arrayWorld_callAsync_dispatch w hq.1 _).1]
          exact arrayWorld_settled_of_closing w hs hopen _ (fun _ => hv)
        · have hbad : w.dialog.nameEditor.text = "" ∨
              getIntValue w.dialog.sizeEditor.text < 0 := by
            by_cases hn : w.dialog.nameEditor.text = ""
            · exact Or.inl hn
            · exact Or.inr (not_le.mp (fun h => hv ⟨hn, h⟩))
          obtain ⟨h1, h2, h3, h4, h5, _, _, _, _, h10⟩ :=
            arrayWorld_okOnClick_invalid w hbad
          obtain ⟨k1, k2⟩ := arrayWorld_okOnClick_handlers w
          rw [arrayWorld_dispatchAll_of_queue_nil _ (by rw [h1, hq.1])]
          refine ⟨⟨by rw [h1, hq.1], by rw [h3, hq.2]⟩, Or.inl ⟨?_, ?_⟩⟩
          · obtain ⟨o1, o2, o3, o4, o5⟩ := hopen
            exact ⟨by rw [h2, o1], by rw [k1, o2], by rw [k2, o3], by rw [h5, o4],
              by rw [h4]; exact o5⟩
          · intro n s hmem
            rw [h10] at hmem
            rcases List.mem_append.mp hmem with h | h
            · exact hno n s h
            · by_cases hn : w.dialog.nameEditor.text = "" <;>
                by_cases hsz : getIntValue w.dialog.sizeEditor.text < 0 <;>
                simp [hn, hsz] at h
    | backgroundMouseDown =>
      rw [arrayWorld_mouseDown_of_open w hopen, (arrayWorld_callAsync_dispatch w hq.1 _).1]
      exact arrayWorld_settled_of_closing w hs hopen _ (by intro h; cases h)
    | typeText ed t =>
      obtain ⟨h1, h2, h3, h4, _, _⟩ := arrayWorld_typeText_of_open w hopen ed t
      rw [arrayWorld_dispatchAll_of_queue_nil _ (by rw [h2, hq.1])]
      exact ⟨⟨by rw [h2, hq.1], by rw [h4, hq.2]⟩, Or.inl ⟨h1, by rw [h3]; exact hno⟩⟩
    | dispatch =>
      have : w.step ArrayEvent.dispatch = w := by simp [ArrayWorld.step, hq.1]
      rw [this, arrayWorld_dispatchAll_of_queue_nil _ hq.1]
      exact hs
    | parentSetSize nw nh =>
      have hqq : (w.step (ArrayEvent.parentSetSize nw nh)).queue = [] := hq.1
      rw [arrayWorld_dispatchAll_of_queue_nil _ hqq]
      exact ⟨hq, Or.inl ⟨hopen, hno⟩⟩
  · obtain ⟨h1, h2, h3, h4, h5⟩ := arrayWorld_closed_step w hd hq.1 e
    rw [arrayWorld_dispatchAll_of_queue_nil _ h2]
    refine ⟨⟨h2, by rw [h4, hq.2]⟩, Or.inr ⟨h1, ?_⟩⟩
    rw [h3, h5]
    exact hall

theorem arrayWorld_settled_runEager (es : List ArrayEvent) :
    ∀ w : ArrayWorld, w.Settled → (w.runEager es).Settled := by
  induction es with
  | nil => intro w hs; exact hs
  | cons e es ih =>
    intro w hs
    exact ih _ (arrayWorld_settled_step w hs e)

/-- One event and the message loop, from an open settled array dialog: either the dialog
is still open, or it is deleted and a confirmation in the log comes from this event,
which is a click on OK, and carries the texts the editors had before the event. -/
theorem arrayWorld_settled_step_cases (w : ArrayWorld) (hs : w.Settled) (hopen : w.Open)
    (e : ArrayEvent) :
    ((w.step e).dispatchAll).Open ∨
    (((w.step e).dispatchAll).deleted = true ∧
      ∀ n s, Call.cbArray 1 n s ∈ ((w.step e).dispatchAll).log →
        e = ArrayEvent.click ArrayButton.ok ∧
        n = w.dialog.nameEditor.text ∧ s = w.dialog.sizeEditor.text ∧
        n ≠ "" ∧ 0 ≤ getIntValue s) := by
  have hq := hs.1
  have hno : ∀ n s, Call.cbArray 1 n s ∉ w.log := by
    rcases hs.2 with h | h
    · exact h.2
    · have := hopen.1; rw [h.1] at this; cases this
  have hcancel : ∀ n s, Call.cbArray 1 n s ∉ (ArrayAsync.cancel.run w).log := by
    intro n s hmem
    rw [arrayAsync_run_log] at hmem
    rcases List.mem_append.mp hmem with h | h
    · exact hno n s h
    · simp at h
  cases e with
  | click b =>
    cases b with
    | cancel =>
      rw [arrayWorld_click_cancel_of_open w hopen, (arrayWorld_callAsync_dispatch w hq.1 _).1]
      exact Or.inr ⟨(arrayAsync_run_state _ w).1, fun n s h => absurd h (hcancel n s)⟩
    | ok =>
      rw [arrayWorld_click_ok_of_open w hopen]
      by_cases hv : w.dialog.nameEditor.text ≠ "" ∧ 0 ≤ getIntValue w.dialog.sizeEditor.text
      · rw [arrayWorld_okOnClick_valid w hv.1 hv.2,
          (arrayWorld_callAsync_dispatch w hq.1 _).1]
        refine Or.inr ⟨(arrayAsync_run_state _ w).1, ?_⟩
        intro n s hmem
        rw [arrayAsync_run_log] at hmem
        rcases List.mem_append.mp hmem with h | h
        · exact absurd h (hno n s)
        · simp at h
          rw [h.1, h.2]
          exact ⟨rfl, rfl, rfl, hv.1, hv.2⟩
      · have hbad : w.dialog.nameEditor.text = "" ∨
            getIntValue w.dialog.sizeEditor.text < 0 := by
          by_cases hn : w.dialog.nameEditor.text = ""
          · exact Or.inl hn
          · exact Or.inr (not_le.mp (fun h => hv ⟨hn, h⟩))
        have h1 := (arrayWorld_okOnClick_invalid w hbad).1
        rw [arrayWorld_dispatchAll_of_queue_nil _ (by rw [h1, hq.1])]
        exact Or.inl (arrayWorld_okOnClick_open w hopen).1
  | backgroundMouseDown =>
    rw [arrayWorld_mouseDown_of_open w hopen, (arrayWorld_callAsync_dispatch w hq.1 _).1]
    exact Or.inr ⟨(arrayAsync_run_state _ w).1, fun n s h => absurd h (hcancel n s)⟩
  | typeText ed t =>
    obtain ⟨h1, h2, _⟩ := arrayWorld_typeText_of_open w hopen ed t
    rw [arrayWorld_dispatchAll_of_queue_nil _ (by rw [h2, hq.1])]
    exact Or.inl h1
  | dispatch =>
    have : w.step ArrayEvent.dispatch = w := by simp [ArrayWorld.step, hq.1]
    rw [this, arrayWorld_dispatchAll_of_queue_nil _ hq.1]
    exact Or.inl hopen
  | parentSetSize nw nh =>
    have hqq : (w.step (ArrayEvent.parentSetSize nw nh)).queue = [] := hq.1
    rw [arrayWorld_dispatchAll_of_queue_nil _ hqq]
    exact Or.inl hopen

theorem arrayWorld_closed_runEager (es : List ArrayEvent) :
    ∀ w : ArrayWorld, w.deleted = true → w.queue = [] →
      (w.runEager es).log = w.log ∧ (w.runEager es).dialog = w.dialog := by
  induction es with
  | nil => intro w _ _; simp [ArrayWorld.runEager]
  | cons e es ih =>
    intro w hd hq
    obtain ⟨h1, h2, h3, _, h5⟩ := arrayWorld_closed_step w hd hq e
    have hda : (w.step e).dispatchAll = w.step e := arrayWorld_dispatchAll_of_queue_nil _ h2
    have := ih (w.step e) h1 h2
    simp only [ArrayWorld.runEager, List.foldl_cons, hda] at *
    exact ⟨by rw [this.1, h3], by rw [this.2, h5]⟩

/-- In a run in which the message loop keeps up, a logged confirmation comes from a
click on OK delivered to the open dialog, and carries the texts the editors had when
that click was delivered. -/
theorem arrayWorld_confirmation_origin (es : List ArrayEvent) :
    ∀ w : ArrayWorld, w.Settled → w.Open → ∀ n s,
      Call.cbArray 1 n s ∈ (w.runEager es).log →
      ∃ es1 es2, es = es1 ++ ArrayEvent.click ArrayButton.ok :: es2 ∧
        (w.runEager es1).Open ∧
        (w.runEager es1).dialog.nameEditor.text = n ∧
        (w.runEager es1).dialog.sizeEditor.text = s := by
  induction es with
  | nil =>
    intro w hs hopen n s hmem
    rcases hs.2 with h | h
    · exact absurd hmem (h.2 n s)
    · have := hopen.1; rw [h.1] at this; cases this
  | cons e es ih =>
    intro w hs hopen n s hmem
    have hs1 := arrayWorld_settled_step w hs e
    rcases arrayWorld_settled_step_cases w hs hopen e with h1 | ⟨hd, hall⟩
    · obtain ⟨es1, es2, heq, ho, hn, hz⟩ := ih _ hs1 h1 n s hmem
      exact ⟨e :: es1, es2, by rw [heq]; rfl, ho, hn, hz⟩
    · have hlog := (arrayWorld_closed_runEager es _ hd hs1.1.1).1
      have hmem2 : Call.cbArray 1 n s ∈ ((w.step e).dispatchAll).log := by
        rw [← hlog]; exact hmem
      obtain ⟨he, hn, hz, _, _⟩ := hall n s hmem2
      exact ⟨[], es, by rw [he]; rfl, hopen, hn.symm, hz.symm⟩

/-! ### The input restriction of the size editor -/

/-- Text that passes the filter of an editor restricted to ten decimal digits has at
most ten characters, all of them decimal digits. -/
theorem filterNewText_digits (e : TextEditor) (t : String) (hmax : e.maxTextLength = 10)
    (hall : e.allowedCharacters = "0123456789".toList) :
    (e.filterNewText t).length ≤ 10 ∧
    ∀ c ∈ (e.filterNewText t).toList, '0' ≤ c ∧ c ≤ '9' := by
  have hd : ∀ c ∈ "0123456789".toList, '0' ≤ c ∧ c ≤ '9' := by decide
  have hne : ("0123456789".toList).isEmpty = false := by decide
  simp only [TextEditor.filterNewText, hmax, hall, hne]
  refine ⟨?_, ?_⟩
  · simp [String.length]
  · intro c hc
    have hc2 : c ∈ (t.toList.filter (fun c => decide (c ∈ "0123456789".toList))).take 10 := by
      simpa using hc
    have hc3 := List.mem_of_mem_take hc2
    exact hd c (by simpa using (List.mem_filter.mp hc3).2)

theorem arrayWorld_okOnClick_sizeEditor (w : ArrayWorld) :
    w.okOnClick.dialog.sizeEditor.text = w.dialog.sizeEditor.text ∧
    w.okOnClick.dialog.sizeEditor.maxTextLength = w.dialog.sizeEditor.maxTextLength ∧
    w.okOnClick.dialog.sizeEditor.allowedCharacters =
      w.dialog.sizeEditor.allowedCharacters := by
  unfold ArrayWorld.okOnClick
  simp only []
  split_ifs <;> simp [ArrayWorld.flag, ArrayWorld.callAsync, TextEditor.setOutlineRed]

theorem arrayClosure_run_sizeEditor (c : ArrayClosure) (w : ArrayWorld) :
    (c.run w).dialog.sizeEditor.text = w.dialog.sizeEditor.text ∧
    (c.run w).dialog.sizeEditor.maxTextLength = w.dialog.sizeEditor.maxTextLength ∧
    (c.run w).dialog.sizeEditor.allowedCharacters =
      w.dialog.sizeEditor.allowedCharacters := by
  cases c with
  | cancelOnClick => simp [ArrayClosure.run, ArrayWorld.callAsync]
  | okOnClick => exact arrayWorld_okOnClick_sizeEditor w

/-- The size editor holds at most ten decimal digits after every event. -/
theorem arrayWorld_sizeRestricted_step (w : ArrayWorld) (h : w.SizeRestricted)
    (e : ArrayEvent) : (w.step e).SizeRestricted := by
  obtain ⟨h1, h2, h3, h4⟩ := h
  have keep : ∀ v : ArrayWorld,
      v.dialog.sizeEditor.text = w.dialog.sizeEditor.text ∧
      v.dialog.sizeEditor.maxTextLength = w.dialog.sizeEditor.maxTextLength ∧
      v.dialog.sizeEditor.allowedCharacters = w.dialog.sizeEditor.allowedCharacters →
      v.SizeRestricted := by
    intro v hv
    refine ⟨by rw [hv.2.1, h1], by rw [hv.2.2, h2], by rw [hv.1]; exact h3, ?_⟩
    rw [hv.1]; exact h4
  cases e with
  | click b =>
    simp only [ArrayWorld.step, ArrayWorld.clickHandler]
    split_ifs
    · exact ⟨h1, h2, h3, h4⟩
    · cases hc : w.dialog.onClick b with
      | none => exact ⟨h1, h2, h3, h4⟩
      | some c => exact keep _ (arrayClosure_run_sizeEditor c w)
  | backgroundMouseDown =>
    simp only [ArrayWorld.step, ArrayWorld.mouseDown]
    split_ifs
    · exact ⟨h1, h2, h3, h4⟩
    · cases hb : w.dialog.background with
      | none => exact ⟨h1, h2, h3, h4⟩
      | some b =>
        simp only []
        split_ifs
        · cases hc : b.onClose with
          | none => exact ⟨h1, h2, h3, h4⟩
          | some c => exact keep _ (arrayClosure_run_sizeEditor c w)
        · exact ⟨h1, h2, h3, h4⟩
  | typeText ed t =>
    simp only [ArrayWorld.step]
    split_ifs
    · exact ⟨h1, h2, h3, h4⟩
    · cases ed with
      | name => exact keep _ ⟨rfl, rfl, rfl⟩
      | size =>
        obtain ⟨f1, f2⟩ := filterNewText_digits w.dialog.sizeEditor t h1 h2
        exact ⟨h1, h2, f1, f2⟩
  | dispatch =>
    simp only [ArrayWorld.step]
    cases hq : w.queue with
    | nil => exact ⟨h1, h2, h3, h4⟩
    | cons a rest =>
      cases a <;>
        exact keep _ (by
          simp [ArrayAsync.run, ArrayWorld.deleteThis, ArrayWorld.cb, ArrayWorld.cbWithTexts,
            ArrayWorld.backgroundSetVisible, ArrayWorld.touch])
  | parentSetSize nw nh => exact ⟨h1, h2, h3, h4⟩

theorem arrayWorld_sizeRestricted_drain (n : Nat) :
    ∀ w : ArrayWorld, w.SizeRestricted → (ArrayWorld.drain n w).SizeRestricted := by
  induction n with
  | zero => intro w h; exact h
  | succ n ih =>
    intro w h
    exact ih _ (arrayWorld_sizeRestricted_step w h ArrayEvent.dispatch)

theorem arrayWorld_sizeRestricted_runEager (es : List ArrayEvent) :
    ∀ w : ArrayWorld, w.SizeRestricted → (w.runEager es).SizeRestricted := by
  induction es with
  | nil => intro w h; exact h
  | cons e es ih =>
    intro w h
    exact ih _ (arrayWorld_sizeRestricted_drain _ _ (arrayWorld_sizeRestricted_step w h e))

theorem arrayWorld_sizeRestricted_run (es : List ArrayEvent) :
    ∀ w : ArrayWorld, w.SizeRestricted → (w.run es).SizeRestricted := by
  induction es with
  | nil => intro w h; exact h
  | cons e es ih =>
    intro w h
    exact ih _ (arrayWorld_sizeRestricted_step w h e)

theorem showArrayDialog_sizeRestricted (centre : Parent) :
    (showArrayDialog centre).SizeRestricted := by
  have h : (showArrayDialog centre).dialog.sizeEditor =
      { text := "100", outlineRed := false, maxTextLength := 10,
        allowedCharacters := "0123456789".toList } := rfl
  unfold ArrayWorld.SizeRestricted
  rw [h]
  decide

/-! ### C4: what a confirmation carries -/

/-- C4 (as amended): in every run of an array dialog in which the message loop runs the
pending closure before the next event is delivered, whenever the completion callback
has been invoked with result 1, the name it carries is not empty and the size it
carries is the empty string or a string of decimal digits, at most ten; the run
contains a click on OK delivered to the open dialog, and both strings are the contents
the two editors had at that click.  The dialog is then deleted, the strings are the
last contents of its editors, no closure has run on the deleted dialog, and the size
text passed the test of the OK handler. -/
theorem arrayDialog_confirmation_sound (centre : Parent) (es : List ArrayEvent)
    (n s : String)
    (hmem : Call.cbArray 1 n s ∈ ((showArrayDialog centre).runEager es).log) :
    n ≠ "" ∧
    (s.length ≤ 10 ∧ ∀ c ∈ s.toList, '0' ≤ c ∧ c ≤ '9') ∧
    (∃ es1 es2, es = es1 ++ ArrayEvent.click ArrayButton.ok :: es2 ∧
      ((showArrayDialog centre).runEager es1).Open ∧
      ((showArrayDialog centre).runEager es1).dialog.nameEditor.text = n ∧
      ((showArrayDialog centre).runEager es1).dialog.sizeEditor.text = s) ∧
    ((showArrayDialog centre).runEager es).deleted = true ∧
    n = ((showArrayDialog centre).runEager es).dialog.nameEditor.text ∧
    s = ((showArrayDialog centre).runEager es).dialog.sizeEditor.text ∧
    ((showArrayDialog centre).runEager es).useAfterDelete = false ∧
    0 ≤ getIntValue s := by
  obtain ⟨hopen, hquiet, hlog⟩ := showArrayDialog_open centre
  have h0 : (showArrayDialog centre).Settled :=
    ⟨hquiet, Or.inl ⟨hopen, by intro n s; rw [hlog]; simp⟩⟩
  have horigin := arrayWorld_confirmation_origin es _ h0 hopen n s hmem
  obtain ⟨_, _, r3, r4⟩ :=
    arrayWorld_sizeRestricted_runEager es _ (showArrayDialog_sizeRestricted centre)
  obtain ⟨hq, hbody⟩ := arrayWorld_settled_runEager es _ h0
  rcases hbody with ⟨_, hno⟩ | ⟨hd, hall⟩
  · exact absurd hmem (hno n s)
  · obtain ⟨h1, h2, h3, h4⟩ := hall n s hmem
    rw [← h4] at r3 r4
    exact ⟨h1, ⟨r3, r4⟩, horigin, hd, h3, h4, hq.2, h2⟩

/-- C4, witness: the confirmation of the initial contents. -/
theorem arrayDialog_confirmation_sound_witness :
    Call.cbArray 1 "array1" "100" ∈
      ((showArrayDialog ⟨800, 600, []⟩).runEager [ArrayEvent.click ArrayButton.ok]).log ∧
    ("array1" ≠ "" ∧ ("100".length ≤ 10 ∧ ∀ c ∈ "100".toList, '0' ≤ c ∧ c ≤ '9')) :=
  ⟨by decide,
    let h := arrayDialog_confirmation_sound ⟨800, 600, []⟩ [ArrayEvent.click ArrayButton.ok]
      "array1" "100" (by decide)
    ⟨h.1, h.2.1⟩⟩

/-- C4, counterexample: with the size editor emptied, OK confirms and the callback gets
result 1 with the empty string as size, which is not a decimal numeral; and when the
name is cleared after the OK click and before the posted closure runs, the callback
gets result 1 with an empty name, not the name the click checked. -/
theorem arrayDialog_confirms_empty_size :
    callbacks ((showArrayDialog ⟨800, 600, []⟩).run
      [ArrayEvent.typeText Editor.size "", ArrayEvent.click ArrayButton.ok,
       ArrayEvent.dispatch]).log = [Call.cbArray 1 "array1" ""] ∧
    callbacks ((showArrayDialog ⟨800, 600, []⟩).run
      [ArrayEvent.click ArrayButton.ok, ArrayEvent.typeText Editor.name "",
       ArrayEvent.dispatch]).log = [Call.cbArray 1 "" "100"] := by
  decide

/-! ### C5: the closing paths -/

theorem saveWorld_closing_path (w : SaveWorld) (hopen : w.Open) (hquiet : w.Quiet)
    (b : SaveButton) (es : List SaveEvent) :
    (w.run (SaveEvent.click b :: SaveEvent.dispatch :: es)).log = (b.async.run w).log ∧
    (w.run (SaveEvent.click b :: SaveEvent.dispatch :: es)).deleted = true ∧
    (w.run (SaveEvent.click b :: SaveEvent.dispatch :: es)).useAfterDelete = false := by
  obtain ⟨_, h2⟩ := saveWorld_click_dispatch w hopen hquiet b
  obtain ⟨s1, s2, _, s4, _⟩ := saveAsync_run_state b.async w
  obtain ⟨k1, _, k3, k4, _⟩ := saveWorld_closed_run es (b.async.run w) s1 (by rw [s2, hquiet.1])
  simp only [SaveWorld.run, List.foldl_cons, h2] at *
  exact ⟨k3, k1, by rw [k4, s4, hquiet.2, hopen.1]; rfl⟩

theorem arrayWorld_closing_path (w : ArrayWorld) (hquiet : w.Quiet) (hd : w.deleted = false)
    (e : ArrayEvent) (a : ArrayAsync) (he : w.step e = w.callAsync a)
    (es : List ArrayEvent) :
    (w.run (e :: ArrayEvent.dispatch :: es)).log = (a.run w).log ∧
    (w.run (e :: ArrayEvent.dispatch :: es)).deleted = true ∧
    (w.run (e :: ArrayEvent.dispatch :: es)).useAfterDelete = false := by
  obtain ⟨_, h2⟩ := arrayWorld_callAsync_dispatch w hquiet.1 a
  obtain ⟨s1, s2, _, s4, _⟩ := arrayAsync_run_state a w
  obtain ⟨k1, _, k3, k4, _⟩ := arrayWorld_closed_run es (a.run w) s1 (by rw [s2, hquiet.1])
  simp only [ArrayWorld.run, List.foldl_cons, he, h2] at *
  exact ⟨k3, k1, by rw [k4, s4, hquiet.2, hd]; rfl⟩

/-- The closing paths one at a time: from an open dialog with nothing pending, each
closing path (Save dialog:
Cancel, Don't Save, Save; Array dialog: Cancel, a pointer press on the overlay, OK with
valid fields) consists of the click and one deferred step.  That step invokes the
completion callback exactly once, after any reading of the editors and before
`delete this`, which is its last call; whatever events follow, the log gets no further
entry (no callback and no field access on the deleted dialog), the dialog stays deleted
and no closure runs on it. -/
theorem dialogs_closing_paths (ws : SaveWorld) (wa : ArrayWorld)
    (hs : ws.Open) (hsq : ws.Quiet) (ha : wa.Open) (haq : wa.Quiet) :
    (∀ es : List SaveEvent,
      (ws.run (SaveEvent.click SaveButton.cancel :: SaveEvent.dispatch :: es)).log =
        ws.log ++ [Call.backgroundSetVisible false, Call.cbSave 0, Call.deleteThis] ∧
      (ws.run (SaveEvent.click SaveButton.cancel :: SaveEvent.dispatch :: es)).deleted
        = true ∧
      (ws.run (SaveEvent.click SaveButton.cancel :: SaveEvent.dispatch :: es)).useAfterDelete
        = false) ∧
    (∀ es : List SaveEvent,
      (ws.run (SaveEvent.click SaveButton.dontsave :: SaveEvent.dispatch :: es)).log =
        ws.log ++ [Call.cbSave 1, Call.deleteThis] ∧
      (ws.run (SaveEvent.click SaveButton.dontsave :: SaveEvent.dispatch :: es)).deleted
        = true ∧
      (ws.run (SaveEvent.click SaveButton.dontsave :: SaveEvent.dispatch ::
        es)).useAfterDelete = false) ∧
    (∀ es : List SaveEvent,
      (ws.run (SaveEvent.click SaveButton.save :: SaveEvent.dispatch :: es)).log =
        ws.log ++ [Call.cbSave 2, Call.deleteThis] ∧
      (ws.run (SaveEvent.click SaveButton.save :: SaveEvent.dispatch :: es)).deleted
        = true ∧
      (ws.run (SaveEvent.click SaveButton.save :: SaveEvent.dispatch :: es)).useAfterDelete
        = false) ∧
    (∀ es : List ArrayEvent,
      (wa.run (ArrayEvent.click ArrayButton.cancel :: ArrayEvent.dispatch :: es)).log =
        wa.log ++ [Call.backgroundSetVisible false, Call.cbArray 0 "" "", Call.deleteThis] ∧
      (wa.run (ArrayEvent.click ArrayButton.cancel :: ArrayEvent.dispatch :: es)).deleted
        = true ∧
      (wa.run (ArrayEvent.click ArrayButton.cancel :: ArrayEvent.dispatch ::
        es)).useAfterDelete = false) ∧
    (∀ es : List ArrayEvent,
      (wa.run (ArrayEvent.backgroundMouseDown :: ArrayEvent.dispatch :: es)).log =
        wa.log ++ [Call.backgroundSetVisible false, Call.cbArray 0 "" "", Call.deleteThis] ∧
      (wa.run (ArrayEvent.backgroundMouseDown :: ArrayEvent.dispatch :: es)).deleted
        = true ∧
      (wa.run (ArrayEvent.backgroundMouseDown :: ArrayEvent.dispatch :: es)).useAfterDelete
        = false) ∧
    (wa.dialog.nameEditor.text ≠ "" → 0 ≤ getIntValue wa.dialog.sizeEditor.text →
      ∀ es : List ArrayEvent,
      (wa.run (ArrayEvent.click ArrayButton.ok :: ArrayEvent.dispatch :: es)).log =
        wa.log ++ [Call.backgroundSetVisible false, Call.getTexts,
          Call.cbArray 1 wa.dialog.nameEditor.text wa.dialog.sizeEditor.text,
          Call.deleteThis] ∧
      (wa.run (ArrayEvent.click ArrayButton.ok :: ArrayEvent.dispatch :: es)).deleted
        = true ∧
      (wa.run (ArrayEvent.click ArrayButton.ok :: ArrayEvent.dispatch :: es)).useAfterDelete
        = false) := by
  refine ⟨?_, ?_, ?_, ?_, ?_, ?_⟩
  · intro es
    have := saveWorld_closing_path ws hs hsq SaveButton.cancel es
    rwa [saveAsync_run_log] at this
  · intro es
    have := saveWorld_closing_path ws hs hsq SaveButton.dontsave es
    rwa [saveAsync_run_log] at this
  · intro es
    have := saveWorld_closing_path ws hs hsq SaveButton.save es
    rwa [saveAsync_run_log] at this
  · intro es
    have := arrayWorld_closing_path wa haq ha.1 _ _
      (arrayWorld_click_cancel_of_open wa ha) es
    rwa [arrayAsync_run_log] at this
  · intro es
    have := arrayWorld_closing_path wa haq ha.1 _ _
      (arrayWorld_mouseDown_of_open wa ha) es
    rwa [arrayAsync_run_log] at this
  · intro hn hsz es
    have hstep : wa.step (ArrayEvent.click ArrayButton.ok) = wa.callAsync ArrayAsync.ok := by
      rw [arrayWorld_click_ok_of_open wa ha, arrayWorld_okOnClick_valid wa hn hsz]
    have := arrayWorld_closing_path wa haq ha.1 _ _ hstep es
    rwa [arrayAsync_run_log] at this

/-- The closing paths on the two dialogs as they are opened; the array dialog is then confirmed
with its initial contents, after which a further click and message-loop run add
nothing. -/
theorem dialogs_closing_paths_witness :
    (showSaveDialog ⟨800, 600, []⟩).Open ∧ (showSaveDialog ⟨800, 600, []⟩).Quiet ∧
    (showArrayDialog ⟨800, 600, []⟩).Open ∧ (showArrayDialog ⟨800, 600, []⟩).Quiet ∧
    ((showArrayDialog ⟨800, 600, []⟩).run
      (ArrayEvent.click ArrayButton.ok :: ArrayEvent.dispatch ::
        [ArrayEvent.click ArrayButton.ok, ArrayEvent.dispatch])).log =
      [Call.backgroundSetVisible false, Call.getTexts,
        Call.cbArray 1 "array1" "100", Call.deleteThis] :=
  ⟨by decide, by decide, by decide, by decide,
    ((dialogs_closing_paths (showSaveDialog ⟨800, 600, []⟩) (showArrayDialog ⟨800, 600, []⟩)
      (by decide) (by decide) (by decide) (by decide)).2.2.2.2.2 (by decide) (by decide)
      [ArrayEvent.click ArrayButton.ok, ArrayEvent.dispatch]).1⟩

/-- C5, the code at the failing input: in an array dialog with its initial, valid
fields, two closing actions (a button click or a press on the overlay, then a button
click, on Cancel or OK in any combination) that are both delivered before the message
loop runs post two closures.  The first closure invokes the callback once and deletes the dialog while the
second closure is still pending; the message loop then runs the second closure on the
deleted dialog, where its first statement `background->setVisible(false)` reads a member
of the destroyed dialog. -/
theorem arrayDialog_second_close_runs_on_deleted (b1 b2 : ArrayButton) :
    (((showArrayDialog ⟨800, 600, []⟩).run
        [ArrayEvent.click b1, ArrayEvent.click b2]).queue.length = 2 ∧
      (callbacks ((showArrayDialog ⟨800, 600, []⟩).run
        [ArrayEvent.click b1, ArrayEvent.click b2, ArrayEvent.dispatch]).log).length = 1 ∧
      ((showArrayDialog ⟨800, 600, []⟩).run
        [ArrayEvent.click b1, ArrayEvent.click b2, ArrayEvent.dispatch]).deleted = true ∧
      ((showArrayDialog ⟨800, 600, []⟩).run
        [ArrayEvent.click b1, ArrayEvent.click b2, ArrayEvent.dispatch]).queue.length = 1 ∧
      ((showArrayDialog ⟨800, 600, []⟩).run
        [ArrayEvent.click b1, ArrayEvent.click b2, ArrayEvent.dispatch]).useAfterDelete
        = false ∧
      ((showArrayDialog ⟨800, 600, []⟩).run
        [ArrayEvent.click b1, ArrayEvent.click b2, ArrayEvent.dispatch,
         ArrayEvent.dispatch]).useAfterDelete = true) ∧
    (((showArrayDialog ⟨800, 600, []⟩).run
        [ArrayEvent.backgroundMouseDown, ArrayEvent.click b2]).queue.length = 2 ∧
      (callbacks ((showArrayDialog ⟨800, 600, []⟩).run
        [ArrayEvent.backgroundMouseDown, ArrayEvent.click b2,
         ArrayEvent.dispatch]).log).length = 1 ∧
      ((showArrayDialog ⟨800, 600, []⟩).run
        [ArrayEvent.backgroundMouseDown, ArrayEvent.click b2,
         ArrayEvent.dispatch]).deleted = true ∧
      ((showArrayDialog ⟨800, 600, []⟩).run
        [ArrayEvent.backgroundMouseDown, ArrayEvent.click b2,
         ArrayEvent.dispatch]).queue.length = 1 ∧
      ((showArrayDialog ⟨800, 600, []⟩).run
        [ArrayEvent.backgroundMouseDown, ArrayEvent.click b2,
         ArrayEvent.dispatch]).useAfterDelete = false ∧
      ((showArrayDialog ⟨800, 600, []⟩).run
        [ArrayEvent.backgroundMouseDown, ArrayEvent.click b2, ArrayEvent.dispatch,
         ArrayEvent.dispatch]).useAfterDelete = true) := by
  cases b1 <;> cases b2 <;> decide

/-! ### C6: what a click handler does by itself -/

theorem arrayWorld_okOnClick_frame (w : ArrayWorld) :
    callbacks w.okOnClick.log = callbacks w.log ∧ w.okOnClick.deleted = w.deleted ∧
    (Call.deleteThis ∈ w.okOnClick.log ↔ Call.deleteThis ∈ w.log) := by
  unfold ArrayWorld.okOnClick
  simp only []
  split_ifs <;>
    simp [ArrayWorld.flag, ArrayWorld.callAsync, callbacks, Call.isCb, List.filter_append]

/-- In the save dialog only the message loop invokes the callback or deletes. -/
theorem saveWorld_step_frame (w : SaveWorld) (e : SaveEvent) (he : e ≠ SaveEvent.dispatch) :
    callbacks (w.step e).log = callbacks w.log ∧ (w.step e).deleted = w.deleted ∧
    (Call.deleteThis ∈ (w.step e).log ↔ Call.deleteThis ∈ w.log) := by
  cases e with
  | dispatch => exact absurd rfl he
  | click b =>
    simp only [SaveWorld.step, SaveWorld.clickHandler]
    split_ifs
    · simp
    · cases h : w.dialog.onClick b with
      | none => simp
      | some c => cases c <;> simp [SaveClosure.run, SaveWorld.callAsync]
  | backgroundMouseDown =>
    simp only [SaveWorld.step, SaveWorld.mouseDown]
    split_ifs
    · simp
    · cases h : w.dialog.background with
      | none => simp
      | some b =>
        simp only []
        split_ifs
        · cases h2 : b.onClose with
          | none => simp
          | some c => cases c <;> simp [SaveClosure.run, SaveWorld.callAsync]
        · simp
  | parentSetSize nw nh => simp [SaveWorld.step]

/-- In the array dialog only the message loop invokes the callback or deletes. -/
theorem arrayWorld_step_frame (w : ArrayWorld) (e : ArrayEvent)
    (he : e ≠ ArrayEvent.dispatch) :
    callbacks (w.step e).log = callbacks w.log ∧ (w.step e).deleted = w.deleted ∧
    (Call.deleteThis ∈ (w.step e).log ↔ Call.deleteThis ∈ w.log) := by
  cases e with
  | dispatch => exact absurd rfl he
  | click b =>
    simp only [ArrayWorld.step, ArrayWorld.clickHandler]
    split_ifs
    · simp
    · cases h : w.dialog.onClick b with
      | none => simp
      | some c =>
        cases c with
        | cancelOnClick => simp [ArrayClosure.run, ArrayWorld.callAsync]
        | okOnClick => exact arrayWorld_okOnClick_frame w
  | backgroundMouseDown =>
    simp only [ArrayWorld.step, ArrayWorld.mouseDown]
    split_ifs
    · simp
    · cases h : w.dialog.background with
      | none => simp
      | some b =>
        simp only []
        split_ifs
        · cases h2 : b.onClose with
          | none => simp
          | some c =>
            cases c with
            | cancelOnClick => simp [ArrayClosure.run, ArrayWorld.callAsync]
            | okOnClick => exact arrayWorld_okOnClick_frame w
        · simp
  | typeText ed t =>
    simp only [ArrayWorld.step]
    split_ifs
    · simp
    · cases ed <;> simp [ArrayWorld.typeText]
  | parentSetSize nw nh => simp [ArrayWorld.step]

/-- C6 (as amended): no click handler of the save or array dialog invokes the
completion callback or deletes the dialog.  A click that closes (Cancel, Don't Save,
Save; array Cancel, a pointer press on the overlay, array OK with valid fields) changes
nothing but the message queue, to which it appends one closure; an array OK click with
invalid fields appends none (it only marks the fields).  Every event other than the
message loop running a posted closure leaves the callback invocations, the
`delete this` entries and the existence of the dialog as they were, so the dialog still
exists when the handler returns. -/
theorem dialogs_click_handlers_defer (ws : SaveWorld) (wa : ArrayWorld)
    (hs : ws.Open) (ha : wa.Open) :
    (∀ b : SaveButton,
      ws.step (SaveEvent.click b) = { ws with queue := ws.queue ++ [b.async] }) ∧
    wa.step (ArrayEvent.click ArrayButton.cancel) =
      { wa with queue := wa.queue ++ [ArrayAsync.cancel] } ∧
    wa.step ArrayEvent.backgroundMouseDown =
      { wa with queue := wa.queue ++ [ArrayAsync.cancel] } ∧
    (wa.dialog.nameEditor.text ≠ "" → 0 ≤ getIntValue wa.dialog.sizeEditor.text →
      wa.step (ArrayEvent.click ArrayButton.ok) =
        { wa with queue := wa.queue ++ [ArrayAsync.ok] }) ∧
    ((wa.dialog.nameEditor.text = "" ∨ getIntValue wa.dialog.sizeEditor.text < 0) →
      (wa.step (ArrayEvent.click ArrayButton.ok)).queue = wa.queue) ∧
    (∀ e : SaveEvent, e ≠ SaveEvent.dispatch →
      callbacks (ws.step e).log = callbacks ws.log ∧ (ws.step e).deleted = false ∧
      (Call.deleteThis ∈ (ws.step e).log ↔ Call.deleteThis ∈ ws.log)) ∧
    (∀ e : ArrayEvent, e ≠ ArrayEvent.dispatch →
      callbacks (wa.step e).log = callbacks wa.log ∧ (wa.step e).deleted = false ∧
      (Call.deleteThis ∈ (wa.step e).log ↔ Call.deleteThis ∈ wa.log)) := by
  refine ⟨?_, ?_, ?_, ?_, ?_, ?_, ?_⟩
  · intro b; rw [saveWorld_click_of_open ws hs b]; rfl
  · rw [arrayWorld_click_cancel_of_open wa ha]; rfl
  · rw [arrayWorld_mouseDown_of_open wa ha]; rfl
  · intro hn hsz
    rw [arrayWorld_click_ok_of_open wa ha, arrayWorld_okOnClick_valid wa hn hsz]; rfl
  · intro hbad
    rw [arrayWorld_click_ok_of_open wa ha]
    exact (arrayWorld_okOnClick_invalid wa hbad).1
  · intro e he
    obtain ⟨h1, h2, h3⟩ := saveWorld_step_frame ws e he
    exact ⟨h1, by rw [h2, hs.1], h3⟩
  · intro e he
    obtain ⟨h1, h2, h3⟩ := arrayWorld_step_frame wa e he
    exact ⟨h1, by rw [h2, ha.1], h3⟩

/-- C6, witness: the two dialogs as they are opened; after a click on Save the dialog
is not deleted. -/
theorem dialogs_click_handlers_defer_witness :
    (showSaveDialog ⟨800, 600, []⟩).Open ∧ (showArrayDialog ⟨800, 600, []⟩).Open ∧
    ((showSaveDialog ⟨800, 600, []⟩).step (SaveEvent.click SaveButton.save)).deleted
      = false :=
  ⟨by decide, by decide,
    ((dialogs_click_handlers_defer (showSaveDialog ⟨800, 600, []⟩)
      (showArrayDialog ⟨800, 600, []⟩) (by decide) (by decide)).2.2.2.2.2.1
      (SaveEvent.click SaveButton.save) (by decide)).2.1⟩

/-- C6, counterexample: the OK handler of the array dialog, clicked while the name is
empty, posts no closure at all; it sets the outline colour of the name editor. -/
theorem arrayDialog_ok_handler_posts_nothing :
    ((showArrayDialog ⟨800, 600, []⟩).run
      [ArrayEvent.typeText Editor.name ""]).queue = [] ∧
    ((showArrayDialog ⟨800, 600, []⟩).run
      [ArrayEvent.typeText Editor.name "", ArrayEvent.click ArrayButton.ok]).queue = [] ∧
    ((showArrayDialog ⟨800, 600, []⟩).run
      [ArrayEvent.typeText Editor.name "", ArrayEvent.click ArrayButton.ok]).log =
      [Call.setColourRed Editor.name] ∧
    ((showArrayDialog ⟨800, 600, []⟩).run
      [ArrayEvent.typeText Editor.name ""]).dialog.nameEditor.outlineRed = false ∧
    ((showArrayDialog ⟨800, 600, []⟩).run
      [ArrayEvent.typeText Editor.name "",
       ArrayEvent.click ArrayButton.ok]).dialog.nameEditor.outlineRed = true := by
  decide

/-! ### C7: a rejected OK click -/

theorem arrayWorld_backgroundShown_of_open (w : ArrayWorld) (hopen : w.Open) :
    w.backgroundShown = true := by
  obtain ⟨b, hb, _, hv⟩ := arrayWorld_open_background w hopen
  simp [ArrayWorld.backgroundShown, hb, hv, hopen.2.2.2.2]

/-- A rejected click on OK in terms of the `int` the handler reads: in an open array
dialog whose name is empty or whose size text has a negative `getIntValue`, a click on
OK leaves the dialog not deleted, the overlay shown, the
parent, the queue and the two texts unchanged, and calls `setColour` with red exactly
on the invalid editors: on the name editor iff the name is empty, on the size editor iff
the size value is negative.  An editor that is marked has a red outline afterwards, an
editor that is not marked keeps its outline colour. -/
theorem arrayDialog_rejected_ok_marks_fields (w : ArrayWorld) (hopen : w.Open)
    (hbad : w.dialog.nameEditor.text = "" ∨ getIntValue w.dialog.sizeEditor.text < 0) :
    (w.step (ArrayEvent.click ArrayButton.ok)).deleted = false ∧
    (w.step (ArrayEvent.click ArrayButton.ok)).backgroundShown = true ∧
    (w.step (ArrayEvent.click ArrayButton.ok)).dialog.background = w.dialog.background ∧
    (w.step (ArrayEvent.click ArrayButton.ok)).parent = w.parent ∧
    (w.step (ArrayEvent.click ArrayButton.ok)).queue = w.queue ∧
    (w.step (ArrayEvent.click ArrayButton.ok)).dialog.nameEditor.text =
      w.dialog.nameEditor.text ∧
    (w.step (ArrayEvent.click ArrayButton.ok)).dialog.sizeEditor.text =
      w.dialog.sizeEditor.text ∧
    (∃ added : List Call,
      (w.step (ArrayEvent.click ArrayButton.ok)).log = w.log ++ added ∧
      (Call.setColourRed Editor.name ∈ added ↔ w.dialog.nameEditor.text = "") ∧
      (Call.setColourRed Editor.size ∈ added ↔
        getIntValue w.dialog.sizeEditor.text < 0)) ∧
    (w.step (ArrayEvent.click ArrayButton.ok)).dialog.nameEditor.outlineRed =
      (w.dialog.nameEditor.outlineRed || decide (w.dialog.nameEditor.text = "")) ∧
    (w.step (ArrayEvent.click ArrayButton.ok)).dialog.sizeEditor.outlineRed =
      (w.dialog.sizeEditor.outlineRed ||
        decide (getIntValue w.dialog.sizeEditor.text < 0)) := by
  have hstep := arrayWorld_click_ok_of_open w hopen
  obtain ⟨h1, h2, h3, h4, h5, h6, h7, h8, h9, h10⟩ := arrayWorld_okOnClick_invalid w hbad
  obtain ⟨k1, k2⟩ := arrayWorld_okOnClick_handlers w
  have hopen2 : w.okOnClick.Open := by
    obtain ⟨o1, o2, o3, o4, o5⟩ := hopen
    exact ⟨by rw [h2, o1], by rw [k1, o2], by rw [k2, o3], by rw [h5, o4],
      by rw [h4]; exact o5⟩
  rw [hstep]
  refine ⟨hopen2.1, arrayWorld_backgroundShown_of_open _ hopen2, h5, h4, h1, h6, h7,
    ⟨_, h10, ?_, ?_⟩, h8, h9⟩
  · by_cases hn : w.dialog.nameEditor.text = "" <;>
      by_cases hsz : getIntValue w.dialog.sizeEditor.text < 0 <;> simp [hn, hsz]
  · by_cases hn : w.dialog.nameEditor.text = "" <;>
      by_cases hsz : getIntValue w.dialog.sizeEditor.text < 0 <;> simp [hn, hsz]

/-- The rejected click on OK at the size text "3000000000" with the initial name: only
the size editor is marked. -/
theorem arrayDialog_rejected_ok_marks_fields_witness :
    ((showArrayDialog ⟨800, 600, []⟩).step
      (ArrayEvent.typeText Editor.size "3000000000")).Open ∧
    getIntValue "3000000000" < 0 ∧
    (((showArrayDialog ⟨800, 600, []⟩).step
      (ArrayEvent.typeText Editor.size "3000000000")).step
        (ArrayEvent.click ArrayButton.ok)).dialog.sizeEditor.outlineRed = true ∧
    (((showArrayDialog ⟨800, 600, []⟩).step
      (ArrayEvent.typeText Editor.size "3000000000")).step
        (ArrayEvent.click ArrayButton.ok)).dialog.nameEditor.outlineRed = false :=
  ⟨by decide, by decide,
    (arrayDialog_rejected_ok_marks_fields
      ((showArrayDialog ⟨800, 600, []⟩).step (ArrayEvent.typeText Editor.size "3000000000"))
      (by decide) (Or.inr (by decide))).2.2.2.2.2.2.2.2.2,
    (arrayDialog_rejected_ok_marks_fields
      ((showArrayDialog ⟨800, 600, []⟩).step (ArrayEvent.typeText Editor.size "3000000000"))
      (by decide) (Or.inr (by decide))).2.2.2.2.2.2.2.2.1⟩

/-- A rejected click on OK with an empty name and a size text of decimal digits that
denotes an integer of at most 2147483647: only the name editor is marked, the size
editor keeps its outline colour. -/
theorem arrayWorld_rejected_ok_in_range (w : ArrayWorld) (hopen : w.Open)
    (hname : w.dialog.nameEditor.text = "")
    (hdig : ∀ c ∈ w.dialog.sizeEditor.text.toList, '0' ≤ c ∧ c ≤ '9')
    (hval : decimalValue w.dialog.sizeEditor.text ≤ 2147483647) :
    (w.step (ArrayEvent.click ArrayButton.ok)).log =
      w.log ++ [Call.setColourRed Editor.name] ∧
    (w.step (ArrayEvent.click ArrayButton.ok)).dialog.sizeEditor.outlineRed =
      w.dialog.sizeEditor.outlineRed := by
  have hsize : ¬ getIntValue w.dialog.sizeEditor.text < 0 := by
    rw [getIntValue_eq_decimalValue _ hdig hval]
    exact not_lt.mpr (Int.ofNat_nonneg _)
  obtain ⟨_, _, _, _, _, _, _, _, h9, h10⟩ := arrayWorld_okOnClick_invalid w (Or.inl hname)
  rw [arrayWorld_click_ok_of_open w hopen]
  refine ⟨by rw [h10]; simp [hname, hsize], by rw [h9]; simp [hsize]⟩

/-- C7, the code at the failing input: with an empty name and the size text
"3000000000", ten decimal digits that denote the integer 3000000000, a click on OK
leaves the dialog open with its texts and calls `setColour` with red on both editors:
the size editor is marked although the size is not negative, because the handler reads
the text as the `int` -1294967296. -/
theorem arrayDialog_ok_marks_overflowing_size :
    ((showArrayDialog ⟨800, 600, []⟩).run
      [ArrayEvent.typeText Editor.name "",
       ArrayEvent.typeText Editor.size "3000000000"]).dialog.nameEditor.text = "" ∧
    ((showArrayDialog ⟨800, 600, []⟩).run
      [ArrayEvent.typeText Editor.name "",
       ArrayEvent.typeText Editor.size "3000000000"]).dialog.sizeEditor.text
      = "3000000000" ∧
    decimalValue "3000000000" = 3000000000 ∧
    getIntValue "3000000000" = -1294967296 ∧
    ((showArrayDialog ⟨800, 600, []⟩).run
      [ArrayEvent.typeText Editor.name "", ArrayEvent.typeText Editor.size "3000000000",
       ArrayEvent.click ArrayButton.ok]).log =
      [Call.setColourRed Editor.name, Call.setColourRed Editor.size] ∧
    ((showArrayDialog ⟨800, 600, []⟩).run
      [ArrayEvent.typeText Editor.name "", ArrayEvent.typeText Editor.size "3000000000",
       ArrayEvent.click ArrayButton.ok]).dialog.sizeEditor.outlineRed = true ∧
    ((showArrayDialog ⟨800, 600, []⟩).run
      [ArrayEvent.typeText Editor.name "", ArrayEvent.typeText Editor.size "3000000000",
       ArrayEvent.click ArrayButton.ok]).dialog.sizeEditor.text = "3000000000" ∧
    ((showArrayDialog ⟨800, 600, []⟩).run
      [ArrayEvent.typeText Editor.name "", ArrayEvent.typeText Editor.size "3000000000",
       ArrayEvent.click ArrayButton.ok]).deleted = false ∧
    ((showArrayDialog ⟨800, 600, []⟩).run
      [ArrayEvent.typeText Editor.name "", ArrayEvent.typeText Editor.size "3000000000",
       ArrayEvent.click ArrayButton.ok]).queue = [] := by
  decide

/-! ### C8: the overlay of the array dialog closes like Cancel -/

/-- C8: in an open array dialog, whatever the editors contain, a pointer press on the
overlay does exactly what a click on Cancel does: it appends one closure to the queue
and changes nothing else.  That closure, on any world, hides the overlay, invokes the
completion callback with `(0, "", "")` and deletes the dialog; no editor is read and
no editor content is passed on. -/
theorem arrayDialog_overlay_press_is_cancel (w : ArrayWorld) (hopen : w.Open) :
    w.step ArrayEvent.backgroundMouseDown = w.step (ArrayEvent.click ArrayButton.cancel) ∧
    w.step (ArrayEvent.click ArrayButton.cancel) =
      { w with queue := w.queue ++ [ArrayAsync.cancel] } ∧
    (∀ es : List ArrayEvent,
      w.run (ArrayEvent.backgroundMouseDown :: es) =
        w.run (ArrayEvent.click ArrayButton.cancel :: es)) ∧
    (∀ v : ArrayWorld,
      (ArrayAsync.cancel.run v).log =
        v.log ++ [Call.backgroundSetVisible false, Call.cbArray 0 "" "", Call.deleteThis] ∧
      (ArrayAsync.cancel.run v).deleted = true ∧
      (ArrayAsync.cancel.run v).backgroundShown = false) ∧
    (w.Quiet → ∀ es : List ArrayEvent,
      callbacks (w.run (ArrayEvent.backgroundMouseDown :: ArrayEvent.dispatch :: es)).log =
        callbacks w.log ++ [Call.cbArray 0 "" ""]) := by
  have h1 := arrayWorld_mouseDown_of_open w hopen
  have h2 := arrayWorld_click_cancel_of_open w hopen
  refine ⟨by rw [h1, h2], by rw [h2]; rfl, ?_, ?_, ?_⟩
  · intro es
    simp only [ArrayWorld.run, List.foldl_cons, h1, h2]
  · intro v
    obtain ⟨s1, _, s3, _⟩ := arrayAsync_run_state ArrayAsync.cancel v
    exact ⟨arrayAsync_run_log ArrayAsync.cancel v, s1, by simp [ArrayWorld.backgroundShown, s3]⟩
  · intro hq es
    rw [(arrayWorld_closing_path w hq hopen.1 _ _ h1 es).1, arrayAsync_run_log,
      callbacks_append]
    simp [callbacks, Call.isCb]

/-- C8, witness: the array dialog as it is opened. -/
theorem arrayDialog_overlay_press_is_cancel_witness :
    (showArrayDialog ⟨800, 600, []⟩).Open ∧
    (showArrayDialog ⟨800, 600, []⟩).step ArrayEvent.backgroundMouseDown =
      (showArrayDialog ⟨800, 600, []⟩).step (ArrayEvent.click ArrayButton.cancel) :=
  ⟨by decide, (arrayDialog_overlay_press_is_cancel (showArrayDialog ⟨800, 600, []⟩)
    (by decide)).1⟩

/-! ### The overlay lives as long as its dialog -/

theorem background_not_mem_after_delete (p : Parent) :
    Child.background ∉
      ((p.removeChildComponent Child.background).removeChildComponent Child.dialog).children := by
  simp [Parent.removeChildComponent, List.mem_filter]

theorem saveWorld_consistent_run_async (r : Rectangle) (a : SaveAsync) (w : SaveWorld) :
    (a.run w).Consistent r := by
  obtain ⟨s1, _, s3, _, s5, _⟩ := saveAsync_run_state a w
  refine ⟨fun h => ?_, fun _ => ⟨s3, ?_⟩⟩
  · rw [s1] at h; cases h
  · rw [s5]; exact background_not_mem_after_delete _

theorem saveWorld_consistent_step (r : Rectangle) (w : SaveWorld) (hc : w.Consistent r)
    (e : SaveEvent) : (w.step e).Consistent r := by
  cases e with
  | dispatch =>
    cases hq : w.queue with
    | nil =>
      have : w.step SaveEvent.dispatch = w := by simp [SaveWorld.step, hq]
      rw [this]; exact hc
    | cons a rest =>
      have : w.step SaveEvent.dispatch = a.run { w with queue := rest } := by
        simp [SaveWorld.step, hq]
      rw [this]; exact saveWorld_consistent_run_async r a _
  | click b =>
    cases hd : w.deleted with
    | true =>
      have : w.step (SaveEvent.click b) = w := by simp [SaveWorld.step, hd]
      rw [this]; exact hc
    | false =>
      rw [saveWorld_click_of_open w (hc.1 hd).1 b]
      exact hc
  | backgroundMouseDown =>
    cases hd : w.deleted with
    | true =>
      have : w.step SaveEvent.backgroundMouseDown = w := by simp [SaveWorld.step, hd]
      rw [this]; exact hc
    | false =>
      rw [saveWorld_mouseDown_of_open w (hc.1 hd).1]
      exact hc
  | parentSetSize nw nh => exact hc

theorem saveWorld_consistent_run (r : Rectangle) (es : List SaveEvent) :
    ∀ w : SaveWorld, w.Consistent r → (w.run es).Consistent r := by
  induction es with
  | nil => intro w h; exact h
  | cons e es ih => intro w h; exact ih _ (saveWorld_consistent_step r w h e)

theorem showSaveDialog_consistent (centre : Parent) :
    (showSaveDialog centre).Consistent centre.getLocalBounds := by
  refine ⟨fun _ => ⟨(showSaveDialog_open centre).1, ?_⟩, fun h => ?_⟩
  · simp [showSaveDialog, SaveDialog.create, BlackoutComponent.create,
      BlackoutComponent.resized, Parent.addChildComponent, Parent.getLocalBounds]
  · simp [showSaveDialog] at h

theorem arrayWorld_consistent_run_async (r : Rectangle) (a : ArrayAsync) (w : ArrayWorld) :
    (a.run w).Consistent r := by
  obtain ⟨s1, _, s3, _, s5, _⟩ := arrayAsync_run_state a w
  refine ⟨fun h => ?_, fun _ => ⟨s3, ?_⟩⟩
  · rw [s1] at h; cases h
  · rw [s5]; exact background_not_mem_after_delete _

theorem arrayWorld_consistent_step (r : Rectangle) (w : ArrayWorld) (hc : w.Consistent r)
    (e : ArrayEvent) : (w.step e).Consistent r := by
  cases e with
  | dispatch =>
    cases hq : w.queue with
    | nil =>
      have : w.step ArrayEvent.dispatch = w := by simp [ArrayWorld.step, hq]
      rw [this]; exact hc
    | cons a rest =>
      have : w.step ArrayEvent.dispatch = a.run { w with queue := rest } := by
        simp [ArrayWorld.step, hq]
      rw [this]; exact arrayWorld_consistent_run_async r a _
  | click b =>
    cases hd : w.deleted with
    | true =>
      have : w.step (ArrayEvent.click b) = w := by simp [ArrayWorld.step, hd]
      rw [this]; exact hc
    | false =>
      obtain ⟨hopen, hb⟩ := hc.1 hd
      cases b with
      | cancel =>
        rw [arrayWorld_click_cancel_of_open w hopen]
        exact hc
      | ok =>
        rw [arrayWorld_click_ok_of_open w hopen]
        obtain ⟨k1, k2, k3⟩ := arrayWorld_okOnClick_open w hopen
        refine ⟨fun _ => ⟨k1, by rw [k2]; exact hb⟩, fun h => ?_⟩
        rw [k1.1] at h; cases h
  | backgroundMouseDown =>
    cases hd : w.deleted with
    | true =>
      have : w.step ArrayEvent.backgroundMouseDown = w := by simp [ArrayWorld.step, hd]
      rw [this]; exact hc
    | false =>
      rw [arrayWorld_mouseDown_of_open w (hc.1 hd).1]
      exact hc
  | typeText ed t =>
    cases hd : w.deleted with
    | true =>
      have : w.step (ArrayEvent.typeText ed t) = w := by simp [ArrayWorld.step, hd]
      rw [this]; exact hc
    | false =>
      obtain ⟨hopen, hb⟩ := hc.1 hd
      obtain ⟨k1, _, _, _, _, k6⟩ := arrayWorld_typeText_of_open w hopen ed t
      refine ⟨fun _ => ⟨k1, by rw [k6]; exact hb⟩, fun h => ?_⟩
      rw [k1.1] at h; cases h
  | parentSetSize nw nh => exact hc

theorem arrayWorld_consistent_run (r : Rectangle) (es : List ArrayEvent) :
    ∀ w : ArrayWorld, w.Consistent r → (w.run es).Consistent r := by
  induction es with
  | nil => intro w h; exact h
  | cons e es ih => intro w h; exact ih _ (arrayWorld_consistent_step r w h e)

theorem showArrayDialog_consistent (centre : Parent) :
    (showArrayDialog centre).Consistent centre.getLocalBounds := by
  refine ⟨fun _ => ⟨(showArrayDialog_open centre).1, ?_⟩, fun h => ?_⟩
  · simp [showArrayDialog, ArrayDialog.create, BlackoutComponent.create,
      BlackoutComponent.resized, Parent.addChildComponent, Parent.getLocalBounds]
  · simp [showArrayDialog] at h

theorem saveWorld_lifetime_of_consistent (r : Rectangle) (w : SaveWorld)
    (hc : w.Consistent r) :
    (w.dialog.background.isSome = true ↔ w.deleted = false) ∧
    (Child.background ∈ w.parent.children ↔ w.deleted = false) ∧
    w.backgroundShown = !w.deleted := by
  cases hd : w.deleted with
  | true =>
    obtain ⟨h1, h2⟩ := hc.2 hd
    simp [h1, h2, SaveWorld.backgroundShown]
  | false =>
    obtain ⟨hopen, _⟩ := hc.1 hd
    obtain ⟨b, hb, _, hv⟩ := saveWorld_open_background w hopen
    simp [hb, hv, SaveWorld.backgroundShown, hopen.2.2.2.2.2]

theorem arrayWorld_lifetime_of_consistent (r : Rectangle) (w : ArrayWorld)
    (hc : w.Consistent r) :
    (w.dialog.background.isSome = true ↔ w.deleted = false) ∧
    (Child.background ∈ w.parent.children ↔ w.deleted = false) ∧
    w.backgroundShown = !w.deleted := by
  cases hd : w.deleted with
  | true =>
    obtain ⟨h1, h2⟩ := hc.2 hd
    simp [h1, h2, ArrayWorld.backgroundShown]
  | false =>
    obtain ⟨hopen, _⟩ := hc.1 hd
    obtain ⟨b, hb, _, hv⟩ := arrayWorld_open_background w hopen
    simp [hb, hv, ArrayWorld.backgroundShown, hopen.2.2.2.2]

/-! ### C9: the lifetime of the overlay -/

/-- C9: in every state a save dialog or an array dialog reaches from its opening, under
any sequence of events, the overlay exists iff the dialog is not deleted, it is a child
of the parent iff the dialog is not deleted, and it is on screen iff the dialog is not
deleted.  After a click on any button of the save dialog (Save and Don't Save
included), on Cancel or the overlay of the array dialog, or on OK with the initial
contents, and the run of the posted closure, the dialog is deleted and the overlay is
destroyed, off the parent and not shown, whatever events follow. -/
theorem dialogs_overlay_lifetime (centre : Parent) (es1 : List SaveEvent)
    (es2 : List ArrayEvent) :
    ((((showSaveDialog centre).run es1).dialog.background.isSome = true ↔
        ((showSaveDialog centre).run es1).deleted = false) ∧
      (Child.background ∈ ((showSaveDialog centre).run es1).parent.children ↔
        ((showSaveDialog centre).run es1).deleted = false) ∧
      ((showSaveDialog centre).run es1).backgroundShown =
        !((showSaveDialog centre).run es1).deleted) ∧
    ((((showArrayDialog centre).run es2).dialog.background.isSome = true ↔
        ((showArrayDialog centre).run es2).deleted = false) ∧
      (Child.background ∈ ((showArrayDialog centre).run es2).parent.children ↔
        ((showArrayDialog centre).run es2).deleted = false) ∧
      ((showArrayDialog centre).run es2).backgroundShown =
        !((showArrayDialog centre).run es2).deleted) ∧
    (∀ b : SaveButton,
      ((showSaveDialog centre).run
        (SaveEvent.click b :: SaveEvent.dispatch :: es1)).deleted = true ∧
      ((showSaveDialog centre).run
        (SaveEvent.click b :: SaveEvent.dispatch :: es1)).dialog.background = none ∧
      Child.background ∉ ((showSaveDialog centre).run
        (SaveEvent.click b :: SaveEvent.dispatch :: es1)).parent.children ∧
      ((showSaveDialog centre).run
        (SaveEvent.click b :: SaveEvent.dispatch :: es1)).backgroundShown = false) ∧
    (∀ e : ArrayEvent,
      e = ArrayEvent.click ArrayButton.cancel ∨ e = ArrayEvent.backgroundMouseDown ∨
        e = ArrayEvent.click ArrayButton.ok →
      ((showArrayDialog centre).run (e :: ArrayEvent.dispatch :: es2)).deleted = true ∧
      ((showArrayDialog centre).run
        (e :: ArrayEvent.dispatch :: es2)).dialog.background = none ∧
      Child.background ∉ ((showArrayDialog centre).run
        (e :: ArrayEvent.dispatch :: es2)).parent.children ∧
      ((showArrayDialog centre).run
        (e :: ArrayEvent.dispatch :: es2)).backgroundShown = false) := by
  have hs : ∀ es, ((showSaveDialog centre).run es).Consistent centre.getLocalBounds :=
    fun es => saveWorld_consistent_run _ es _ (showSaveDialog_consistent centre)
  have ha : ∀ es, ((showArrayDialog centre).run es).Consistent centre.getLocalBounds :=
    fun es => arrayWorld_consistent_run _ es _ (showArrayDialog_consistent centre)
  obtain ⟨hso, hsq, _⟩ := showSaveDialog_open centre
  obtain ⟨hao, haq, _⟩ := showArrayDialog_open centre
  refine ⟨saveWorld_lifetime_of_consistent _ _ (hs es1),
    arrayWorld_lifetime_of_consistent _ _ (ha es2), ?_, ?_⟩
  · intro b
    have hd := (saveWorld_closing_path _ hso hsq b es1).2.1
    obtain ⟨h1, h2⟩ := (hs (SaveEvent.click b :: SaveEvent.dispatch :: es1)).2 hd
    have h3 := (saveWorld_lifetime_of_consistent _ _
      (hs (SaveEvent.click b :: SaveEvent.dispatch :: es1))).2.2
    rw [hd] at h3
    exact ⟨hd, h1, h2, h3⟩
  · intro e he
    have hstep : ∃ a, (showArrayDialog centre).step e = (showArrayDialog centre).callAsync a := by
      rcases he with rfl | rfl | rfl
      · exact ⟨_, arrayWorld_click_cancel_of_open _ hao⟩
      · exact ⟨_, arrayWorld_mouseDown_of_open _ hao⟩
      · refine ⟨ArrayAsync.ok, ?_⟩
        rw [arrayWorld_click_ok_of_open _ hao]
        have hn : (showArrayDialog centre).dialog.nameEditor.text = "array1" := rfl
        have hz : (showArrayDialog centre).dialog.sizeEditor.text = "100" := rfl
        exact arrayWorld_okOnClick_valid _ (by rw [hn]; decide) (by rw [hz]; decide)
    obtain ⟨a, hst⟩ := hstep
    have hd := (arrayWorld_closing_path _ haq hao.1 e a hst es2).2.1
    obtain ⟨h1, h2⟩ := (ha (e :: ArrayEvent.dispatch :: es2)).2 hd
    have h3 := (arrayWorld_lifetime_of_consistent _ _
      (ha (e :: ArrayEvent.dispatch :: es2))).2.2
    rw [hd] at h3
    exact ⟨hd, h1, h2, h3⟩

/-- C9, witness: the overlay of the array dialog after a click on OK and the run of the
posted closure. -/
theorem dialogs_overlay_lifetime_witness :
    ((showArrayDialog ⟨800, 600, []⟩).run
      (ArrayEvent.click ArrayButton.ok :: ArrayEvent.dispatch :: [])).backgroundShown
        = false :=
  ((dialogs_overlay_lifetime ⟨800, 600, []⟩ [] []).2.2.2
    (ArrayEvent.click ArrayButton.ok) (Or.inr (Or.inr rfl))).2.2.2

/-! ### C10: the bounds of the overlay -/

/-- The bounds of the overlay are those the parent had when the dialog was opened, for
as long as the overlay exists: no event changes them. -/
theorem overlay_bounds_fixed (centre : Parent) (es1 : List SaveEvent)
    (es2 : List ArrayEvent) :
    (((showSaveDialog centre).run es1).deleted = false →
      ((showSaveDialog centre).run es1).dialog.background.map (fun b => b.bounds) =
        some ⟨0, 0, centre.width, centre.height⟩) ∧
    (((showArrayDialog centre).run es2).deleted = false →
      ((showArrayDialog centre).run es2).dialog.background.map (fun b => b.bounds) =
        some ⟨0, 0, centre.width, centre.height⟩) := by
  constructor
  · intro hd
    exact ((saveWorld_consistent_run _ es1 _ (showSaveDialog_consistent centre)).1 hd).2
  · intro hd
    exact ((arrayWorld_consistent_run _ es2 _ (showArrayDialog_consistent centre)).1 hd).2

/-- C10, the code at the failing input: a dialog is opened on a parent of 800 by 600;
the overlay gets the bounds (0, 0, 800, 600).  The parent is then resized to 1000 by
700 while the dialog is open: the overlay keeps (0, 0, 800, 600), which is no longer
the parent's local bounds (0, 0, 1000, 700). -/
theorem overlay_bounds_stale_after_parent_resize :
    (showSaveDialog ⟨800, 600, []⟩).dialog.background.map (fun b => b.bounds) =
      some ⟨0, 0, 800, 600⟩ ∧
    ((showSaveDialog ⟨800, 600, []⟩).run
      [SaveEvent.parentSetSize 1000 700]).dialog.background.map (fun b => b.bounds) =
      some ⟨0, 0, 800, 600⟩ ∧
    ((showSaveDialog ⟨800, 600, []⟩).run
      [SaveEvent.parentSetSize 1000 700]).parent.getLocalBounds = ⟨0, 0, 1000, 700⟩ ∧
    ((showSaveDialog ⟨800, 600, []⟩).run [SaveEvent.parentSetSize 1000 700]).deleted
      = false ∧
    ((showArrayDialog ⟨800, 600, []⟩).run
      [ArrayEvent.parentSetSize 1000 700]).dialog.background.map (fun b => b.bounds) =
      some ⟨0, 0, 800, 600⟩ ∧
    ((showArrayDialog ⟨800, 600, []⟩).run
      [ArrayEvent.parentSetSize 1000 700]).parent.getLocalBounds = ⟨0, 0, 1000, 700⟩ := by
  decide

/-! ### C14: the object menu -/

theorem lookup_mem {α β : Type} [BEq α] [LawfulBEq α] (l : List (α × β)) (k : α) (v : β)
    (h : l.lookup k = some v) : (k, v) ∈ l := by
  induction l with
  | nil => simp [List.lookup] at h
  | cons p ps ih =>
    obtain ⟨a, b⟩ := p
    by_cases hk : k = a
    · subst hk
      simp [List.lookup] at h
      subst h
      exact List.mem_cons_self _ _
    · have hb : (k == a) = false := by simpa using hk
      simp only [List.lookup, hb] at h
      exact List.mem_cons_of_mem _ (ih h)

theorem objectMenuCallback_eq_lookup (choice : Int) :
    objectMenuCallback choice = (objectMenuMap.lookup choice).toList := by
  unfold objectMenuCallback objectMenuMap
  by_cases h5 : choice = 5
  · subst h5; decide
  by_cases h7 : choice = 7
  · subst h7; decide
  by_cases h8 : choice = 8
  · subst h8; decide
  by_cases h10 : choice = 10
  · subst h10; decide
  by_cases h11 : choice = 11
  · subst h11; decide
  by_cases h12 : choice = 12
  · subst h12; decide
  by_cases h14 : choice = 14
  · subst h14; decide
  by_cases h15 : choice = 15
  · subst h15; decide
  by_cases h16 : choice = 16
  · subst h16; decide
  have e5 : (choice == 5) = false := by simpa using h5
  have e7 : (choice == 7) = false := by simpa using h7
  have e8 : (choice == 8) = false := by simpa using h8
  have e10 : (choice == 10) = false := by simpa using h10
  have e11 : (choice == 11) = false := by simpa using h11
  have e12 : (choice == 12) = false := by simpa using h12
  have e14 : (choice == 14) = false := by simpa using h14
  have e15 : (choice == 15) = false := by simpa using h15
  have e16 : (choice == 16) = false := by simpa using h16
  simp [List.lookup, h5, h7, h8, h10, h11, h12, h14, h15, h16, e5, e7, e8, e10, e11, e12,
    e14, e15, e16]

theorem objectMenuCallback_singleton (choice : Int) (name : String)
    (h : objectMenuCallback choice = [name]) : (choice, name) ∈ objectMenuMap := by
  rw [objectMenuCallback_eq_lookup] at h
  cases hl : objectMenuMap.lookup choice with
  | none => rw [hl] at h; simp at h
  | some v =>
    rw [hl] at h
    simp at h
    subst h
    exact lookup_mem _ _ _ hl

/-- C14: for every integer choice the callback of the object menu is the listed partial
map: for 5, 7, 8, 10, 11, 12, 14, 15, 16 the user callback is invoked exactly once, with
"hsl", "hradio", "vradio", "symbolatom", "array", "graph", "cnv", "keyboard", "listbox"
respectively; for every other choice (every choice below 1, and unlisted ids such as 6,
9 and 13) it is not invoked.  The map is injective and yields no empty name. -/
theorem objectMenu_callback_is_map :
    (∀ choice : Int,
      objectMenuCallback choice = (objectMenuMap.lookup choice).toList) ∧
    (objectMenuCallback 5 = ["hsl"] ∧ objectMenuCallback 7 = ["hradio"] ∧
      objectMenuCallback 8 = ["vradio"] ∧ objectMenuCallback 10 = ["symbolatom"] ∧
      objectMenuCallback 11 = ["array"] ∧ objectMenuCallback 12 = ["graph"] ∧
      objectMenuCallback 14 = ["cnv"] ∧ objectMenuCallback 15 = ["keyboard"] ∧
      objectMenuCallback 16 = ["listbox"]) ∧
    (∀ choice : Int, choice < 1 → objectMenuCallback choice = []) ∧
    (∀ choice : Int, choice ∉ objectMenuMap.map Prod.fst → objectMenuCallback choice = []) ∧
    (objectMenuCallback 6 = [] ∧ objectMenuCallback 9 = [] ∧ objectMenuCallback 13 = []) ∧
    (∀ (c1 c2 : Int) (name : String),
      objectMenuCallback c1 = [name] → objectMenuCallback c2 = [name] → c1 = c2) ∧
    (∀ (choice : Int) (name : String), objectMenuCallback choice = [name] → name ≠ "") := by
  refine ⟨objectMenuCallback_eq_lookup, by decide, ?_, ?_, by decide, ?_, ?_⟩
  · intro choice h
    simp [objectMenuCallback, h]
  · intro choice h
    cases hc : objectMenuCallback choice with
    | nil => rfl
    | cons name rest =>
      have hlen : rest = [] := by
        have h1 := objectMenuCallback_eq_lookup choice
        rw [hc] at h1
        cases hl : objectMenuMap.lookup choice with
        | none => rw [hl] at h1; simp at h1
        | some v => rw [hl] at h1; simp at h1; exact h1.2
      subst hlen
      have hm := objectMenuCallback_singleton choice name hc
      exact absurd (List.mem_map_of_mem Prod.fst hm) h
  · intro c1 c2 name h1 h2
    have m1 := objectMenuCallback_singleton c1 name h1
    have m2 := objectMenuCallback_singleton c2 name h2
    have hinj : ∀ p ∈ objectMenuMap, ∀ q ∈ objectMenuMap, p.2 = q.2 → p.1 = q.1 := by
      decide
    exact hinj (c1, name) m1 (c2, name) m2 rfl
  · intro choice name h
    have m := objectMenuCallback_singleton choice name h
    have hne : ∀ p ∈ objectMenuMap, p.2 ≠ "" := by decide
    exact hne (choice, name) m

/-- C14, witness: the choice 0 of a dismissed menu invokes nothing. -/
theorem objectMenu_callback_is_map_witness :
    (0 : Int) < 1 ∧ objectMenuCallback 0 = [] :=
  ⟨by decide, objectMenu_callback_is_map.2.2.1 0 (by decide)⟩

/-! ### C18: `GraphicalArray::clip` -/

theorem clip_eq_max_min {α : Type} [LinearOrder α] (n lower upper : α) :
    clip n lower upper = max (min n upper) lower := by
  unfold clip stdMax stdMin
  by_cases h1 : upper < n
  · rw [if_pos h1, min_eq_right (le_of_lt h1)]
    by_cases h2 : upper < lower
    · rw [if_pos h2, max_eq_right (le_of_lt h2)]
    · rw [if_neg h2, max_eq_left (not_lt.mp h2)]
  · rw [if_neg h1, min_eq_left (not_lt.mp h1)]
    by_cases h2 : n < lower
    · rw [if_pos h2, max_eq_right (le_of_lt h2)]
    · rw [if_neg h2, max_eq_left (not_lt.mp h2)]

/-- On an element type with a total order, `clip(n, lower, upper)` is
`max(min(n, upper), lower)`.  When `lower ≤ upper` the result lies between `lower` and
`upper`, equals `n` when `n` lies between them, `lower` when `n < lower` and `upper`
when `n > upper`, clipping twice is clipping once, and `clip` is monotone in `n`.  When
`lower > upper` the result is `lower`. -/
theorem clip_of_linearOrder {α : Type} [LinearOrder α] (n lower upper : α) :
    clip n lower upper = max (min n upper) lower ∧
    (lower ≤ upper →
      lower ≤ clip n lower upper ∧ clip n lower upper ≤ upper ∧
      (lower ≤ n → n ≤ upper → clip n lower upper = n) ∧
      (n < lower → clip n lower upper = lower) ∧
      (upper < n → clip n lower upper = upper) ∧
      clip (clip n lower upper) lower upper = clip n lower upper ∧
      (∀ m : α, n ≤ m → clip n lower upper ≤ clip m lower upper)) ∧
    (upper < lower → clip n lower upper = lower) := by
  refine ⟨clip_eq_max_min n lower upper, ?_, ?_⟩
  · intro h
    have hn := clip_eq_max_min n lower upper
    refine ⟨?_, ?_, ?_, ?_, ?_, ?_, ?_⟩
    · rw [hn]; exact le_max_right _ _
    · rw [hn]; exact max_le (min_le_right _ _) h
    · intro h1 h2
      rw [hn, min_eq_left h2, max_eq_left h1]
    · intro h1
      rw [hn, min_eq_left (le_trans (le_of_lt h1) h), max_eq_right (le_of_lt h1)]
    · intro h1
      rw [hn, min_eq_right (le_of_lt h1), max_eq_left h]
    · rw [clip_eq_max_min (clip n lower upper), hn]
      have h1 : max (min n upper) lower ≤ upper := max_le (min_le_right _ _) h
      rw [min_eq_left h1, max_eq_left (le_max_right _ _)]
    · intro m hm
      rw [hn, clip_eq_max_min m]
      exact max_le_max (min_le_min hm (le_refl _)) (le_refl _)
  · intro h
    rw [clip_eq_max_min]
    exact max_eq_right (le_trans (min_le_right _ _) (le_of_lt h))

theorem floatValue_ofExtended_bot : FloatValue.ofExtended ⊥ = FloatValue.negInf := rfl

theorem floatValue_ofExtended_top : FloatValue.ofExtended ⊤ = FloatValue.posInf := rfl

theorem floatValue_ofExtended_coe (q : Rat) :
    FloatValue.ofExtended ((q : WithTop Rat) : WithBot (WithTop Rat)) = FloatValue.num q := rfl

theorem floatValue_lt_def (a b : FloatValue) : a < b ↔ FloatValue.lt a b := Iff.rfl

theorem floatValue_le_def (a b : FloatValue) : a ≤ b ↔ FloatValue.le a b := Iff.rfl

theorem floatValue_ofExtended_lt (x y : WithBot (WithTop Rat)) :
    FloatValue.ofExtended x < FloatValue.ofExtended y ↔ x < y := by
  induction x using WithBot.recBotCoe with
  | bot =>
    induction y using WithBot.recBotCoe with
    | bot => simp [floatValue_ofExtended_bot, floatValue_lt_def, FloatValue.lt]
    | coe t =>
      induction t using WithTop.recTopCoe with
      | top => simp [floatValue_ofExtended_bot, floatValue_ofExtended_top, floatValue_lt_def,
        FloatValue.lt]
      | coe q => simp [floatValue_ofExtended_bot, floatValue_ofExtended_coe, floatValue_lt_def,
        FloatValue.lt]
  | coe s =>
    induction s using WithTop.recTopCoe with
    | top =>
      induction y using WithBot.recBotCoe with
      | bot => simp [floatValue_ofExtended_bot, floatValue_ofExtended_top, floatValue_lt_def,
        FloatValue.lt]
      | coe t =>
        induction t using WithTop.recTopCoe with
        | top => simp [floatValue_ofExtended_top, floatValue_lt_def, FloatValue.lt]
        | coe q => simp [floatValue_ofExtended_top, floatValue_ofExtended_coe,
          floatValue_lt_def, FloatValue.lt]
    | coe p =>
      induction y using WithBot.recBotCoe with
      | bot => simp [floatValue_ofExtended_bot, floatValue_ofExtended_coe, floatValue_lt_def,
        FloatValue.lt]
      | coe t =>
        induction t using WithTop.recTopCoe with
        | top =>
          simp [floatValue_ofExtended_top, floatValue_ofExtended_coe, floatValue_lt_def,
            FloatValue.lt]
          exact WithBot.coe_lt_coe.mpr (WithTop.coe_lt_top p)
        | coe q => simp [floatValue_ofExtended_coe, floatValue_lt_def, FloatValue.lt]

theorem floatValue_ofExtended_le (x y : WithBot (WithTop Rat)) :
    FloatValue.ofExtended x ≤ FloatValue.ofExtended y ↔ x ≤ y := by
  induction x using WithBot.recBotCoe with
  | bot =>
    induction y using WithBot.recBotCoe with
    | bot => simp [floatValue_ofExtended_bot, floatValue_le_def, FloatValue.le]
    | coe t =>
      induction t using WithTop.recTopCoe with
      | top => simp [floatValue_ofExtended_bot, floatValue_ofExtended_top, floatValue_le_def,
        FloatValue.le]
      | coe q => simp [floatValue_ofExtended_bot, floatValue_ofExtended_coe, floatValue_le_def,
        FloatValue.le]
  | coe s =>
    induction s using WithTop.recTopCoe with
    | top =>
      induction y using WithBot.recBotCoe with
      | bot => simp [floatValue_ofExtended_bot, floatValue_ofExtended_top, floatValue_le_def,
        FloatValue.le]
      | coe t =>
        induction t using WithTop.recTopCoe with
        | top => simp [floatValue_ofExtended_top, floatValue_le_def, FloatValue.le]
        | coe q => simp [floatValue_ofExtended_top, floatValue_ofExtended_coe,
          floatValue_le_def, FloatValue.le]
    | coe p =>
      induction y using WithBot.recBotCoe with
      | bot => simp [floatValue_ofExtended_bot, floatValue_ofExtended_coe, floatValue_le_def,
        FloatValue.le]
      | coe t =>
        induction t using WithTop.recTopCoe with
        | top => simp [floatValue_ofExtended_top, floatValue_ofExtended_coe, floatValue_le_def,
          FloatValue.le]
        | coe q => simp [floatValue_ofExtended_coe, floatValue_le_def, FloatValue.le]

theorem floatValue_ofExtended_injective (x y : WithBot (WithTop Rat))
    (h : FloatValue.ofExtended x = FloatValue.ofExtended y) : x = y := by
  have h1 : FloatValue.ofExtended x ≤ FloatValue.ofExtended y := by
    rw [← h]; exact (floatValue_ofExtended_le x x).mpr (le_refl x)
  have h2 : FloatValue.ofExtended y ≤ FloatValue.ofExtended x := by
    rw [h]; exact (floatValue_ofExtended_le y y).mpr (le_refl y)
  exact le_antisymm ((floatValue_ofExtended_le x y).mp h1)
    ((floatValue_ofExtended_le y x).mp h2)

theorem floatValue_ofExtended_ne_nan (x : WithBot (WithTop Rat)) :
    FloatValue.ofExtended x ≠ FloatValue.nan := by
  induction x using WithBot.recBotCoe with
  | bot => simp [floatValue_ofExtended_bot]
  | coe t =>
    induction t using WithTop.recTopCoe with
    | top => simp [floatValue_ofExtended_top]
    | coe q => simp [floatValue_ofExtended_coe]

theorem floatValue_eq_ofExtended (v : FloatValue) (h : v ≠ FloatValue.nan) :
    ∃ x, v = FloatValue.ofExtended x := by
  cases v with
  | nan => exact absurd rfl h
  | negInf => exact ⟨⊥, rfl⟩
  | num q => exact ⟨((q : WithTop Rat) : WithBot (WithTop Rat)), rfl⟩
  | posInf => exact ⟨⊤, rfl⟩

/-- On values other than not-a-number the `float` instance of `clip` is the clip of the
extended numbers. -/
theorem clip_ofExtended (a l u : WithBot (WithTop Rat)) :
    clip (FloatValue.ofExtended a) (FloatValue.ofExtended l) (FloatValue.ofExtended u) =
      FloatValue.ofExtended (clip a l u) := by
  unfold clip stdMax stdMin
  by_cases h1 : u < a
  · rw [if_pos ((floatValue_ofExtended_lt u a).mpr h1), if_pos h1]
    by_cases h2 : u < l
    · rw [if_pos ((floatValue_ofExtended_lt u l).mpr h2), if_pos h2]
    · rw [if_neg (fun h => h2 ((floatValue_ofExtended_lt u l).mp h)), if_neg h2]
  · rw [if_neg (fun h => h1 ((floatValue_ofExtended_lt u a).mp h)), if_neg h1]
    by_cases h2 : a < l
    · rw [if_pos ((floatValue_ofExtended_lt a l).mpr h2), if_pos h2]
    · rw [if_neg (fun h => h2 ((floatValue_ofExtended_lt a l).mp h)), if_neg h2]

/-- The properties of `clip` on `float`, for values other than not-a-number. -/
theorem clip_float_of_not_nan (n lower upper : FloatValue) (hn : n ≠ FloatValue.nan)
    (hl : lower ≠ FloatValue.nan) (hu : upper ≠ FloatValue.nan) :
    clip n lower upper ≠ FloatValue.nan ∧
    (lower ≤ upper →
      lower ≤ clip n lower upper ∧ clip n lower upper ≤ upper ∧
      (lower ≤ n → n ≤ upper → clip n lower upper = n) ∧
      (n < lower → clip n lower upper = lower) ∧
      (upper < n → clip n lower upper = upper) ∧
      clip (clip n lower upper) lower upper = clip n lower upper ∧
      (∀ m : FloatValue, n ≤ m → clip n lower upper ≤ clip m lower upper)) ∧
    (upper < lower → clip n lower upper = lower) := by
  obtain ⟨a, rfl⟩ := floatValue_eq_ofExtended n hn
  obtain ⟨l, rfl⟩ := floatValue_eq_ofExtended lower hl
  obtain ⟨u, rfl⟩ := floatValue_eq_ofExtended upper hu
  obtain ⟨_, h1, h2⟩ := clip_of_linearOrder a l u
  refine ⟨by rw [clip_ofExtended]; exact floatValue_ofExtended_ne_nan _, ?_, ?_⟩
  · intro hlu
    obtain ⟨k1, k2, k3, k4, k5, k6, k7⟩ := h1 ((floatValue_ofExtended_le l u).mp hlu)
    refine ⟨?_, ?_, ?_, ?_, ?_, ?_, ?_⟩
    · rw [clip_ofExtended]; exact (floatValue_ofExtended_le _ _).mpr k1
    · rw [clip_ofExtended]; exact (floatValue_ofExtended_le _ _).mpr k2
    · intro ha hb
      rw [clip_ofExtended,
        k3 ((floatValue_ofExtended_le _ _).mp ha) ((floatValue_ofExtended_le _ _).mp hb)]
    · intro ha; rw [clip_ofExtended, k4 ((floatValue_ofExtended_lt _ _).mp ha)]
    · intro ha; rw [clip_ofExtended, k5 ((floatValue_ofExtended_lt _ _).mp ha)]
    · rw [clip_ofExtended, clip_ofExtended, k6]
    · intro m hm
      have hmn : m ≠ FloatValue.nan := by
        intro h; rw [h] at hm
        cases a using WithBot.recBotCoe with
        | bot => exact hm
        | coe t => cases t using WithTop.recTopCoe <;> exact hm
      obtain ⟨b, rfl⟩ := floatValue_eq_ofExtended m hmn
      rw [clip_ofExtended, clip_ofExtended]
      exact (floatValue_ofExtended_le _ _).mpr (k7 b ((floatValue_ofExtended_le _ _).mp hm))
  · intro hul
    rw [clip_ofExtended, h2 ((floatValue_ofExtended_lt _ _).mp hul)]

/-- C18 (as amended): on every element type with a total order, and on `float` for
every `n`, `lower` and `upper` none of which is not-a-number, `clip(n, lower, upper)`
is `max(min(n, upper), lower)`.  When `lower ≤ upper` the result lies between `lower`
and `upper`, equals `n` when `n` lies between them, `lower` when `n < lower` and
`upper` when `n > upper`, clipping twice is clipping once, and `clip` is monotone in
`n`.  When `lower > upper` the result is `lower`.  On `float` the result is then not
not-a-number either. -/
theorem clip_spec_on_numbers {α : Type} [LinearOrder α] (n lower upper : α)
    (a l u : FloatValue) :
    (clip n lower upper = max (min n upper) lower ∧
      (lower ≤ upper →
        lower ≤ clip n lower upper ∧ clip n lower upper ≤ upper ∧
        (lower ≤ n → n ≤ upper → clip n lower upper = n) ∧
        (n < lower → clip n lower upper = lower) ∧
        (upper < n → clip n lower upper = upper) ∧
        clip (clip n lower upper) lower upper = clip n lower upper ∧
        (∀ m : α, n ≤ m → clip n lower upper ≤ clip m lower upper)) ∧
      (upper < lower → clip n lower upper = lower)) ∧
    clip a l u = stdMax (stdMin a u) l ∧
    (a ≠ FloatValue.nan → l ≠ FloatValue.nan → u ≠ FloatValue.nan →
      clip a l u ≠ FloatValue.nan ∧
      (l ≤ u →
        l ≤ clip a l u ∧ clip a l u ≤ u ∧
        (l ≤ a → a ≤ u → clip a l u = a) ∧
        (a < l → clip a l u = l) ∧
        (u < a → clip a l u = u) ∧
        clip (clip a l u) l u = clip a l u ∧
        (∀ m : FloatValue, a ≤ m → clip a l u ≤ clip m l u)) ∧
      (u < l → clip a l u = l)) :=
  ⟨clip_of_linearOrder n lower upper, rfl, clip_float_of_not_nan a l u⟩

/-- C18, witness: clipping the integer 5 and the `float` 5 to the range from 0 to 3
gives 3. -/
theorem clip_spec_on_numbers_witness :
    (0 : Int) ≤ 3 ∧ (3 : Int) < 5 ∧ clip (5 : Int) 0 3 = 3 ∧
    FloatValue.num 0 ≤ FloatValue.num 3 ∧ FloatValue.num 3 < FloatValue.num 5 ∧
    clip (FloatValue.num 5) (FloatValue.num 0) (FloatValue.num 3) = FloatValue.num 3 :=
  ⟨by decide, by decide,
    (((clip_spec_on_numbers (5 : Int) 0 3 (FloatValue.num 5) (FloatValue.num 0)
      (FloatValue.num 3)).1).2.1 (by decide)).2.2.2.2.1 (by decide),
    by decide, by decide,
    ((((clip_spec_on_numbers (5 : Int) 0 3 (FloatValue.num 5) (FloatValue.num 0)
      (FloatValue.num 3)).2.2 (by decide) (by decide) (by decide)).2.1
        (by decide)).2.2.2.2.1 (by decide))⟩

/-- C18, counterexample: on `float`, with `n` not-a-number, `clip(n, 0, 1)` is
not-a-number, which is neither at least 0 nor at most 1; and with `lower = 1 > upper = 0`
the result is not-a-number too, not `lower`. -/
theorem clip_nan_is_nan :
    FloatValue.num 0 ≤ FloatValue.num 1 ∧
    clip FloatValue.nan (FloatValue.num 0) (FloatValue.num 1) = FloatValue.nan ∧
    ¬ (FloatValue.num 0 ≤ clip FloatValue.nan (FloatValue.num 0) (FloatValue.num 1)) ∧
    ¬ (clip FloatValue.nan (FloatValue.num 0) (FloatValue.num 1) ≤ FloatValue.num 1) ∧
    FloatValue.num 0 < FloatValue.num 1 ∧
    clip FloatValue.nan (FloatValue.num 1) (FloatValue.num 0) = FloatValue.nan ∧
    clip FloatValue.nan (FloatValue.num 1) (FloatValue.num 0) ≠ FloatValue.num 1 := by
  decide

/-! ### C15: the overlay of the save dialog does nothing -/

theorem saveWorld_run_without_clicks (es : List SaveEvent) :
    ∀ w : SaveWorld, w.Open → w.Quiet → (∀ e ∈ es, ∀ b, e ≠ SaveEvent.click b) →
      (w.run es).Open ∧ (w.run es).Quiet ∧ (w.run es).log = w.log := by
  induction es with
  | nil => intro w ho hq _; exact ⟨ho, hq, rfl⟩
  | cons e es ih =>
    intro w ho hq hes
    obtain ⟨h1, h2, h3⟩ :=
      saveWorld_open_step_other w ho hq e (hes e (List.mem_cons_self _ _))
    obtain ⟨k1, k2, k3⟩ :=
      ih (w.step e) h1 h2 (fun x hx => hes x (List.mem_cons_of_mem _ hx))
    simp only [SaveWorld.run, List.foldl_cons] at *
    exact ⟨k1, k2, by rw [k3, h3]⟩

/-- C15: on an open save dialog a pointer press on the overlay changes nothing at all:
no callback is invoked, no closure is posted and the dialog stays open.  With nothing
pending, every sequence of events without a button click leaves the dialog open, the
log and the queue as they were: the dialog closes only through one of its three
buttons. -/
theorem saveDialog_overlay_press_no_effect (w : SaveWorld) (hopen : w.Open) :
    w.step SaveEvent.backgroundMouseDown = w ∧
    (w.Quiet → ∀ es : List SaveEvent, (∀ e ∈ es, ∀ b, e ≠ SaveEvent.click b) →
      (w.run es).deleted = false ∧ (w.run es).log = w.log ∧ (w.run es).queue = []) := by
  refine ⟨saveWorld_mouseDown_of_open w hopen, ?_⟩
  intro hq es hes
  obtain ⟨h1, h2, h3⟩ := saveWorld_run_without_clicks es w hopen hq hes
  exact ⟨h1.1, h3, h2.1⟩

/-- C15, witness: the save dialog as it is opened; three presses on the overlay and a
run of the message loop leave it open. -/
theorem saveDialog_overlay_press_no_effect_witness :
    (showSaveDialog ⟨800, 600, []⟩).Open ∧ (showSaveDialog ⟨800, 600, []⟩).Quiet ∧
    ((showSaveDialog ⟨800, 600, []⟩).run
      [SaveEvent.backgroundMouseDown, SaveEvent.backgroundMouseDown,
       SaveEvent.backgroundMouseDown, SaveEvent.dispatch]).deleted = false :=
  ⟨by decide, by decide,
    ((saveDialog_overlay_press_no_effect (showSaveDialog ⟨800, 600, []⟩) (by decide)).2
      (by decide)
      [SaveEvent.backgroundMouseDown, SaveEvent.backgroundMouseDown,
       SaveEvent.backgroundMouseDown, SaveEvent.dispatch]
      (by intro e he b hb; subst hb; simp at he)).1⟩

/-! ### C16: panel switching in the settings component -/

/-- One `showPanel(i)` on a component with three panels of which exactly the current
one is visible. -/
theorem settingsComponent_showPanel_step (cur i : Int) (hcur : 0 ≤ cur ∧ cur < 3)
    (hi : 0 ≤ i ∧ i < 3) :
    SettingsComponent.showPanel
      { currentPanel := cur,
        panels := [decide (cur = 0), decide (cur = 1), decide (cur = 2)] } i =
      some { currentPanel := i,
             panels := [decide (i = 0), decide (i = 1), decide (i = 2)] } := by
  have h1 : cur = 0 ∨ cur = 1 ∨ cur = 2 := by omega
  have h2 : i = 0 ∨ i = 1 ∨ i = 2 := by omega
  rcases h1 with rfl | rfl | rfl <;> rcases h2 with rfl | rfl | rfl <;> decide

theorem settingsComponent_showPanels_run (is : List Int) :
    ∀ (cur i : Int), 0 ≤ cur ∧ cur < 3 → (∀ j ∈ is, 0 ≤ j ∧ j < 3) → 0 ≤ i ∧ i < 3 →
      SettingsComponent.showPanels (is ++ [i])
        { currentPanel := cur,
          panels := [decide (cur = 0), decide (cur = 1), decide (cur = 2)] } =
        some { currentPanel := i,
               panels := [decide (i = 0), decide (i = 1), decide (i = 2)] } := by
  induction is with
  | nil =>
    intro cur i hcur _ hi
    simp [SettingsComponent.showPanels, settingsComponent_showPanel_step cur i hcur hi]
  | cons j rest ih =>
    intro cur i hcur his hi
    have hj := his j (List.mem_cons_self _ _)
    simp only [List.cons_append, SettingsComponent.showPanels,
      settingsComponent_showPanel_step cur j hcur hj, Option.some_bind]
    exact ih j i hj (fun x hx => his x (List.mem_cons_of_mem _ hx)) hi

theorem settingsComponent_showPanel_first (i : Int) (hi : 0 ≤ i ∧ i < 3) :
    SettingsComponent.showPanel { currentPanel := 0, panels := [false, false, false] } i =
      some { currentPanel := i,
             panels := [decide (i = 0), decide (i = 1), decide (i = 2)] } := by
  have h2 : i = 0 ∨ i = 1 ∨ i = 2 := by omega
  rcases h2 with rfl | rfl | rfl <;> decide

/-- C16: the constructed settings component has `currentPanel = 0` and exactly panel 0
visible.  After every sequence of `showPanel` calls with indices from 0 to 2, ending
with `showPanel(i)`, every call has returned, `currentPanel` is `i` and exactly one of
the three panels is visible, namely panel `i`; this includes the case in which `i` is
already the current panel.  The same holds when the calls start from the three panels
as they are added, none visible. -/
theorem settingsComponent_showPanel_exclusive (is : List Int) (i : Int)
    (his : ∀ j ∈ is, 0 ≤ j ∧ j < 3) (hi : 0 ≤ i ∧ i < 3) :
    SettingsComponent.create =
      some { currentPanel := 0, panels := [true, false, false] } ∧
    (SettingsComponent.create.bind (SettingsComponent.showPanels (is ++ [i])) =
      some { currentPanel := i,
             panels := [decide (i = 0), decide (i = 1), decide (i = 2)] }) ∧
    (SettingsComponent.create.bind (SettingsComponent.showPanels (is ++ [i, i])) =
      some { currentPanel := i,
             panels := [decide (i = 0), decide (i = 1), decide (i = 2)] }) ∧
    (SettingsComponent.showPanels (is ++ [i])
        { currentPanel := 0, panels := [false, false, false] } =
      some { currentPanel := i,
             panels := [decide (i = 0), decide (i = 1), decide (i = 2)] }) := by
  have hc : SettingsComponent.create =
      some { currentPanel := 0, panels := [true, false, false] } := by decide
  refine ⟨hc, ?_, ?_, ?_⟩
  rotate_left 2
  · cases is with
    | nil =>
      simp [SettingsComponent.showPanels, settingsComponent_showPanel_first i hi]
    | cons j rest =>
      have hj := his j (List.mem_cons_self _ _)
      simp only [List.cons_append, SettingsComponent.showPanels,
        settingsComponent_showPanel_first j hj, Option.some_bind]
      exact settingsComponent_showPanels_run rest j i hj
        (fun x hx => his x (List.mem_cons_of_mem _ hx)) hi
  · rw [hc, Option.some_bind]
    exact settingsComponent_showPanels_run is 0 i (by decide) his hi
  · rw [hc, Option.some_bind]
    have h := settingsComponent_showPanels_run (is ++ [i]) 0 i (by decide)
      (by
        intro j hj
        rcases List.mem_append.mp hj with h | h
        · exact his j h
        · rw [List.mem_singleton] at h; rw [h]; exact hi) hi
    simpa [List.append_assoc] using h

/-- C16, witness: `showPanel(2)`, `showPanel(1)`, `showPanel(1)` on the constructed
component leave exactly panel 1 visible. -/
theorem settingsComponent_showPanel_exclusive_witness :
    SettingsComponent.create.bind (SettingsComponent.showPanels ([2, 1] ++ [1])) =
      some { currentPanel := 1, panels := [false, true, false] } :=
  (settingsComponent_showPanel_exclusive [2, 1] 1 (by decide) (by decide)).2.1

/-! ### C17: the search-path panel -/

theorem tableSelectRow_last (n : Nat) : tableSelectRow n ((n : Int) - 1) = (n : Int) - 1 := by
  unfold tableSelectRow
  split_ifs with h
  · rfl
  · omega

theorem searchPath_loadData_synced (c : SearchPathComponent) :
    c.loadData.Synced ∧ c.loadData.tree = c.tree := by
  refine ⟨⟨rfl, ?_, ?_⟩, rfl⟩
  · simp [SearchPathComponent.getNumRows, SearchPathComponent.loadData]
  · simp only [SearchPathComponent.loadData]
    exact tableSelectRow_last _

theorem searchPath_loadData_of_synced (c : SearchPathComponent) (h : c.Synced) :
    c.loadData = c := by
  obtain ⟨h1, _, h3⟩ := h
  cases c with
  | mk tree items sel =>
    simp only [SearchPathComponent.loadData] at *
    subst h1
    simp only [SearchPathComponent.mk.injEq, true_and]
    rw [h3]
    exact tableSelectRow_last _

theorem searchPath_apply_synced (c : SearchPathComponent) (hc : c.Synced)
    (op : SearchPathOp) (hop : op.isButton = true) : (c.apply op).Synced := by
  cases op with
  | add result =>
    simp only [SearchPathComponent.apply, SearchPathComponent.add]
    split_ifs
    · exact hc
    · exact (searchPath_loadData_synced _).1
  | remove => exact (searchPath_loadData_synced _).1
  | reset dir => exact (searchPath_loadData_synced _).1
  | select row => simp [SearchPathOp.isButton] at hop

theorem searchPath_applyAll_synced (ops : List SearchPathOp) :
    ∀ c : SearchPathComponent, c.Synced → (∀ op ∈ ops, op.isButton = true) →
      (c.applyAll ops).Synced := by
  induction ops with
  | nil => intro c hc _; exact hc
  | cons op rest ih =>
    intro c hc hops
    exact ih _ (searchPath_apply_synced c hc op (hops op (List.mem_cons_self _ _)))
      (fun x hx => hops x (List.mem_cons_of_mem _ hx))

theorem searchPath_apply_mirrors (c : SearchPathComponent)
    (hc : c.items = c.tree.map PathChild.getPathProperty) (op : SearchPathOp) :
    (c.apply op).items = (c.apply op).tree.map PathChild.getPathProperty := by
  cases op with
  | add result =>
    simp only [SearchPathComponent.apply, SearchPathComponent.add]
    split_ifs
    · exact hc
    · rfl
  | remove => rfl
  | reset dir => rfl
  | select row => exact hc

theorem searchPath_applyAll_mirrors (ops : List SearchPathOp) :
    ∀ c : SearchPathComponent, c.items = c.tree.map PathChild.getPathProperty →
      (c.applyAll ops).items = (c.applyAll ops).tree.map PathChild.getPathProperty := by
  induction ops with
  | nil => intro c hc; exact hc
  | cons op rest ih => intro c hc; exact ih _ (searchPath_apply_mirrors c hc op)

/-- C17 (as amended): after construction, and after every add of an existing path, every
remove and every reset, whatever the state before, `items` is the sequence of the
"Path" properties of the children of the tree in order, `getNumRows()` is the number of
children and the selected row is `items.size() - 1`.  Add of an existing path appends
one child with that path at the end; add of a file that does not exist changes
nothing, the selected row included; remove deletes the child at the selected row and
keeps the others in order (nothing when no row is selected); reset leaves the one child
with the default path and doing it twice is doing it once.  In every sequence of
operations from construction, row selections by the user and adds of missing files
included, `items` is the sequence of the "Path" properties and `getNumRows()` the
number of children after every operation; when the sequence holds no row selection,
the selected row is the last one after every operation as well. -/
theorem searchPath_items_mirror_tree :
    (∀ libraryTree : List PathChild,
      (SearchPathComponent.create libraryTree).Synced ∧
      (SearchPathComponent.create libraryTree).tree = libraryTree) ∧
    (∀ (c : SearchPathComponent) (f : ChosenFile), f.existsOnDisk = true →
      (c.add f).Synced ∧
      (c.add f).tree = c.tree ++ [{ typeName := "Path", path := some f.fullPathName }] ∧
      (c.add f).items = c.tree.map PathChild.getPathProperty ++ [f.fullPathName]) ∧
    (∀ (c : SearchPathComponent) (f : ChosenFile), f.existsOnDisk = false → c.add f = c) ∧
    (∀ c : SearchPathComponent,
      c.remove.Synced ∧
      (0 ≤ c.selectedRow ∧ c.selectedRow < c.tree.length →
        c.remove.tree = c.tree.eraseIdx c.selectedRow.toNat) ∧
      (¬ (0 ≤ c.selectedRow ∧ c.selectedRow < c.tree.length) → c.remove.tree = c.tree)) ∧
    (∀ (c : SearchPathComponent) (dir : String),
      (c.reset dir).Synced ∧
      (c.reset dir).tree = [{ typeName := "Path", path := some dir }] ∧
      (c.reset dir).items = [dir] ∧
      (c.reset dir).reset dir = c.reset dir) ∧
    (∀ (libraryTree : List PathChild) (ops : List SearchPathOp),
      ((SearchPathComponent.create libraryTree).applyAll ops).items =
        ((SearchPathComponent.create libraryTree).applyAll ops).tree.map
          PathChild.getPathProperty ∧
      ((SearchPathComponent.create libraryTree).applyAll ops).getNumRows =
        ((SearchPathComponent.create libraryTree).applyAll ops).tree.length) ∧
    (∀ (libraryTree : List PathChild) (ops : List SearchPathOp),
      (∀ op ∈ ops, op.isButton = true) →
      ((SearchPathComponent.create libraryTree).applyAll ops).Synced) := by
  refine ⟨?_, ?_, ?_, ?_, ?_, ?_, ?_⟩
  · intro t
    exact searchPath_loadData_synced _
  · intro c f hf
    have h : c.add f = SearchPathComponent.loadData
        { c with tree := c.tree ++ [{ typeName := "Path", path := some f.fullPathName }] } := by
      simp [SearchPathComponent.add, hf]
    rw [h]
    refine ⟨(searchPath_loadData_synced _).1, rfl, ?_⟩
    simp [SearchPathComponent.loadData, PathChild.getPathProperty]
  · intro c f hf
    simp [SearchPathComponent.add, hf]
  · intro c
    refine ⟨(searchPath_loadData_synced _).1, ?_, ?_⟩
    · intro h
      simp [SearchPathComponent.remove, SearchPathComponent.loadData, removeChild, h]
    · intro h
      simp [SearchPathComponent.remove, SearchPathComponent.loadData, removeChild, h]
  · intro c dir
    refine ⟨(searchPath_loadData_synced _).1, rfl, rfl, ?_⟩
    simp [SearchPathComponent.reset, SearchPathComponent.loadData]
  · intro t ops
    have h := searchPath_applyAll_mirrors ops (SearchPathComponent.create t) rfl
    refine ⟨h, ?_⟩
    simp only [SearchPathComponent.getNumRows]
    rw [h, List.length_map]
  · intro t ops hops
    exact searchPath_applyAll_synced ops _ (searchPath_loadData_synced _).1 hops

/-- C17, counterexample: on a tree of two paths the user selects the first row; the add
button is then used with a file that does not exist.  After this add the selected row
is 0, while the last row, `items.size() - 1`, is 1. -/
theorem searchPath_missing_file_keeps_selection :
    ((SearchPathComponent.create
        [{ typeName := "Path", path := some "/a" },
         { typeName := "Path", path := some "/b" }]).applyAll
      [SearchPathOp.select 0,
       SearchPathOp.add { fullPathName := "/x", existsOnDisk := false }]).selectedRow = 0 ∧
    ((SearchPathComponent.create
        [{ typeName := "Path", path := some "/a" },
         { typeName := "Path", path := some "/b" }]).applyAll
      [SearchPathOp.select 0,
       SearchPathOp.add { fullPathName := "/x", existsOnDisk := false }]).items =
      ["/a", "/b"] ∧
    ¬ ((SearchPathComponent.create
        [{ typeName := "Path", path := some "/a" },
         { typeName := "Path", path := some "/b" }]).applyAll
      [SearchPathOp.select 0,
       SearchPathOp.add { fullPathName := "/x", existsOnDisk := false }]).Synced := by
  refine ⟨by decide, by decide, ?_⟩
  intro h
  exact absurd h.2.2 (by decide)

/-- C17, witness: a tree of two paths; the user selects the first row and removes it, an
add of a missing file changes nothing, an add of an existing one appends it. -/
theorem searchPath_items_mirror_tree_witness :
    ((SearchPathComponent.create
        [{ typeName := "Path", path := some "/a" },
         { typeName := "Path", path := some "/b" }]).applyAll
      [SearchPathOp.select 0, SearchPathOp.remove,
       SearchPathOp.add { fullPathName := "/x", existsOnDisk := false },
       SearchPathOp.add { fullPathName := "/c", existsOnDisk := true }]).items =
      ["/b", "/c"] ∧
    (SearchPathComponent.add
      { tree := [], items := [], selectedRow := -1 }
      { fullPathName := "/c", existsOnDisk := true }).items = [] ++ ["/c"] :=
  ⟨by decide,
    (searchPath_items_mirror_tree.2.1 { tree := [], items := [], selectedRow := -1 }
      { fullPathName := "/c", existsOnDisk := true } rfl).2.2⟩

/-! ### C11: the overlay of the settings dialog -/

theorem settingsWorld_setVisible_inStep (w : SettingsWorld) (v : Bool)
    (hc : w.dialog.closeOnClick = some SettingsClosure.closeOnClick)
    (hb : w.dialog.background.map (fun b => b.onClose) =
      some (some SettingsClosure.closeOnClick))
    (hv : w.InStep ∨ w.dialog.visible ≠ v) :
    (w.setVisible v).InStep ∧ (w.setVisible v).dialog.visible = v ∧
    (w.setVisible v).settingsSaved = w.settingsSaved := by
  cases hbg : w.dialog.background with
  | none => rw [hbg] at hb; simp at hb
  | some b =>
    rw [hbg] at hb
    simp only [Option.map_some', Option.some.injEq] at hb
    by_cases h : w.dialog.visible = v
    · have hs : w.setVisible v = w := by simp [SettingsWorld.setVisible, h]
      rw [hs]
      rcases hv with hv | hv
      · exact ⟨hv, h, rfl⟩
      · exact absurd h hv
    · refine ⟨⟨?_, ?_⟩, ?_, ?_⟩ <;>
        simp [SettingsWorld.setVisible, SettingsWorld.visibilityChanged, h, hc, hbg, hb]

theorem settingsWorld_inStep_parts (w : SettingsWorld) (h : w.InStep) :
    w.dialog.closeOnClick = some SettingsClosure.closeOnClick ∧
    w.dialog.background.map (fun b => b.onClose) =
      some (some SettingsClosure.closeOnClick) ∧
    w.backgroundVisible = w.dialog.visible := by
  obtain ⟨h1, h2⟩ := h
  cases hbg : w.dialog.background with
  | none => rw [hbg] at h2; simp at h2
  | some b =>
    rw [hbg] at h2
    simp only [Option.map_some', Option.some.injEq, Prod.mk.injEq] at h2
    exact ⟨h1, by simp [h2.1], by simp [SettingsWorld.backgroundVisible, hbg, h2.2]⟩

theorem settingsWorld_close_inStep (w : SettingsWorld) (h : w.InStep) :
    (SettingsClosure.closeOnClick.run w).InStep ∧
    (SettingsClosure.closeOnClick.run w).dialog.visible = false ∧
    (SettingsClosure.closeOnClick.run w).settingsSaved = w.settingsSaved + 1 := by
  obtain ⟨h1, h2, _⟩ := settingsWorld_inStep_parts w h
  exact settingsWorld_setVisible_inStep
    { w with settingsSaved := w.settingsSaved + 1 } false h1 h2 (Or.inl h)

theorem settingsWorld_step_inStep (w : SettingsWorld) (h : w.InStep) (e : SettingsEvent) :
    (w.step e).InStep := by
  obtain ⟨h1, h2, h3⟩ := settingsWorld_inStep_parts w h
  cases e with
  | setVisible v => exact (settingsWorld_setVisible_inStep w v h1 h2 (Or.inl h)).1
  | clickClose =>
    simp only [SettingsWorld.step, h1]
    split_ifs
    · exact (settingsWorld_close_inStep w h).1
    · exact h
  | backgroundMouseDown =>
    cases hbg : w.dialog.background with
    | none => rw [hbg] at h2; simp at h2
    | some b =>
      rw [hbg] at h2
      simp only [Option.map_some', Option.some.injEq] at h2
      simp only [SettingsWorld.step, hbg, h2]
      split_ifs
      · exact (settingsWorld_close_inStep w h).1
      · exact h

theorem settingsWorld_run_inStep (es : List SettingsEvent) :
    ∀ w : SettingsWorld, w.InStep → (w.run es).InStep := by
  induction es with
  | nil => intro w h; exact h
  | cons e es ih => intro w h; exact ih _ (settingsWorld_step_inStep w h e)

/-- Once the editor has shown the settings dialog, the overlay is visible exactly when
the dialog is, in every state reached; a click on the close button of the visible
dialog, or a pointer press on its overlay, saves the settings once and hides both. -/
theorem settingsDialog_overlay_follows_once_shown (editor : Parent)
    (es : List SettingsEvent) :
    ((createSettingsDialog editor).run
        (SettingsEvent.setVisible true :: es)).backgroundVisible =
      ((createSettingsDialog editor).run
        (SettingsEvent.setVisible true :: es)).dialog.visible ∧
    (∀ e : SettingsEvent, e = SettingsEvent.clickClose ∨ e = SettingsEvent.backgroundMouseDown →
      ((createSettingsDialog editor).run
        [SettingsEvent.setVisible true, e]).dialog.visible = false ∧
      ((createSettingsDialog editor).run
        [SettingsEvent.setVisible true, e]).backgroundVisible = false ∧
      ((createSettingsDialog editor).run
        [SettingsEvent.setVisible true, e]).settingsSaved = 1) := by
  have h0 : ((createSettingsDialog editor).step (SettingsEvent.setVisible true)).InStep := by
    simp [createSettingsDialog, SettingsWorld.step, SettingsWorld.setVisible,
      SettingsWorld.visibilityChanged, BlackoutComponent.create, BlackoutComponent.resized,
      SettingsWorld.InStep]
  constructor
  · exact (settingsWorld_inStep_parts _
      (settingsWorld_run_inStep es _ h0)).2.2
  · intro e he
    rcases he with rfl | rfl <;>
      simp [createSettingsDialog, SettingsWorld.run, SettingsWorld.step,
        SettingsWorld.setVisible, SettingsWorld.visibilityChanged, BlackoutComponent.create,
        BlackoutComponent.resized, SettingsClosure.run, SettingsWorld.backgroundVisible]

/-- C11, the code at the failing input: right after construction the settings dialog is
not visible while its overlay is a visible child of the editor.  A pointer press on the
overlay in that state saves the settings and leaves the overlay visible, since
`setVisible(false)` on the already invisible dialog does not call
`visibilityChanged()`. -/
theorem settingsDialog_overlay_visible_after_construction :
    (createSettingsDialog ⟨800, 600, []⟩).dialog.visible = false ∧
    (createSettingsDialog ⟨800, 600, []⟩).backgroundVisible = true ∧
    Child.background ∈ (createSettingsDialog ⟨800, 600, []⟩).parent.children ∧
    ((createSettingsDialog ⟨800, 600, []⟩).run
      [SettingsEvent.backgroundMouseDown]).settingsSaved = 1 ∧
    ((createSettingsDialog ⟨800, 600, []⟩).run
      [SettingsEvent.backgroundMouseDown]).dialog.visible = false ∧
    ((createSettingsDialog ⟨800, 600, []⟩).run
      [SettingsEvent.backgroundMouseDown]).backgroundVisible = true := by
  decide

/-! ### C13: engine updates during an edit gesture -/

end PlugData
